import Mathlib

/-!
Verification of the glyphcanvas shape-analysis core against its natural-language
specification.  The Go source is shallowly embedded:

* `uint16` coordinates are modelled as `ℕ`; wherever the Go code performs
  `uint16`/`int16` wrap-around conversions, the wrap is written out explicitly
  (`mod 65536` style arithmetic on `ℤ`).
* `float64` values are modelled as exact reals (`ℝ`).  Integer-valued float
  expressions on values below 2^53 (for example the cross-product side test on
  pixel coordinates) are exact in `float64`, so those are modelled over `ℤ`.
* A Go `map[uint16]map[uint16]bool` bitmap is modelled by the `Finset` of
  coordinates mapped to `true` together with the `Finset` of present outer
  keys; an entry holding `false` is observationally identical to an absent one
  (only `IsDrew` and the outer-key presence test read the map).
* Go string keys of the form `string(rune(x)) + "," + string(rune(y))` are
  modelled as pairs `(goRuneKey x, goRuneKey y)`: `string(rune(n))` maps every
  surrogate code point 0xD800–0xDFFF to U+FFFD, which `goRuneKey` reproduces.
* Where the source iterates an unordered Go map (Hough accumulators, skeleton
  branch maps), a canonical deterministic order is used, as §9 of the spec
  instructs implementers to do.
* Side-effect-only statements (`fmt.Printf` logging) are dropped; functions
  whose Go `error` result is constantly `nil` are modelled as returning their
  updated state directly.
-/

namespace Glyph

/-- Pixel coordinate pair; Go `Point { X, Y uint16 }` (declared in both the
`region` and the `character` package with identical shape). -/
structure Point where
  X : ℕ
  Y : ℕ
deriving DecidableEq

/-- Go `string(rune(n))` collapses the surrogate range to U+FFFD (65533);
all other `uint16` values are preserved.  Used to model the string keys the
source builds from coordinates. -/
def goRuneKey (n : ℕ) : ℕ :=
  if 55296 ≤ n ∧ n ≤ 57343 then 65533 else n

/-- Model of `region.Region` (also used for the structurally identical
`canvas.Region`): raster sizes, the bitmap map (as `Cols` = present outer keys
and `Bitmap` = the set of coordinates mapped to `true`), and the ordered draw
log. -/
structure Region where
  SizeX : ℕ
  SizeY : ℕ
  Cols : Finset ℕ
  Bitmap : Finset (ℕ × ℕ)
  Draws : List Point

/-- Go `NewRegion`. -/
def NewRegion (sizeX sizeY : ℕ) : Region :=
  { SizeX := sizeX, SizeY := sizeY, Cols := ∅, Bitmap := ∅, Draws := [] }

/-- Go `Region.IsDrew`: `true` iff the bitmap maps `(x, y)` to `true`. -/
def Region.IsDrew (r : Region) (x y : ℕ) : Bool :=
  decide ((x, y) ∈ r.Bitmap)

/-- Go `Region.Draw`: ensures the outer map entry, sets the bit and appends to
the draw log.  No bounds check is performed. -/
def Region.Draw (r : Region) (x y : ℕ) : Region :=
  { r with
    Cols := insert x r.Cols
    Bitmap := insert (x, y) r.Bitmap
    Draws := r.Draws ++ [⟨x, y⟩] }

/-- Go `Region.Erase`: no-op when the outer map has no entry for `x`,
otherwise sets the bit to `false`.  The draw log is untouched. -/
def Region.Erase (r : Region) (x y : ℕ) : Region :=
  if x ∈ r.Cols then { r with Bitmap := r.Bitmap.erase (x, y) } else r

/-- Go `Region.GetSizeX`. -/
def Region.GetSizeX (r : Region) : ℕ := r.SizeX

/-- Go `Region.GetSizeY`. -/
def Region.GetSizeY (r : Region) : ℕ := r.SizeY

/-- A call of the mutating `region` API: `Draw(x, y)` or `Erase(x, y)`. -/
inductive RegionOp where
  | draw (x y : ℕ)
  | erase (x y : ℕ)

/-- Apply one API call to a region. -/
def applyRegionOp (r : Region) (op : RegionOp) : Region :=
  match op with
  | .draw x y => r.Draw x y
  | .erase x y => r.Erase x y

/-- Apply a sequence of API calls, oldest first. -/
def applyRegionOps (r : Region) (ops : List RegionOp) : Region :=
  ops.foldl applyRegionOp r

/-- An operation whose draw arguments lie inside a `w × h` raster
(erase arguments are unrestricted). -/
def RegionOpInBounds (w h : ℕ) : RegionOp → Prop
  | .draw x y => x < w ∧ y < h
  | .erase _ _ => True

instance (w h : ℕ) (op : RegionOp) : Decidable (RegionOpInBounds w h op) := by
  cases op <;> simp only [RegionOpInBounds] <;> infer_instance

/-- Model of `character.CharacterConfig`; `float64` fields become `ℝ`,
`uint16` becomes `ℕ`, `int` becomes `ℤ`. -/
structure CharacterConfig where
  AnchorDetectionThreshold : ℝ
  MinAnchorDistance : ℝ
  CurvatureThreshold : ℝ
  MedialAxisEpsilon : ℝ
  MedialAxisSimplification : ℝ
  SkeletonPruningThreshold : ℝ
  MinRegionSize : ℕ
  RegionMergeThreshold : ℝ
  ConnectivityType : ℤ
  EnableStrokeAnalysis : Bool
  EnableTopologyAnalysis : Bool
  EnableJunctionDetection : Bool
  CircularityThreshold : ℝ
  LinearityThreshold : ℝ
  RectangularityThreshold : ℝ
  EnableParallelProcessing : Bool
  MaxRegions : ℤ
  ComputationTimeout : ℤ

/-- Go `DefaultCharacterConfig`. -/
noncomputable def DefaultCharacterConfig : CharacterConfig :=
  { AnchorDetectionThreshold := 0.7
    MinAnchorDistance := 3.0
    CurvatureThreshold := 0.5
    MedialAxisEpsilon := 0.1
    MedialAxisSimplification := 0.2
    SkeletonPruningThreshold := 5.0
    MinRegionSize := 4
    RegionMergeThreshold := 0.8
    ConnectivityType := 1
    EnableStrokeAnalysis := true
    EnableTopologyAnalysis := true
    EnableJunctionDetection := true
    CircularityThreshold := 0.85
    LinearityThreshold := 0.9
    RectangularityThreshold := 0.8
    EnableParallelProcessing := true
    MaxRegions := 100
    ComputationTimeout := 5000 }

/-- Model of `character.AnchorPoint`.  The Go field `Type` is spelled `Typ`
because `Type` is reserved in Lean. -/
structure AnchorPoint where
  Pt : Point
  Typ : String
  Strength : ℝ
  Curvature : ℝ
  Angle : ℝ

/-- Lookup in a Go `map[string]uint16` modelled as an association list;
missing keys yield the Go zero value `0`. -/
def goMapGet (m : List (String × ℕ)) (k : String) : ℕ :=
  ((m.find? fun e => e.1 == k).map Prod.snd).getD 0

/-- Assignment in a Go `map[string]uint16` modelled as an association list:
replace in place when the key is present, append otherwise. -/
def goMapSet (m : List (String × ℕ)) (k : String) (v : ℕ) : List (String × ℕ) :=
  if m.any (fun e => e.1 == k) then
    m.map fun e => if e.1 == k then (k, v) else e
  else
    m ++ [(k, v)]

/-- Model of `character.Character`.  The bitmap is modelled as for `Region`;
`BoundingBox` is the `map[string]uint16` as an association list;
`SkeletonBranches` (a Go map iterated in unspecified order) is a list of
branch-id/branch pairs in insertion order.  The untyped `Topology` bag and the
`Moments` cache are carried as a string-indexed real map (no claim reads
them). -/
structure Character where
  SizeX : ℕ
  SizeY : ℕ
  Cols : Finset ℕ
  Bitmap : Finset (ℕ × ℕ)
  Draws : List Point
  AnchorPoints : List AnchorPoint
  Regions : List Region
  MedialAxis : List Point
  SkeletonBranches : List (ℕ × List Point)
  Moments : String → ℝ
  BoundingBox : List (String × ℕ)
  Config : CharacterConfig

/-- Go `NewCharacter`; a `nil` config is replaced by the default. -/
noncomputable def NewCharacter (sizeX sizeY : ℕ) (config : Option CharacterConfig) :
    Character :=
  { SizeX := sizeX, SizeY := sizeY, Cols := ∅, Bitmap := ∅, Draws := []
    AnchorPoints := [], Regions := [], MedialAxis := [], SkeletonBranches := []
    Moments := fun _ => 0, BoundingBox := []
    Config := config.getD DefaultCharacterConfig }

/-- Go `Character.IsDrew`. -/
def Character.IsDrew (c : Character) (x y : ℕ) : Bool :=
  decide ((x, y) ∈ c.Bitmap)

/-- Go `Character.updateBoundingBox`: on the first logged pixel all four keys
are written; afterwards each bound is widened in source order (missing keys
read as the Go zero value `0`). -/
def Character.updateBoundingBox (c : Character) (x y : ℕ) : Character :=
  if c.Draws.length = 1 then
    { c with BoundingBox :=
        goMapSet (goMapSet (goMapSet (goMapSet c.BoundingBox "minX" x)
          "maxX" x) "minY" y) "maxY" y }
  else
    let bb := c.BoundingBox
    let bb := if x < goMapGet bb "minX" then goMapSet bb "minX" x else bb
    let bb := if goMapGet bb "maxX" < x then goMapSet bb "maxX" x else bb
    let bb := if y < goMapGet bb "minY" then goMapSet bb "minY" y else bb
    let bb := if goMapGet bb "maxY" < y then goMapSet bb "maxY" y else bb
    { c with BoundingBox := bb }

/-- Go `Character.Draw`: set the bit, append to the log, update the bounding
box.  No bounds check is performed. -/
def Character.Draw (c : Character) (x y : ℕ) : Character :=
  let c :=
    { c with
      Cols := insert x c.Cols
      Bitmap := insert (x, y) c.Bitmap
      Draws := c.Draws ++ [(⟨x, y⟩ : Point)] }
  c.updateBoundingBox x y

/-- Go `Character.recalculateBoundingBox`: empty log clears the map, otherwise
all four bounds are recomputed by scanning the whole log starting from the
first entry. -/
def Character.recalculateBoundingBox (c : Character) : Character :=
  match c.Draws with
  | [] => { c with BoundingBox := [] }
  | p :: _ =>
    let b := c.Draws.foldl
      (fun (b : ℕ × ℕ × ℕ × ℕ) q =>
        (min b.1 q.X, max b.2.1 q.X, min b.2.2.1 q.Y, max b.2.2.2 q.Y))
      (p.X, p.X, p.Y, p.Y)
    { c with BoundingBox :=
        goMapSet (goMapSet (goMapSet (goMapSet c.BoundingBox "minX" b.1)
          "maxX" b.2.1) "minY" b.2.2.1) "maxY" b.2.2.2 }

/-- Go `Character.Erase`: no-op if the outer bitmap entry is missing;
otherwise clears the bit, removes the first matching draw-log entry (the loop
breaks after the first hit) and recomputes the bounding box. -/
def Character.Erase (c : Character) (x y : ℕ) : Character :=
  if x ∈ c.Cols then
    let c := { c with Bitmap := c.Bitmap.erase (x, y) }
    let c := { c with Draws := c.Draws.eraseP fun p => decide (p.X = x ∧ p.Y = y) }
    c.recalculateBoundingBox
  else c

/-- Go `Character.GetPixelCount` (the length of the draw log). -/
def Character.GetPixelCount (c : Character) : ℕ := c.Draws.length

/-- Go `Character.IsEmpty` (an empty draw log). -/
def Character.IsEmpty (c : Character) : Bool := decide (c.Draws = [])

/-- Go `Character.AddAnchorPoint`. -/
def Character.AddAnchorPoint (c : Character) (x y : ℕ) (anchorType : String)
    (strength curvature angle : ℝ) : Character :=
  { c with AnchorPoints := c.AnchorPoints ++
      [{ Pt := ⟨x, y⟩, Typ := anchorType, Strength := strength
         Curvature := curvature, Angle := angle }] }

/-- Go `Character.GetAnchorPointsByType`. -/
def Character.GetAnchorPointsByType (c : Character) (anchorType : String) :
    List AnchorPoint :=
  c.AnchorPoints.filter fun a => a.Typ == anchorType

/-- Go `Character.ClearAnalysisResults`. -/
def Character.ClearAnalysisResults (c : Character) : Character :=
  { c with AnchorPoints := [], Regions := [], MedialAxis := []
           SkeletonBranches := [], Moments := fun _ => 0 }

/-- The bounding-box association list `recalculateBoundingBox` produces for a
given draw log (used to state bounding-box consistency). -/
def bbListOf (draws : List Point) : List (String × ℕ) :=
  match draws with
  | [] => []
  | p :: _ =>
    let b := draws.foldl
      (fun (b : ℕ × ℕ × ℕ × ℕ) q =>
        (min b.1 q.X, max b.2.1 q.X, min b.2.2.1 q.Y, max b.2.2.2 q.Y))
      (p.X, p.X, p.Y, p.Y)
    [("minX", b.1), ("maxX", b.2.1), ("minY", b.2.2.1), ("maxY", b.2.2.2)]

/-- Raw moment sum `Σ x^a · y^b` over the drawn pixels scanned by the double
loop of `RegionComputeMoments` (`x ∈ [0, SizeX)`, `y ∈ [0, SizeY)`,
restricted to `IsDrew`). -/
noncomputable def momentSum (r : Region) (a b : ℕ) : ℝ :=
  ∑ p ∈ (Finset.range r.SizeX ×ˢ Finset.range r.SizeY).filter
      (fun p => r.IsDrew p.1 p.2), (p.1 : ℝ) ^ a * (p.2 : ℝ) ^ b

/-- Go `RegionComputeMoments`, modelled extensionally as the resulting
`map[string]float64`: the ten raw moments are always present, the centroid and
the seven central moments only when `m00 > 0`, and every other key reads as
the Go zero value `0`. -/
noncomputable def RegionComputeMoments (reg : Region) : String → ℝ := fun key =>
  let m00 := momentSum reg 0 0
  let m10 := momentSum reg 1 0
  let m01 := momentSum reg 0 1
  let m11 := momentSum reg 1 1
  let m20 := momentSum reg 2 0
  let m02 := momentSum reg 0 2
  let m21 := momentSum reg 2 1
  let m12 := momentSum reg 1 2
  let m30 := momentSum reg 3 0
  let m03 := momentSum reg 0 3
  let cx := m10 / m00
  let cy := m01 / m00
  if key = "m00" then m00
  else if key = "m10" then m10
  else if key = "m01" then m01
  else if key = "m11" then m11
  else if key = "m20" then m20
  else if key = "m02" then m02
  else if key = "m21" then m21
  else if key = "m12" then m12
  else if key = "m30" then m30
  else if key = "m03" then m03
  else if 0 < m00 then
    if key = "cx" then cx
    else if key = "cy" then cy
    else if key = "mu20" then m20 - cx * m10
    else if key = "mu02" then m02 - cy * m01
    else if key = "mu11" then m11 - cx * m01
    else if key = "mu30" then m30 - 3 * cx * m20 + 2 * cx * cx * m10
    else if key = "mu21" then m21 - 2 * cx * m11 - cy * m20 + 2 * cx * cx * m01
    else if key = "mu12" then m12 - 2 * cy * m11 - cx * m02 + 2 * cy * cy * m10
    else if key = "mu03" then m03 - 3 * cy * m02 + 2 * cy * cy * m01
    else 0
  else 0

/-- Go `RegionComputeHuInvariants`: the seven Hu combinations computed from
the code's normalized moments — second-order central moments divided by
`math.Pow(m00, 2.5)` and third-order ones by `math.Pow(m00, 3.5)`.  An
`m00` of zero returns the zero-filled slice. -/
noncomputable def RegionComputeHuInvariants (moments : String → ℝ) : List ℝ :=
  let m00 := moments "m00"
  if m00 = 0 then [0, 0, 0, 0, 0, 0, 0]
  else
    let norm := m00 ^ (2.5 : ℝ)
    let eta20 := moments "mu20" / norm
    let eta02 := moments "mu02" / norm
    let eta11 := moments "mu11" / norm
    let eta30 := moments "mu30" / m00 ^ (3.5 : ℝ)
    let eta21 := moments "mu21" / m00 ^ (3.5 : ℝ)
    let eta12 := moments "mu12" / m00 ^ (3.5 : ℝ)
    let eta03 := moments "mu03" / m00 ^ (3.5 : ℝ)
    [eta20 + eta02,
     (eta20 - eta02) ^ 2 + 4 * eta11 ^ 2,
     (eta30 - 3 * eta12) ^ 2 + (3 * eta21 - eta03) ^ 2,
     (eta30 + eta12) ^ 2 + (eta21 + eta03) ^ 2,
     (eta30 - 3 * eta12) * (eta30 + eta12) *
         ((eta30 + eta12) ^ 2 - 3 * (eta21 + eta03) ^ 2) +
       (3 * eta21 - eta03) * (eta21 + eta03) *
         (3 * (eta30 + eta12) ^ 2 - (eta21 + eta03) ^ 2),
     (eta20 - eta02) * ((eta30 + eta12) ^ 2 - (eta21 + eta03) ^ 2) +
       4 * eta11 * (eta30 + eta12) * (eta21 + eta03),
     (3 * eta21 - eta03) * (eta30 + eta12) *
         ((eta30 + eta12) ^ 2 - 3 * (eta21 + eta03) ^ 2) -
       (eta30 - 3 * eta12) * (eta21 + eta03) *
         (3 * (eta30 + eta12) ^ 2 - (eta21 + eta03) ^ 2)]

/-- Modelled from the spec (§4.1): the same seven Hu combinations but with the
spec's normalization `η_pq = μ_pq / m00^((p+q)/2 + 1)` — second-order central
moments divided by `m00^2`, third-order ones by `m00^2.5`.  Used to compare
the claimed normalization against the code's. -/
noncomputable def huInvariantsSpecNormalized (moments : String → ℝ) : List ℝ :=
  let m00 := moments "m00"
  if m00 = 0 then [0, 0, 0, 0, 0, 0, 0]
  else
    let norm := m00 ^ ((2 : ℝ) / 2 + 1)
    let thirdNorm := m00 ^ ((3 : ℝ) / 2 + 1)
    let eta20 := moments "mu20" / norm
    let eta02 := moments "mu02" / norm
    let eta11 := moments "mu11" / norm
    let eta30 := moments "mu30" / thirdNorm
    let eta21 := moments "mu21" / thirdNorm
    let eta12 := moments "mu12" / thirdNorm
    let eta03 := moments "mu03" / thirdNorm
    [eta20 + eta02,
     (eta20 - eta02) ^ 2 + 4 * eta11 ^ 2,
     (eta30 - 3 * eta12) ^ 2 + (3 * eta21 - eta03) ^ 2,
     (eta30 + eta12) ^ 2 + (eta21 + eta03) ^ 2,
     (eta30 - 3 * eta12) * (eta30 + eta12) *
         ((eta30 + eta12) ^ 2 - 3 * (eta21 + eta03) ^ 2) +
       (3 * eta21 - eta03) * (eta21 + eta03) *
         (3 * (eta30 + eta12) ^ 2 - (eta21 + eta03) ^ 2),
     (eta20 - eta02) * ((eta30 + eta12) ^ 2 - (eta21 + eta03) ^ 2) +
       4 * eta11 * (eta30 + eta12) * (eta21 + eta03),
     (3 * eta21 - eta03) * (eta30 + eta12) *
         ((eta30 + eta12) ^ 2 - 3 * (eta21 + eta03) ^ 2) -
       (eta30 - 3 * eta12) * (eta21 + eta03) *
         (3 * (eta30 + eta12) ^ 2 - (eta21 + eta03) ^ 2)]

/-- Modelled from the spec, amended to the code's exponents: normalization
`η_pq = μ_pq / m00^((p+q) + 1/2)` — second order divided by `m00^2.5`, third
order by `m00^3.5`. -/
noncomputable def huInvariantsAmendedNormalized (moments : String → ℝ) : List ℝ :=
  let m00 := moments "m00"
  if m00 = 0 then [0, 0, 0, 0, 0, 0, 0]
  else
    let norm := m00 ^ ((2 : ℝ) + 1 / 2)
    let thirdNorm := m00 ^ ((3 : ℝ) + 1 / 2)
    let eta20 := moments "mu20" / norm
    let eta02 := moments "mu02" / norm
    let eta11 := moments "mu11" / norm
    let eta30 := moments "mu30" / thirdNorm
    let eta21 := moments "mu21" / thirdNorm
    let eta12 := moments "mu12" / thirdNorm
    let eta03 := moments "mu03" / thirdNorm
    [eta20 + eta02,
     (eta20 - eta02) ^ 2 + 4 * eta11 ^ 2,
     (eta30 - 3 * eta12) ^ 2 + (3 * eta21 - eta03) ^ 2,
     (eta30 + eta12) ^ 2 + (eta21 + eta03) ^ 2,
     (eta30 - 3 * eta12) * (eta30 + eta12) *
         ((eta30 + eta12) ^ 2 - 3 * (eta21 + eta03) ^ 2) +
       (3 * eta21 - eta03) * (eta21 + eta03) *
         (3 * (eta30 + eta12) ^ 2 - (eta21 + eta03) ^ 2),
     (eta20 - eta02) * ((eta30 + eta12) ^ 2 - (eta21 + eta03) ^ 2) +
       4 * eta11 * (eta30 + eta12) * (eta21 + eta03),
     (3 * eta21 - eta03) * (eta30 + eta12) *
         ((eta30 + eta12) ^ 2 - 3 * (eta21 + eta03) ^ 2) -
       (eta30 - 3 * eta12) * (eta21 + eta03) *
         (3 * (eta30 + eta12) ^ 2 - (eta21 + eta03) ^ 2)]

/-- Concrete moments map separating the code's normalization from the spec's:
`m00 = 4`, `mu20 = 1`, everything else `0`. -/
noncomputable def c5Moments : String → ℝ := fun key =>
  if key = "m00" then 4 else if key = "mu20" then 1 else 0

/-- Sum `Σ x^a · y^b` over an explicit pixel set (proof abbreviation for the
bitmap of a region whose pixels all lie on the scanned grid). -/
noncomputable def pixSum (S : Finset (ℕ × ℕ)) (a b : ℕ) : ℝ :=
  ∑ p ∈ S, (p.1 : ℝ) ^ a * (p.2 : ℝ) ^ b

/-- Sum `Σ (x+d)^a · (y+e)^b` over an explicit pixel set (the moments of the
translated pixel set, pulled back to the original set). -/
noncomputable def pixSumT (S : Finset (ℕ × ℕ)) (d e : ℝ) (a b : ℕ) : ℝ :=
  ∑ p ∈ S, ((p.1 : ℝ) + d) ^ a * ((p.2 : ℝ) + e) ^ b

/-- Modelled from the spec (§8): the region with every foreground pixel
translated by the constant integer offset `(dx, dy)` (raster size unchanged;
the draw log is translated alongside). -/
def translateRegion (r : Region) (dx dy : ℤ) : Region :=
  { r with
    Cols := r.Cols.image fun x => (((x : ℕ) : ℤ) + dx).toNat
    Bitmap := r.Bitmap.image fun p =>
      ((((p.1 : ℤ) + dx).toNat, ((p.2 : ℤ) + dy).toNat) : ℕ × ℕ)
    Draws := r.Draws.map fun p =>
      (⟨((p.X : ℤ) + dx).toNat, ((p.Y : ℤ) + dy).toNat⟩ : Point) }

/-- Go `ArcType` (shape kind of a classified region). -/
inductive ArcType where
  | ArcTypeCircle
  | ArcTypeStrengthLine
  | ArcTypeCurveLine
  | ArcTypeTriangle
  | ArcTypeRectangle
deriving DecidableEq

/-- Go `ArcFillType`. -/
inductive ArcFillType where
  | ArcFillTypeFill
  | ArcFillTypeStroke
deriving DecidableEq

/-- Go `region.HoughAccumulator` / `canvas.HoughAccumulator`: a detected line
(ρ, θ, votes) or circle (radius, center angle, votes).  The `region`-package
declaration is in a file missing from src/; its shape is taken from its uses
and from §3 of the spec. -/
structure HoughAccumulator where
  Rho : ℝ
  Theta : ℝ
  Votes : ℤ

/-- Go `region.EdgePoint` / `canvas.EdgePoint`: integer pixel coordinate plus
gradient angle. -/
structure EdgePoint where
  X : ℤ
  Y : ℤ
  Angle : ℝ

/-- Go `RegionComputeCircularity`: `1 / (1 + √I2 / I1)` when `I1 > 0`,
otherwise `0` (also `0` when fewer than two invariants are supplied). -/
noncomputable def RegionComputeCircularity (hu : List ℝ) : ℝ :=
  if hu.length < 2 then 0
  else
    let I1 := hu.getD 0 0
    let I2 := hu.getD 1 0
    if 0 < I1 then 1 / (1 + Real.sqrt I2 / I1) else 0

/-- Go `RegionComputeLinearity`: `1 / (1 + 100·Σ|hu[2..]|)`, snapped to `1`
when the sum is below `0.01`; `0` when fewer than three invariants. -/
noncomputable def RegionComputeLinearity (hu : List ℝ) : ℝ :=
  if hu.length < 3 then 0
  else
    let sum := ((hu.drop 2).map fun v => |v|).sum
    if sum < 0.01 then 1.0
    else 1 / (1 + sum * 100)

/-- Go `RegionComputeRectangularity`: `exp(−10·Σ|hu[i] − ref[i]|)` against
the fixed reference Hu vector; `0` when fewer than seven invariants. -/
noncomputable def RegionComputeRectangularity (hu : List ℝ) : ℝ :=
  if hu.length < 7 then 0
  else
    let rectangleHu : List ℝ := [0.16, 0.0013, 0, 0, 0, 0, 0]
    let diff := (List.range 7).foldl
      (fun acc i => acc + |hu.getD i 0 - rectangleHu.getD i 0|) 0
    Real.exp (-diff * 10)

open Classical in
/-- Go `RegionDetectCorners`: indices whose curvature magnitude exceeds π/6
and is a local maximum within the ±2-index window (window positions outside
the slice are skipped); the `edges` argument is unused by the source. -/
noncomputable def RegionDetectCorners (curvatures : List ℝ)
    (_edges : List EdgePoint) : List ℕ :=
  (List.range curvatures.length).filter fun i =>
    decide (Real.pi / 6 < |curvatures.getD i 0| ∧
      ∀ j ∈ [(i : ℤ) - 2, (i : ℤ) - 1, (i : ℤ) + 1, (i : ℤ) + 2],
        0 ≤ j → j < (curvatures.length : ℤ) →
          ¬ (|curvatures.getD i 0| < |curvatures.getD j.toNat 0|))

/-- The mean absolute curvature as `RegionClassifyShape` computes it
(`Σ|c|`, divided by the length only when nonzero). -/
noncomputable def meanAbsCurvature (curvatures : List ℝ) : ℝ :=
  if 0 < curvatures.length then
    (curvatures.map fun c => |c|).sum / curvatures.length
  else
    (curvatures.map fun c => |c|).sum

/-- Go `RegionClassifyShape`: first-match-wins classification.  The
early-return ladder is written as nested if-expressions; each guard is the
conjunction of the Go guard and the nested threshold test it falls through
from.  Integer division is Go's truncating division (`Int.tdiv`). -/
noncomputable def RegionClassifyShape (fillType : ArcFillType) (drawsCount : ℤ)
    (hu curvatures : List ℝ) (lines circles : List HoughAccumulator) :
    ArcType × ArcFillType :=
  if 0 < circles.length ∧ Int.tdiv drawsCount 3 < (circles.headD ⟨0, 0, 0⟩).Votes ∧
      0.7 < RegionComputeCircularity hu then
    (ArcType.ArcTypeCircle, fillType)
  else if 0 < lines.length ∧ Int.tdiv drawsCount 2 < (lines.headD ⟨0, 0, 0⟩).Votes ∧
      0.8 < RegionComputeLinearity hu then
    (ArcType.ArcTypeStrengthLine, fillType)
  else if (RegionDetectCorners curvatures []).length = 3 then
    (ArcType.ArcTypeTriangle, fillType)
  else if (RegionDetectCorners curvatures []).length = 4 ∧
      0.7 < RegionComputeRectangularity hu then
    (ArcType.ArcTypeRectangle, fillType)
  else if 0.1 < meanAbsCurvature curvatures ∧ meanAbsCurvature curvatures < 0.8 then
    (ArcType.ArcTypeCurveLine, fillType)
  else
    (ArcType.ArcTypeStrengthLine, fillType)

/-- Largest finite `float64` (`math.MaxFloat64`), the sentinel the source
seeds running minima with. -/
noncomputable def maxFloat64 : ℝ := 1.7976931348623157e308

/-- Go `int(f)` conversion: truncation toward zero. -/
noncomputable def goTruncInt (f : ℝ) : ℤ :=
  if 0 ≤ f then ⌊f⌋ else -⌊-f⌋

/-- Rounding used by `fmt.Sprintf("%.0f", ·)`: round half to even. -/
noncomputable def goRoundEven (f : ℝ) : ℤ :=
  let n := ⌊f⌋
  let r := f - n
  if r < 1 / 2 then n
  else if 1 / 2 < r then n + 1
  else if Even n then n else n + 1

/-- Go `math.Atan2` on exact reals (signed zeros collapse to `0`). -/
noncomputable def goAtan2 (y x : ℝ) : ℝ :=
  if 0 < x then Real.arctan (y / x)
  else if x < 0 then
    (if 0 ≤ y then Real.arctan (y / x) + Real.pi else Real.arctan (y / x) - Real.pi)
  else if 0 < y then Real.pi / 2
  else if y < 0 then -(Real.pi / 2)
  else 0

/-- The exclusive upper bound `r.SizeX - 1` computed in `uint16` arithmetic
(wraps to 65535 when the size is 0), used by the interior-only scans. -/
def edgeLimit (n : ℕ) : ℕ := (n + 65535) % 65536

/-- The 8-neighborhood offsets in the order of the `dx`/`dy` arrays of
`canvas.Region.extractEdges`. -/
def edgeNeighborOffsets : List (ℤ × ℤ) :=
  [(-1, -1), (0, -1), (1, -1), (-1, 0), (1, 0), (-1, 1), (0, 1), (1, 1)]

/-- The 8-neighborhood offsets in the nested-loop order of
`determineFillType` (`dx` outer, `dy` inner, center skipped). -/
def fillNeighborOffsets : List (ℤ × ℤ) :=
  [(-1, -1), (-1, 0), (-1, 1), (0, -1), (0, 1), (1, -1), (1, 0), (1, 1)]

/-- The edge test of `canvas.Region.extractEdges`: some in-bounds 8-neighbor
is background (neighbor coordinates are `int`s, no wrap). -/
def canvasIsEdge (r : Region) (x y : ℕ) : Bool :=
  edgeNeighborOffsets.any fun d =>
    let nx : ℤ := (x : ℤ) + d.1
    let ny : ℤ := (y : ℤ) + d.2
    decide (0 ≤ nx ∧ nx < (r.SizeX : ℤ) ∧ 0 ≤ ny ∧ ny < (r.SizeY : ℤ)) &&
      !(r.IsDrew nx.toNat ny.toNat)

/-- The interior coordinates `canvas.Region.extractEdges` reports as edge
pixels, in scan order (`x` outer from 1 to `SizeX-2`, `y` inner). -/
def edgeCells (r : Region) : List (ℕ × ℕ) :=
  (List.range' 1 (edgeLimit r.SizeX - 1)).flatMap fun x =>
    (List.range' 1 (edgeLimit r.SizeY - 1)).filterMap fun y =>
      if r.IsDrew x y && canvasIsEdge r x y then some (x, y) else none

/-- Go `canvas.Region.computeGradientAngle`: 3×3 Sobel over the binary values
(out-of-bounds samples contribute nothing), then `atan2(gy, gx)`. -/
noncomputable def computeGradientAngle (r : Region) (x y : ℕ) : ℝ :=
  let sobelXK : List (List ℝ) := [[-1, 0, 1], [-2, 0, 2], [-1, 0, 1]]
  let sobelYK : List (List ℝ) := [[-1, -2, -1], [0, 0, 0], [1, 2, 1]]
  let idx : List (ℤ × ℤ) :=
    [(-1, -1), (-1, 0), (-1, 1), (0, -1), (0, 0), (0, 1), (1, -1), (1, 0), (1, 1)]
  let val : ℤ × ℤ → ℝ := fun ij =>
    let px := (x : ℤ) + ij.1
    let py := (y : ℤ) + ij.2
    if 0 ≤ px ∧ px < (r.SizeX : ℤ) ∧ 0 ≤ py ∧ py < (r.SizeY : ℤ) ∧
        r.IsDrew px.toNat py.toNat then 1 else 0
  let gx := (idx.map fun ij =>
    val ij * ((sobelXK.getD (ij.2 + 1).toNat []).getD (ij.1 + 1).toNat 0)).sum
  let gy := (idx.map fun ij =>
    val ij * ((sobelYK.getD (ij.2 + 1).toNat []).getD (ij.1 + 1).toNat 0)).sum
  goAtan2 gy gx

/-- Go `canvas.Region.extractEdges`: the interior edge pixels with their
gradient angles, in scan order. -/
noncomputable def extractEdges (r : Region) : List EdgePoint :=
  (edgeCells r).map fun p =>
    { X := (p.1 : ℤ), Y := (p.2 : ℤ), Angle := computeGradientAngle r p.1 p.2 }

/-- One step of the greedy nearest-neighbor scan of
`RegionSortEdgesForContour` / `canvas.sortEdgesForContour`: the first
unvisited index at minimal Euclidean distance from the current point
(running minimum seeded with `math.MaxFloat64`, strict `<` keeps the first
minimizer). -/
noncomputable def nearestUnvisited (edges : List EdgePoint) (visited : Finset ℕ)
    (cur : EdgePoint) : Option ℕ :=
  ((List.range edges.length).foldl
    (fun acc i =>
      if i ∈ visited then acc
      else
        let e := edges.getD i ⟨0, 0, 0⟩
        let dist := Real.sqrt ((((e.X - cur.X) * (e.X - cur.X) +
          (e.Y - cur.Y) * (e.Y - cur.Y) : ℤ) : ℝ))
        if dist < acc.2 then (some i, dist) else acc)
    ((none : Option ℕ), maxFloat64)).1

/-- The greedy loop of the contour sort; `fuel` bounds the iteration count
(the caller passes `edges.length`, which the loop can never exceed since
every iteration visits a fresh index). -/
noncomputable def sortEdgesAux (edges : List EdgePoint) :
    ℕ → List EdgePoint → Finset ℕ → EdgePoint → List EdgePoint
  | 0, sorted, _, _ => sorted
  | fuel + 1, sorted, visited, cur =>
    if sorted.length < edges.length then
      match nearestUnvisited edges visited cur with
      | none => sorted
      | some i =>
        let e := edges.getD i ⟨0, 0, 0⟩
        sortEdgesAux edges fuel (sorted ++ [e]) (insert i visited) e
    else sorted

/-- Go `RegionSortEdgesForContour` / `canvas.sortEdgesForContour`: greedy
nearest-neighbor visiting order starting from the first edge point. -/
noncomputable def RegionSortEdgesForContour (edges : List EdgePoint) :
    List EdgePoint :=
  match edges with
  | [] => []
  | e0 :: _ => sortEdgesAux edges edges.length [e0] {0} e0

/-- The 8-direction encoding of consecutive steps (`dx`/`dy` to chain code;
non-unit steps keep the zero-initialized fallback code 0). -/
def chainSteps (sortedEdges : List EdgePoint) : List ℤ :=
  (List.range (sortedEdges.length - 1)).map fun k =>
    let dx := (sortedEdges.getD (k + 1) ⟨0, 0, 0⟩).X -
      (sortedEdges.getD k ⟨0, 0, 0⟩).X
    let dy := (sortedEdges.getD (k + 1) ⟨0, 0, 0⟩).Y -
      (sortedEdges.getD k ⟨0, 0, 0⟩).Y
    if dx = 1 ∧ dy = 0 then 0
    else if dx = 1 ∧ dy = -1 then 1
    else if dx = 0 ∧ dy = -1 then 2
    else if dx = -1 ∧ dy = -1 then 3
    else if dx = -1 ∧ dy = 0 then 4
    else if dx = -1 ∧ dy = 1 then 5
    else if dx = 0 ∧ dy = 1 then 6
    else if dx = 1 ∧ dy = 1 then 7
    else 0

/-- Go `RegionComputeChainCode` / `canvas.Region.computeChainCode`: empty for
fewer than two edges, otherwise the chain codes along the greedy contour
order. -/
noncomputable def canvasComputeChainCode (edges : List EdgePoint) : List ℤ :=
  if edges.length < 2 then []
  else chainSteps (RegionSortEdgesForContour edges)

/-- The single wrap into (−π, π] applied to each turning angle. -/
noncomputable def wrapAnglePi (t : ℝ) : ℝ :=
  if Real.pi < t then t - 2 * Real.pi
  else if t < -Real.pi then t + 2 * Real.pi
  else t

/-- Go `canvas.Region.computeCurvatures`: cyclic mean of the two wrapped
turning angles at every chain-code index. -/
noncomputable def canvasComputeCurvatures (chainCode : List ℤ) : List ℝ :=
  (List.range chainCode.length).map fun (i : ℕ) =>
    let n := chainCode.length
    let prev := chainCode.getD (((i : ℤ) - 1 + n) % n).toNat 0
    let curr := chainCode.getD i 0
    let next := chainCode.getD ((i + 1) % n) 0
    let angle1 := wrapAnglePi (((curr - prev : ℤ) : ℝ) * Real.pi / 4)
    let angle2 := wrapAnglePi (((next - curr : ℤ) : ℝ) * Real.pi / 4)
    (angle1 + angle2) / 2

/-- Go `RegionDetectLinesHough` / `canvas.Region.detectLinesHough`: vote in
the discretized (ρ, θ) space (1° θ-steps over [0, π), 180 samples; ρ index
truncated from `ρ + ρmax`; `ρmax = √(SizeX² + SizeY²)` computed in `uint16`
arithmetic, hence the mod 65536), keep keys with more than `edges/4` votes,
sort by votes descending and keep the top 5.  The Go map iteration order is
unspecified; keys are enumerated in the canonical first-vote order
(`List.dedup` keeps the last duplicate, any fixed order works), with the
stable sort breaking ties deterministically as §9 instructs. -/
noncomputable def detectLinesHough (r : Region) (edges : List EdgePoint) :
    List HoughAccumulator :=
  if edges.length < 2 then []
  else
    let maxRho := Real.sqrt (((r.SizeX * r.SizeX + r.SizeY * r.SizeY) % 65536 : ℕ) : ℝ)
    let keys : List (ℤ × ℕ) := edges.flatMap fun e =>
      (List.range 180).map fun (t : ℕ) =>
        let theta := (t : ℝ) * (Real.pi / 180)
        let rho := (e.X : ℝ) * Real.cos theta + (e.Y : ℝ) * Real.sin theta
        (goTruncInt ((rho + maxRho) / 1), t)
    let lines := keys.dedup.filterMap fun k =>
      let votes := keys.count k
      if edges.length / 4 < votes then
        some ({ Rho := (k.1 : ℝ) * 1 - maxRho,
                Theta := (k.2 : ℝ) * (Real.pi / 180),
                Votes := (votes : ℤ) } : HoughAccumulator)
      else none
    let sorted := lines.mergeSort fun a b => decide (b.Votes ≤ a.Votes)
    sorted.take 5

/-- Go `canvas.Region.detectCirclesHough`: for each edge point, radii 5, 7, …
up to `min(SizeX, SizeY)/2` and 36 angle samples vote for the quantized
center/radius key (printed with `%.0f`, hence round-half-even); keys with
more than `edges/10` votes become accumulators carrying `(radius,
atan2(b, a))`, sorted by votes descending, top 3.  Key enumeration order is
canonicalized as for the lines. -/
noncomputable def detectCirclesHough (r : Region) (edges : List EdgePoint) :
    List HoughAccumulator :=
  if edges.length < 3 then []
  else
    let m := min r.SizeX r.SizeY
    let radiusCount := if 10 ≤ m then (m - 10) / 4 + 1 else 0
    let keys : List (ℤ × ℤ × ℤ) := edges.flatMap fun e =>
      (List.range radiusCount).flatMap fun (k : ℕ) =>
        let radius : ℝ := 5 + 2 * (k : ℝ)
        (List.range 36).filterMap fun (t : ℕ) =>
          let theta := (t : ℝ) * (Real.pi / 18)
          let a := (e.X : ℝ) - radius * Real.cos theta
          let b := (e.Y : ℝ) - radius * Real.sin theta
          if 0 ≤ a ∧ a < (r.SizeX : ℝ) ∧ 0 ≤ b ∧ b < (r.SizeY : ℝ) then
            some (goRoundEven a, goRoundEven b, goRoundEven radius)
          else none
    let circles := keys.dedup.filterMap fun k =>
      let votes := keys.count k
      if edges.length / 10 < votes then
        some ({ Rho := (k.2.2 : ℝ), Theta := goAtan2 (k.2.1 : ℝ) (k.1 : ℝ),
                Votes := (votes : ℤ) } : HoughAccumulator)
      else none
    let sorted := circles.mergeSort fun a b => decide (b.Votes ≤ a.Votes)
    sorted.take 3

/-- The edge-likeness test of `determineFillType` (its own neighbor-loop
order). -/
def fillHasEmptyNeighbor (r : Region) (x y : ℕ) : Bool :=
  fillNeighborOffsets.any fun d =>
    let nx : ℤ := (x : ℤ) + d.1
    let ny : ℤ := (y : ℤ) + d.2
    decide (0 ≤ nx ∧ nx < (r.SizeX : ℤ) ∧ 0 ≤ ny ∧ ny < (r.SizeY : ℤ)) &&
      !(r.IsDrew nx.toNat ny.toNat)

/-- Go `canvas.Region.determineFillType` (and the textually identical
`RegionDetermineFillType` helper): Stroke when more than 30% of the interior
foreground pixels have a background 8-neighbor, else Fill. -/
noncomputable def determineFillType (r : Region) : ArcFillType :=
  let cells := (List.range' 1 (edgeLimit r.SizeX - 1)).flatMap fun x =>
    (List.range' 1 (edgeLimit r.SizeY - 1)).filterMap fun y =>
      if r.IsDrew x y then some (x, y) else none
  let totalCount := cells.length
  let edgeCount := (cells.filter fun p => fillHasEmptyNeighbor r p.1 p.2).length
  if 0 < totalCount ∧ (0.3 : ℝ) < (edgeCount : ℝ) / (totalCount : ℝ) then
    ArcFillType.ArcFillTypeStroke
  else ArcFillType.ArcFillTypeFill

/-- Go `canvas.Region.classifyShape`: computes the fill verdict and runs the
classification ladder.  The method body is textually identical to
`RegionClassifyShape` with `fillType := r.determineFillType()` and
`drawsCount := len(r.Draws)` (and the canvas-local metric helpers are
textually identical to the `regionHelper` ones). -/
noncomputable def canvasClassifyShape (r : Region) (hu curvatures : List ℝ)
    (lines circles : List HoughAccumulator) : ArcType × ArcFillType :=
  RegionClassifyShape (determineFillType r) (r.Draws.length : ℤ)
    hu curvatures lines circles

/-- Go `canvas.Region.computeEllipseRatio`: min/max eigenvalue ratio of the
central-moment covariance matrix, defaulting to 1 in the degenerate cases
(the `float32` narrowing of the source is dropped). -/
noncomputable def computeEllipseRatio (moments : String → ℝ) : ℝ :=
  let mu20 := moments "mu20"
  let mu02 := moments "mu02"
  let mu11 := moments "mu11"
  if mu20 + mu02 = 0 then 1
  else
    let disc := Real.sqrt ((mu20 - mu02) ^ 2 + 4 * mu11 * mu11)
    let lambda1 := (mu20 + mu02 + disc) / 2
    let lambda2 := (mu20 + mu02 - disc) / 2
    if 0 < lambda1 ∧ 0 < lambda2 then
      min lambda1 lambda2 / max lambda1 lambda2
    else 1

/-- Go `RegionComputeLineDegree` / `canvas.Region.computeLineDegree`: convert
the top line's θ to a direction angle in [0, 180), snap to the nearest of
{0, 45, 90, 135} with wraparound, and report near-180 cases as 180. -/
noncomputable def computeLineDegree (lines : List HoughAccumulator) : ℝ :=
  if lines.length = 0 then 0
  else
    let theta := (lines.headD ⟨0, 0, 0⟩).Theta
    let degree := theta * 180 / Real.pi
    let d0 := degree - 90
    let d1 := if d0 < 0 then d0 + 180 else d0
    let lineDegree := if 180 ≤ d1 then d1 - 180 else d1
    let best := ([0, 45, 90, 135] : List ℝ).foldl
      (fun acc target =>
        let acc := if |lineDegree - target| < acc.1 then
          (|lineDegree - target|, target) else acc
        let acc := if |lineDegree - (target + 180)| < acc.1 then
          (|lineDegree - (target + 180)|, target) else acc
        if |lineDegree - (target - 180)| < acc.1 then
          (|lineDegree - (target - 180)|, target) else acc)
      ((maxFloat64, 0) : ℝ × ℝ)
    let bestAngle := best.2
    if bestAngle = 0 ∧ |lineDegree - 180| < |lineDegree| then 180 else bestAngle

/-- Go `RegionComputeCurveStrength` / `canvas.Region.computeCurveStrength`:
`tanh(2·mean|curvature|)` plus a positive-fraction bias, signed by the
first-to-last edge direction and clamped to [−1, 1]. -/
noncomputable def computeCurveStrength (curvatures : List ℝ)
    (edges : List EdgePoint) : ℝ :=
  if curvatures.length = 0 then 0
  else
    let totalCurvature := (curvatures.map fun c => |c|).sum
    let positiveCurvature := (curvatures.filter fun c => decide (0 < c)).sum
    let avgCurvature := totalCurvature / (curvatures.length : ℝ)
    let direction : ℝ :=
      if 2 ≤ edges.length then
        let start := edges.headD ⟨0, 0, 0⟩
        let last := edges.getLastD ⟨0, 0, 0⟩
        let dx : ℝ := ((last.X - start.X : ℤ) : ℝ)
        let dy : ℝ := ((last.Y - start.Y : ℤ) : ℝ)
        if 0 < dx ∨ dy < 0 then 1 else -1
      else 0
    let strength0 := Real.tanh (avgCurvature * 2)
    let strength1 :=
      if 0 < totalCurvature then
        strength0 + (positiveCurvature / totalCurvature - 0.5) * 0.3
      else strength0
    max (-1) (min 1 (strength1 * direction))

/-- Go `canvas.Arc` (the shape descriptor; `float32` payloads widened to
`ℝ`). -/
structure Arc where
  Typ : ArcType
  Fill : ArcFillType
  CircleEllipseRatio : ℝ
  LineDegree : ℝ
  ArcLineTheta : ℝ

/-- Go `canvas.Region.Arc` — the `ComputeShapeDescriptor` entry point: `none`
for fewer than 3 draw-log entries or fewer than 3 extracted edge points,
otherwise the classified descriptor whose payload matches the chosen kind
(zero-initialized otherwise; the Triangle/Rectangle branches and
`printDetectedAngles` only log and are dropped). -/
noncomputable def Region.Arc (r : Region) : Option Arc :=
  if r.Draws.length < 3 then none
  else
    let edges := extractEdges r
    if edges.length < 3 then none
    else
      let chainCode := canvasComputeChainCode edges
      let curvatures := canvasComputeCurvatures chainCode
      let moments := RegionComputeMoments r
      let huInvariants := RegionComputeHuInvariants moments
      let lines := detectLinesHough r edges
      let circles := detectCirclesHough r edges
      let arcRes := canvasClassifyShape r huInvariants curvatures lines circles
      some { Typ := arcRes.1, Fill := arcRes.2
             CircleEllipseRatio :=
               if arcRes.1 = ArcType.ArcTypeCircle then computeEllipseRatio moments
               else 0
             LineDegree :=
               if arcRes.1 = ArcType.ArcTypeStrengthLine then computeLineDegree lines
               else 0
             ArcLineTheta :=
               if arcRes.1 = ArcType.ArcTypeCurveLine then
                 computeCurveStrength curvatures edges
               else 0 }


/-! ### Junction anchor detection (`characterHelper.detectJunctionAnchors`) -/

/-- `int16(n)` for a `uint16` value `n`: reinterpretation into the range
[-32768, 32767]. -/
def toInt16 (n : ℕ) : ℤ := (((n + 32768) % 65536 : ℕ) : ℤ) - 32768

/-- Wrap an integer into the `int16` range [-32768, 32767] (the result of a
wrapping `int16` operation). -/
def wrap16 (z : ℤ) : ℤ := (z + 32768) % 65536 - 32768

/-- Go `int16(a) - int16(b)` for `uint16` operands: wrapping `int16`
subtraction, as in the flood fill's window test. -/
def int16Sub (a b : ℕ) : ℤ := wrap16 (toInt16 a - toInt16 b)

/-- Go `uint16(int16(x) + d)` for an offset `d`: all three wraps collapse to
one addition mod 2^16. -/
def u16off (x : ℕ) (d : ℤ) : ℕ := (((x : ℤ) + d) % 65536).toNat

/-- The visited-map key `string(rune(x)) + "," + string(rune(y))` used by the
junction flood fill, as the pair of collapsed code points (two keys collide
exactly when the collapsed pairs agree, the comma being a fixed separator
between two single-rune strings). -/
def kfPair (p : ℕ × ℕ) : ℕ × ℕ := (goRuneKey p.1, goRuneKey p.2)

/-- The keys of all in-bounds drawn cells of a character; the flood fill can
only ever mark keys from this set or keys of cells it was explicitly
handed. -/
def univKeys (c : Character) : Finset (ℕ × ℕ) :=
  ((Finset.range c.SizeX ×ˢ Finset.range c.SizeY).filter
    (fun p => c.IsDrew p.1 p.2)).image kfPair

def ffMeasure (c : Character) (stack : List (ℕ × ℕ)) (visited : Finset (ℕ × ℕ)) : ℕ :=
  9 * ((univKeys c ∪ (stack.map kfPair).toFinset) \ visited).card + stack.length

/-- The in-bounds, drawn, not-yet-visited neighbors pushed by one expansion
step of `floodFillNeighborhood`, in the source's loop order. -/
def ffPushes (c : Character) (p : ℕ × ℕ) (visited : Finset (ℕ × ℕ)) : List (ℕ × ℕ) :=
  fillNeighborOffsets.filterMap fun d =>
    let nx := u16off p.1 d.1
    let ny := u16off p.2 d.2
    if nx < c.SizeX ∧ ny < c.SizeY ∧ c.IsDrew nx ny = true ∧
        kfPair (nx, ny) ∉ visited then
      some (nx, ny)
    else none

/-- One iteration of the `floodFillNeighborhood` loop on a popped cell `p`:
already-visited keys are dropped, cells outside the 3x3 window of the center
`(cx, cy)` (`int16` wrap distance) are only marked, in-window cells are marked
and their in-bounds drawn unvisited neighbors pushed. -/
def ffStep (c : Character) (cx cy : ℕ) (p : ℕ × ℕ) (rest : List (ℕ × ℕ))
    (visited : Finset (ℕ × ℕ)) : List (ℕ × ℕ) × Finset (ℕ × ℕ) :=
  if kfPair p ∈ visited then (rest, visited)
  else if 1 < (int16Sub p.1 cx).natAbs ∨ 1 < (int16Sub p.2 cy).natAbs then
    (rest, insert (kfPair p) visited)
  else
    ((ffPushes c p (insert (kfPair p) visited)).reverse ++ rest,
      insert (kfPair p) visited)

/-- Go `floodFillNeighborhood`, the stack-driven flood fill bounded to the 3x3
window of the center `(cx, cy)`; `visited` holds the string keys already
processed. -/
def floodFillNeighborhood (c : Character) (cx cy : ℕ) :
    List (ℕ × ℕ) → Finset (ℕ × ℕ) → Finset (ℕ × ℕ)
  | [], visited => visited
  | p :: rest, visited =>
    floodFillNeighborhood c cx cy (ffStep c cx cy p rest visited).1
      (ffStep c cx cy p rest visited).2
  termination_by stack visited => ffMeasure c stack visited
  decreasing_by
  unfold ffStep
  by_cases h1 : kfPair p ∈ visited
  · rw [if_pos h1]
    have hsub : (univKeys c ∪ (rest.map kfPair).toFinset) \ visited ⊆
        (univKeys c ∪ ((p :: rest).map kfPair).toFinset) \ visited := by
      apply Finset.sdiff_subset_sdiff _ le_rfl
      apply Finset.union_subset_union le_rfl
      intro k hk
      simp only [List.map_cons, List.toFinset_cons, Finset.mem_insert] at *
      exact Or.inr hk
    have := Finset.card_le_card hsub
    simp only [ffMeasure, List.length_cons]
    omega
  · rw [if_neg h1]
    by_cases h2 : 1 < (int16Sub p.1 cx).natAbs ∨ 1 < (int16Sub p.2 cy).natAbs
    · rw [if_pos h2]
      have hsub : (univKeys c ∪ (rest.map kfPair).toFinset) \ insert (kfPair p) visited ⊆
          (univKeys c ∪ ((p :: rest).map kfPair).toFinset) \ visited := by
        intro k hk
        rw [Finset.mem_sdiff] at hk ⊢
        refine ⟨?_, fun hv => hk.2 (Finset.mem_insert_of_mem hv)⟩
        rcases Finset.mem_union.1 hk.1 with h | h
        · exact Finset.mem_union_left _ h
        · apply Finset.mem_union_right
          simp only [List.map_cons, List.toFinset_cons, Finset.mem_insert]
          exact Or.inr h
      have := Finset.card_le_card hsub
      simp only [ffMeasure, List.length_cons]
      omega
    · rw [if_neg h2]
      have hkmem : kfPair p ∈ (univKeys c ∪ ((p :: rest).map kfPair).toFinset) \ visited := by
        rw [Finset.mem_sdiff]
        refine ⟨Finset.mem_union_right _ ?_, h1⟩
        simp
      have hsub : (univKeys c ∪
          (((ffPushes c p (insert (kfPair p) visited)).reverse ++ rest).map kfPair).toFinset) \
          insert (kfPair p) visited ⊆
          ((univKeys c ∪ ((p :: rest).map kfPair).toFinset) \ visited).erase (kfPair p) := by
        intro k hk
        rw [Finset.mem_sdiff] at hk
        rw [Finset.mem_erase, Finset.mem_sdiff]
        have hknotp : k ≠ kfPair p := fun he => hk.2 (he ▸ Finset.mem_insert_self _ _)
        refine ⟨hknotp, ?_, fun hv => hk.2 (Finset.mem_insert_of_mem hv)⟩
        rcases Finset.mem_union.1 hk.1 with h | h
        · exact Finset.mem_union_left _ h
        · rw [List.map_append, List.toFinset_append, Finset.mem_union] at h
          rcases h with h | h
          · rw [List.mem_toFinset, List.mem_map] at h
            obtain ⟨q, hq, rfl⟩ := h
            rw [List.mem_reverse] at hq
            rw [ffPushes, List.mem_filterMap] at hq
            obtain ⟨d, -, hd⟩ := hq
            apply Finset.mem_union_left
            rw [univKeys, Finset.mem_image]
            refine ⟨q, ?_, rfl⟩
            rw [Finset.mem_filter, Finset.mem_product, Finset.mem_range, Finset.mem_range]
            by_cases hcond : u16off p.1 d.1 < c.SizeX ∧ u16off p.2 d.2 < c.SizeY ∧
                c.IsDrew (u16off p.1 d.1) (u16off p.2 d.2) = true ∧
                kfPair (u16off p.1 d.1, u16off p.2 d.2) ∉ insert (kfPair p) visited
            · rw [if_pos hcond] at hd
              obtain ⟨hb1, hb2, hb3, -⟩ := hcond
              cases Option.some.inj hd
              exact ⟨⟨hb1, hb2⟩, hb3⟩
            · rw [if_neg hcond] at hd
              cases hd
          · apply Finset.mem_union_right
            simp only [List.map_cons, List.toFinset_cons, Finset.mem_insert]
            exact Or.inr h
      have hcard := Finset.card_le_card hsub
      rw [Finset.card_erase_of_mem hkmem] at hcard
      have hlen : (ffPushes c p (insert (kfPair p) visited)).length ≤ 8 := by
        rw [ffPushes]
        have := List.length_filterMap_le (fun d =>
            let nx := u16off p.1 d.1
            let ny := u16off p.2 d.2
            if nx < c.SizeX ∧ ny < c.SizeY ∧ c.IsDrew nx ny = true ∧
                kfPair (nx, ny) ∉ insert (kfPair p) visited then
              some ((nx, ny) : ℕ × ℕ)
            else none) fillNeighborOffsets
        simpa using this
      have hpos : 0 < ((univKeys c ∪ ((p :: rest).map kfPair).toFinset) \ visited).card :=
        Finset.card_pos.2 ⟨_, hkmem⟩
      simp only [ffMeasure, List.length_append, List.length_reverse, List.length_cons]
      omega

/-- The 9 offsets of the 3x3 component scan of `analyzeJunctionPattern`
(`dx` outer, `dy` inner, center included). -/
def scanOffsets : List (ℤ × ℤ) :=
  [(-1, -1), (-1, 0), (-1, 1), (0, -1), (0, 0), (0, 1), (1, -1), (1, 0), (1, 1)]

/-- The component-counting loop of `analyzeJunctionPattern`: state is the
component count and the shared visited-key set. -/
def junctionScan (c : Character) (x y : ℕ) :
    List (ℤ × ℤ) → ℕ × Finset (ℕ × ℕ) → ℕ × Finset (ℕ × ℕ)
  | [], st => st
  | d :: ds, st =>
    let nx := u16off x d.1
    let ny := u16off y d.2
    if kfPair (nx, ny) ∈ st.2 ∨ c.SizeX ≤ nx ∨ c.SizeY ≤ ny ∨
        c.IsDrew nx ny = false then
      junctionScan c x y ds st
    else
      junctionScan c x y ds
        (st.1 + 1, floodFillNeighborhood c x y [(nx, ny)] st.2)

/-- The component count computed by `analyzeJunctionPattern` at `(x, y)`. -/
def junctionComponents (c : Character) (x y : ℕ) : ℕ :=
  (junctionScan c x y scanOffsets (0, ∅)).1

/-- Go `analyzeJunctionPattern`: `(components-2)/3` when at least 3 components
are found, `0` otherwise. -/
noncomputable def analyzeJunctionPattern (c : Character) (x y : ℕ) : ℝ :=
  if 3 ≤ junctionComponents c x y then ((junctionComponents c x y : ℝ) - 2) / 3
  else 0

/-- Go `characterHelper.computeDirectionAngle`: 3×3 Sobel over the binary
values with `uint16`-wrapped neighbor coordinates, then `atan2(gy, gx)`. -/
noncomputable def computeDirectionAngle (c : Character) (p : Point) : ℝ :=
  let sobelXK : List (List ℝ) := [[-1, 0, 1], [-2, 0, 2], [-1, 0, 1]]
  let sobelYK : List (List ℝ) := [[-1, -2, -1], [0, 0, 0], [1, 2, 1]]
  let val : ℤ × ℤ → ℝ := fun d =>
    if u16off p.X d.1 < c.SizeX ∧ u16off p.Y d.2 < c.SizeY ∧
        c.IsDrew (u16off p.X d.1) (u16off p.Y d.2) = true then 1 else 0
  let gx := (scanOffsets.map fun d =>
    val d * ((sobelXK.getD (d.1 + 1).toNat []).getD (d.2 + 1).toNat 0)).sum
  let gy := (scanOffsets.map fun d =>
    val d * ((sobelYK.getD (d.1 + 1).toNat []).getD (d.2 + 1).toNat 0)).sum
  goAtan2 gy gx

/-- Go `characterHelper.detectJunctionAnchors`: for every draw-log point, a
`"junction"` anchor is added when the junction strength strictly exceeds the
configured detection threshold. -/
noncomputable def detectJunctionAnchors (c : Character) : Character :=
  c.Draws.foldl
    (fun acc point =>
      let junctionStrength := analyzeJunctionPattern acc point.X point.Y
      if acc.Config.AnchorDetectionThreshold < junctionStrength then
        acc.AddAnchorPoint point.X point.Y "junction" junctionStrength 0
          (computeDirectionAngle acc point)
      else acc)
    c

/-- Witness character for the junction theorems: a 5×5 raster with (2,2)
drawn together with its three pairwise non-adjacent neighbors (2,1), (1,3)
and (3,3) — the shape the spec's neighbor-component count would call a
3-component junction. -/
noncomputable def junctionWitnessCharacter : Character :=
  ((((NewCharacter 5 5 none).Draw 2 2).Draw 2 1).Draw 1 3).Draw 3 3


/-! ### Anchor detection pipeline (`characterHelper.CharacterDetectAnchors`) -/

/-- Go `characterHelper.extractContourPoints`: the draw-log points that have
some 8-neighbor (coordinates computed with `uint16` wrap) out of bounds or
not drawn, in log order. -/
def extractContourPoints (c : Character) : List Point :=
  c.Draws.filter fun p =>
    fillNeighborOffsets.any fun d =>
      let nx := u16off p.X d.1
      let ny := u16off p.Y d.2
      decide (c.SizeX ≤ nx) || decide (c.SizeY ≤ ny) || !c.IsDrew nx ny

/-- Go `characterHelper.computeCurvatures` (the contour version): for each
contour index, the absolute turning angle between the normalized vectors to
the points `windowSize` before and after (cyclically), with degenerate
vectors shorter than `epsilon` yielding `0`.  Point differences are computed
in wrapping `int16` arithmetic as in the source. -/
noncomputable def computeCurvatures (contour : List Point) (epsilon : ℝ) :
    List ℝ :=
  let n := contour.length
  (List.range n).map fun (i : ℕ) =>
    let windowSize0 : ℤ := goTruncInt (max 3 (1 / epsilon))
    let windowSize : ℤ :=
      if (n : ℤ) / 3 < windowSize0 then (n : ℤ) / 3 else windowSize0
    let prev := (((i : ℤ) - windowSize + n) % n).toNat
    let next := (((i : ℤ) + windowSize) % n).toNat
    let p1 := contour.getD prev ⟨0, 0⟩
    let p2 := contour.getD i ⟨0, 0⟩
    let p3 := contour.getD next ⟨0, 0⟩
    let v1x : ℝ := (int16Sub p2.X p1.X : ℤ)
    let v1y : ℝ := (int16Sub p2.Y p1.Y : ℤ)
    let v2x : ℝ := (int16Sub p3.X p2.X : ℤ)
    let v2y : ℝ := (int16Sub p3.Y p2.Y : ℤ)
    let len1 := Real.sqrt (v1x * v1x + v1y * v1y)
    let len2 := Real.sqrt (v2x * v2x + v2y * v2y)
    if len1 < epsilon ∨ len2 < epsilon then 0
    else
      let w1x := v1x / len1
      let w1y := v1y / len1
      let w2x := v2x / len2
      let w2y := v2y / len2
      let dotProduct := w1x * w2x + w1y * w2y
      let crossProduct := w1x * w2y - w1y * w2x
      let dot1 := if 1 < dotProduct then 1 else dotProduct
      let dot2 := if dot1 < -1 then -1 else dot1
      let angle := Real.arccos dot2
      let angle2 := if crossProduct < 0 then -angle else angle
      |angle2|

/-- The local-maximum window offsets of `detectCurvatureAnchors`
(`j` from `-3` to `3`, center skipped). -/
def localMaxOffsets : List ℤ := [-3, -2, -1, 1, 2, 3]

/-- Go `characterHelper.detectCurvatureAnchors`: at every contour point whose
curvature strictly exceeds the configured threshold and is a strict local
maximum over the cyclic ±3 window, add a `"corner"` (or `"sharp_corner"`)
anchor with strength `min(curvature/π, 1)`. -/
noncomputable def detectCurvatureAnchors (c : Character) (contour : List Point)
    (curvatures : List ℝ) : Character :=
  let threshold := c.Config.CurvatureThreshold
  contour.enum.foldl
    (fun acc ip =>
      let i := ip.1
      let point := ip.2
      let curvature := curvatures.getD i 0
      if threshold < curvature then
        if ∀ j ∈ localMaxOffsets,
            curvatures.getD (((i : ℤ) + j + curvatures.length) %
              curvatures.length).toNat 0 < curvature then
          let anchorType := if threshold * 2 < curvature then "sharp_corner"
            else "corner"
          let strength := min (curvature / Real.pi) 1
          let angle := computeDirectionAngle acc point
          acc.AddAnchorPoint point.X point.Y anchorType strength curvature angle
        else acc
      else acc)
    c

/-- Go `characterHelper.detectExtremumAnchors`: for every draw-log point on a
bounding-box extreme, add the matching `"extremum_*"` anchor(s) with strength
`0.8`; a character without a bounding box is left unchanged. -/
noncomputable def detectExtremumAnchors (c : Character) : Character :=
  if c.BoundingBox = [] then c
  else
    let minX := goMapGet c.BoundingBox "minX"
    let maxX := goMapGet c.BoundingBox "maxX"
    let minY := goMapGet c.BoundingBox "minY"
    let maxY := goMapGet c.BoundingBox "maxY"
    c.Draws.foldl
      (fun acc point =>
        let acc := if point.X = minX then
            acc.AddAnchorPoint point.X point.Y "extremum_left" 0.8 0
              (computeDirectionAngle acc point)
          else acc
        let acc := if point.X = maxX then
            acc.AddAnchorPoint point.X point.Y "extremum_right" 0.8 0
              (computeDirectionAngle acc point)
          else acc
        let acc := if point.Y = minY then
            acc.AddAnchorPoint point.X point.Y "extremum_top" 0.8 0
              (computeDirectionAngle acc point)
          else acc
        if point.Y = maxY then
          acc.AddAnchorPoint point.X point.Y "extremum_bottom" 0.8 0
            (computeDirectionAngle acc point)
        else acc)
      c

/-- The Euclidean anchor distance of `filterAnchors`, on wrapping `int16`
coordinate differences. -/
noncomputable def anchorDist (a b : AnchorPoint) : ℝ :=
  let dx : ℝ := (int16Sub a.Pt.X b.Pt.X : ℤ)
  let dy : ℝ := (int16Sub a.Pt.Y b.Pt.Y : ℤ)
  Real.sqrt (dx * dx + dy * dy)

open Classical in
/-- Go `characterHelper.filterAnchors`: sort by strength descending (the
unstable `sort.Slice` modelled canonically by a merge sort on the same
comparator), then greedily keep an anchor unless it lies strictly closer
than `MinAnchorDistance` to an already-kept one.  An empty anchor list is
left untouched. -/
noncomputable def filterAnchors (c : Character) : Character :=
  if c.AnchorPoints = [] then c
  else
    let sorted := c.AnchorPoints.mergeSort fun a b =>
      decide (b.Strength ≤ a.Strength)
    let minDist := c.Config.MinAnchorDistance
    let filtered := sorted.foldl
      (fun filtered anchor =>
        if ∃ existing ∈ filtered, anchorDist anchor existing < minDist then
          filtered
        else filtered ++ [anchor])
      []
    { c with AnchorPoints := filtered }

/-- Go `characterHelper.CharacterDetectAnchors`: empty characters are
returned untouched; otherwise the analysis results are cleared and, when at
least 3 contour points exist, the curvature, junction (if enabled) and
extremum anchors are detected and filtered. -/
noncomputable def CharacterDetectAnchors (c : Character) : Character :=
  if c.IsEmpty = true then c
  else
    let c1 := c.ClearAnalysisResults
    let contourPoints := extractContourPoints c1
    if contourPoints.length < 3 then c1
    else
      let curvatures := computeCurvatures contourPoints c1.Config.MedialAxisEpsilon
      let c2 := detectCurvatureAnchors c1 contourPoints curvatures
      let c3 := if c2.Config.EnableJunctionDetection = true then
          detectJunctionAnchors c2
        else c2
      let c4 := detectExtremumAnchors c3
      filterAnchors c4

/-- Counterexample character: an empty draw log but two stale anchors only
one pixel apart. -/
noncomputable def c8Character : Character :=
  { SizeX := 5, SizeY := 5, Cols := ∅, Bitmap := ∅, Draws := []
    AnchorPoints :=
      [{ Pt := ⟨1, 1⟩, Typ := "corner", Strength := 0.9, Curvature := 0
         Angle := 0 },
       { Pt := ⟨1, 2⟩, Typ := "corner", Strength := 0.8, Curvature := 0
         Angle := 0 }]
    Regions := [], MedialAxis := [], SkeletonBranches := []
    Moments := fun _ => 0, BoundingBox := []
    Config := DefaultCharacterConfig }


/-! ### Medial axis (`characterHelper.CharacterComputeMedialAxis`) -/

/-- The forward-pass neighbor offsets of `computeDistanceTransform`. -/
def dtForwardNeighbors : List (ℤ × ℤ) := [(-1, -1), (-1, 0), (-1, 1), (0, -1)]

/-- The backward-pass neighbor offsets of `computeDistanceTransform`. -/
def dtBackwardNeighbors : List (ℤ × ℤ) := [(1, 1), (1, 0), (1, -1), (0, 1)]

/-- The forward scan order of `computeDistanceTransform` (`x` outer
ascending, `y` inner ascending); the backward pass is its reverse. -/
def dtScanOrder (sx sy : ℕ) : List (ℕ × ℕ) :=
  (List.range sx).flatMap fun x => (List.range sy).map fun y => (x, y)

/-- One chamfer pass of `computeDistanceTransform`: the cells are relaxed in
scan order, in place (each step reads already-relaxed values), foreground
cells only; diagonal steps cost `√2`, axial steps `1`.  `math.Inf(1)` is
modelled as `⊤` in `WithTop ℝ`. -/
noncomputable def dtPass (c : Character) (nbrs : List (ℤ × ℤ))
    (order : List (ℕ × ℕ)) (f0 : ℕ × ℕ → WithTop ℝ) : ℕ × ℕ → WithTop ℝ :=
  order.foldl
    (fun f p =>
      if c.IsDrew p.1 p.2 = true then
        let minDist := nbrs.foldl
          (fun m d =>
            let nx := (p.1 : ℤ) + d.1
            let ny := (p.2 : ℤ) + d.2
            if 0 ≤ nx ∧ nx < (c.SizeX : ℤ) ∧ 0 ≤ ny ∧ ny < (c.SizeY : ℤ) then
              let dist := f (nx.toNat, ny.toNat) +
                (if d.1 ≠ 0 ∧ d.2 ≠ 0 then ((Real.sqrt 2 : ℝ) : WithTop ℝ)
                 else 1)
              if dist < m then dist else m
            else m)
          (f p)
        fun q => if q = p then minDist else f q
      else f)
    f0

/-- Go `characterHelper.computeDistanceTransform`: foreground cells start at
`+Inf` (`⊤`), background at `0`; a forward and a backward chamfer pass. -/
noncomputable def computeDistanceTransform (c : Character) :
    ℕ × ℕ → WithTop ℝ :=
  dtPass c dtBackwardNeighbors (dtScanOrder c.SizeX c.SizeY).reverse
    (dtPass c dtForwardNeighbors (dtScanOrder c.SizeX c.SizeY)
      (fun p => if c.IsDrew p.1 p.2 = true then ⊤ else 0))

/-- Go `characterHelper.extractMedialAxisPoints`: interior foreground ridge
cells — distance at least the epsilon threshold, no strictly larger
8-neighbor, and within 90% of the largest neighbor distance. -/
noncomputable def extractMedialAxisPoints (c : Character)
    (distField : ℕ × ℕ → WithTop ℝ) : List Point :=
  let threshold : WithTop ℝ := ((c.Config.MedialAxisEpsilon : ℝ) : WithTop ℝ)
  (List.range' 1 (c.SizeX - 2)).flatMap fun x =>
    (List.range' 1 (c.SizeY - 2)).filterMap fun y =>
      if c.IsDrew x y = true then
        let currentDist := distField (x, y)
        if currentDist < threshold then none
        else
          let neighborDists := fillNeighborOffsets.map fun d =>
            distField (((x : ℤ) + d.1).toNat, ((y : ℤ) + d.2).toNat)
          let maxNeighborDist := neighborDists.foldl
            (fun m v => if m < v then v else m) 0
          if (∀ v ∈ neighborDists, ¬currentDist < v) ∧
              maxNeighborDist * ((0.9 : ℝ) : WithTop ℝ) ≤ currentDist then
            some ⟨x, y⟩
          else none
      else none

/-- Go `characterHelper.findMedialAxisNeighbors`. -/
def findMedialAxisNeighbors (c : Character) (point : Point) : List Point :=
  fillNeighborOffsets.filterMap fun d =>
    let nx := wrap16 (toInt16 point.X + d.1)
    let ny := wrap16 (toInt16 point.Y + d.2)
    if 0 ≤ nx ∧ 0 ≤ ny ∧ nx < toInt16 c.SizeX ∧ ny < toInt16 c.SizeY ∧
        (c.MedialAxis.any fun m => decide (m.X = nx.toNat ∧ m.Y = ny.toNat)) then
      some ⟨nx.toNat, ny.toNat⟩
    else none

/-- The visited key of a point. -/
def tbKey (p : Point) : ℕ × ℕ := kfPair (p.X, p.Y)

/-- All keys of in-bounds cells. -/
def traceUniv (c : Character) : Finset (ℕ × ℕ) :=
  (Finset.range c.SizeX ×ˢ Finset.range c.SizeY).image kfPair

/-- The measure for the branch trace. -/
def tbMeasure (c : Character) (stack : List Point) (visited : Finset (ℕ × ℕ)) : ℕ :=
  9 * ((traceUniv c ∪ (stack.map tbKey).toFinset) \ visited).card + stack.length

/-- One iteration of the `traceBranch` loop on a popped point. -/
def tbStep (c : Character) (p : Point) (rest : List Point)
    (visited : Finset (ℕ × ℕ)) (branch : List Point) :
    List Point × Finset (ℕ × ℕ) × List Point :=
  if tbKey p ∈ visited then (rest, visited, branch)
  else
    (((findMedialAxisNeighbors c p).filter fun nb =>
        decide (tbKey nb ∉ insert (tbKey p) visited)).reverse ++ rest,
      insert (tbKey p) visited,
      branch ++ [⟨p.X, p.Y⟩])

/-- Go `characterHelper.traceBranch`. -/
def traceBranch (c : Character) (distField : ℕ × ℕ → WithTop ℝ) :
    List Point → Finset (ℕ × ℕ) → List Point → Finset (ℕ × ℕ) × List Point
  | [], visited, branch => (visited, branch)
  | p :: rest, visited, branch =>
    traceBranch c distField (tbStep c p rest visited branch).1
      (tbStep c p rest visited branch).2.1 (tbStep c p rest visited branch).2.2
  termination_by stack visited _ => tbMeasure c stack visited
  decreasing_by
  have htoNat : ∀ (w : ℤ) (m : ℕ), 0 ≤ w → w < toInt16 m → w.toNat < m := by
    intro w m h0 hlt
    simp only [toInt16] at hlt
    omega
  have hbounds : ∀ nb ∈ findMedialAxisNeighbors c p,
      nb.X < c.SizeX ∧ nb.Y < c.SizeY := by
    intro nb h
    rw [findMedialAxisNeighbors, List.mem_filterMap] at h
    obtain ⟨d, -, hd⟩ := h
    by_cases hc : 0 ≤ wrap16 (toInt16 p.X + d.1) ∧ 0 ≤ wrap16 (toInt16 p.Y + d.2) ∧
        wrap16 (toInt16 p.X + d.1) < toInt16 c.SizeX ∧
        wrap16 (toInt16 p.Y + d.2) < toInt16 c.SizeY ∧
        (c.MedialAxis.any fun m => decide (m.X = (wrap16 (toInt16 p.X + d.1)).toNat ∧
          m.Y = (wrap16 (toInt16 p.Y + d.2)).toNat))
    · rw [if_pos hc] at hd
      obtain ⟨hb1, hb2, hb3, hb4, -⟩ := hc
      injection hd with h5
      rw [← h5]
      refine ⟨?_, ?_⟩
      · dsimp only
        exact htoNat _ _ hb1 hb3
      · dsimp only
        exact htoNat _ _ hb2 hb4
    · rw [if_neg hc] at hd
      cases hd
  unfold tbStep
  by_cases h1 : tbKey p ∈ visited
  · rw [if_pos h1]
    have hsub : (traceUniv c ∪ (rest.map tbKey).toFinset) \ visited ⊆
        (traceUniv c ∪ ((p :: rest).map tbKey).toFinset) \ visited := by
      apply Finset.sdiff_subset_sdiff _ le_rfl
      apply Finset.union_subset_union le_rfl
      intro k hk
      simp only [List.map_cons, List.toFinset_cons, Finset.mem_insert] at *
      exact Or.inr hk
    have := Finset.card_le_card hsub
    simp only [tbMeasure, List.length_cons]
    omega
  · rw [if_neg h1]
    have hkmem : tbKey p ∈ (traceUniv c ∪ ((p :: rest).map tbKey).toFinset) \ visited := by
      rw [Finset.mem_sdiff]
      refine ⟨Finset.mem_union_right _ ?_, h1⟩
      simp
    have hsub : (traceUniv c ∪
        ((((findMedialAxisNeighbors c p).filter fun nb =>
          decide (tbKey nb ∉ insert (tbKey p) visited)).reverse ++ rest).map tbKey).toFinset) \
        insert (tbKey p) visited ⊆
        ((traceUniv c ∪ ((p :: rest).map tbKey).toFinset) \ visited).erase (tbKey p) := by
      intro k hk
      rw [Finset.mem_sdiff] at hk
      rw [Finset.mem_erase, Finset.mem_sdiff]
      have hknotp : k ≠ tbKey p := fun he => hk.2 (he ▸ Finset.mem_insert_self _ _)
      refine ⟨hknotp, ?_, fun hv => hk.2 (Finset.mem_insert_of_mem hv)⟩
      rcases Finset.mem_union.1 hk.1 with h | h
      · exact Finset.mem_union_left _ h
      · rw [List.map_append, List.toFinset_append, Finset.mem_union] at h
        rcases h with h | h
        · rw [List.mem_toFinset, List.mem_map] at h
          obtain ⟨q, hq, rfl⟩ := h
          rw [List.mem_reverse, List.mem_filter] at hq
          have hb := hbounds q hq.1
          apply Finset.mem_union_left
          rw [traceUniv, Finset.mem_image]
          exact ⟨(q.X, q.Y), by
            rw [Finset.mem_product, Finset.mem_range, Finset.mem_range]
            exact ⟨hb.1, hb.2⟩, rfl⟩
        · apply Finset.mem_union_right
          simp only [List.map_cons, List.toFinset_cons, Finset.mem_insert]
          exact Or.inr h
    have hcard := Finset.card_le_card hsub
    rw [Finset.card_erase_of_mem hkmem] at hcard
    have hlen : ((findMedialAxisNeighbors c p).filter fun nb =>
        decide (tbKey nb ∉ insert (tbKey p) visited)).length ≤ 8 := by
      have h2 : (findMedialAxisNeighbors c p).length ≤ 8 := by
        rw [findMedialAxisNeighbors]
        have := List.length_filterMap_le (fun d : ℤ × ℤ =>
          let nx := wrap16 (toInt16 p.X + d.1)
          let ny := wrap16 (toInt16 p.Y + d.2)
          if 0 ≤ nx ∧ 0 ≤ ny ∧ nx < toInt16 c.SizeX ∧ ny < toInt16 c.SizeY ∧
              (c.MedialAxis.any fun m => decide (m.X = nx.toNat ∧ m.Y = ny.toNat)) then
            some (⟨nx.toNat, ny.toNat⟩ : Point)
          else none) fillNeighborOffsets
        simpa using this
      exact le_trans (List.length_filter_le _ _) h2
    have hpos : 0 < ((traceUniv c ∪ ((p :: rest).map tbKey).toFinset) \ visited).card :=
      Finset.card_pos.2 ⟨_, hkmem⟩
    simp only [tbMeasure, List.length_append, List.length_reverse, List.length_cons]
    omega

/-- Go `characterHelper.extractSkeletonBranches`: trace a branch from every
not-yet-visited medial axis point (sharing one visited map) and record the
branches longer than one point under increasing branch ids.  The Go key
`"branch_" + string(rune(branchID))` is modelled by the id itself (ids in the
surrogate range would collide in Go; the model keeps them apart). -/
def extractSkeletonBranches (c : Character)
    (distField : ℕ × ℕ → WithTop ℝ) : Character :=
  if c.MedialAxis = [] then c
  else
    let st := c.MedialAxis.foldl
      (fun (st : Finset (ℕ × ℕ) × ℕ × List (ℕ × List Point)) point =>
        if tbKey point ∈ st.1 then st
        else
          let tb := traceBranch c distField [point] st.1 []
          if 1 < tb.2.length then
            (tb.1, st.2.1 + 1, st.2.2 ++ [(st.2.1, tb.2)])
          else (tb.1, st.2.1, st.2.2))
      (∅, 0, [])
    { c with SkeletonBranches := st.2.2 }

/-- Go `characterHelper.computeBranchLength`: the sum of consecutive
Euclidean step lengths (wrapping `int16` coordinate differences). -/
noncomputable def computeBranchLength (branch : List Point) : ℝ :=
  if branch.length < 2 then 0
  else
    ((branch.zip branch.tail).map fun pq =>
      Real.sqrt (((int16Sub pq.2.X pq.1.X : ℤ) : ℝ) *
          ((int16Sub pq.2.X pq.1.X : ℤ) : ℝ) +
        ((int16Sub pq.2.Y pq.1.Y : ℤ) : ℝ) *
          ((int16Sub pq.2.Y pq.1.Y : ℤ) : ℝ))).sum

open Classical in
/-- Go `characterHelper.pruneShortBranches`: keep the branches of at least
the configured pruning-threshold length and rebuild the medial axis from the
retained branches in order. -/
noncomputable def pruneShortBranches (c : Character) : Character :=
  let filteredBranches := c.SkeletonBranches.filter fun b =>
    decide (c.Config.SkeletonPruningThreshold ≤ computeBranchLength b.2)
  { c with SkeletonBranches := filteredBranches
           MedialAxis := (filteredBranches.map Prod.snd).flatten }

/-- Go `characterHelper.CharacterComputeMedialAxis`: empty characters are
untouched; otherwise the previous axis data is cleared, the distance
transform computed, ridge points extracted, branches traced and short ones
pruned. -/
noncomputable def CharacterComputeMedialAxis (c : Character) : Character :=
  if c.IsEmpty = true then c
  else
    let c1 := { c with MedialAxis := [], SkeletonBranches := [] }
    let distanceField := computeDistanceTransform c1
    let medialPoints := extractMedialAxisPoints c1 distanceField
    let c2 := { c1 with MedialAxis := medialPoints }
    pruneShortBranches (extractSkeletonBranches c2 distanceField)


/-! ### Region decomposition (`characterCalculate.CharacterBreakdownToRegions`) -/

/-- Go `characterCalculate` segmentation line record (`Type` spelled
`Typ`). -/
structure SegmentationLine where
  StartPoint : Point
  EndPoint : Point
  Typ : String
  Strength : ℝ

/-- Go `characterCalculate.computeDistance`: Euclidean distance on wrapping
`int16` coordinate differences. -/
noncomputable def computeDistance (p1 p2 : Point) : ℝ :=
  let dx : ℝ := (int16Sub p1.X p2.X : ℤ)
  let dy : ℝ := (int16Sub p1.Y p2.Y : ℤ)
  Real.sqrt (dx * dx + dy * dy)

/-- Go `characterCalculate.getExtremumAnchors`. -/
def getExtremumAnchors (c : Character) : List AnchorPoint :=
  c.AnchorPoints.filter fun a =>
    a.Typ == "extremum_left" || a.Typ == "extremum_right" ||
      a.Typ == "extremum_top" || a.Typ == "extremum_bottom"

open Classical in
/-- Go `characterCalculate.findNearbyAnchors`: the other anchors within
`maxDistance`.  The Go pointer test `other == anchor` is modelled as value
equality. -/
noncomputable def findNearbyAnchors (c : Character) (anchor : AnchorPoint)
    (maxDistance : ℝ) : List AnchorPoint :=
  c.AnchorPoints.filter fun other =>
    decide (other ≠ anchor ∧ computeDistance anchor.Pt other.Pt ≤ maxDistance)

/-- Go `characterCalculate.computeCharacterCenter`: the draw-log centroid
with `uint32` wrapping sums and a final `uint16` truncation; characters
without bounding box or log fall back to the raster center. -/
def computeCharacterCenter (c : Character) : Point :=
  if c.BoundingBox = [] ∨ c.Draws = [] then ⟨c.SizeX / 2, c.SizeY / 2⟩
  else
    let sumX := ((c.Draws.map fun p => p.X).sum) % 4294967296
    let sumY := ((c.Draws.map fun p => p.Y).sum) % 4294967296
    ⟨(sumX / (c.Draws.length % 4294967296)) % 65536,
     (sumY / (c.Draws.length % 4294967296)) % 65536⟩

open Classical in
/-- Go `characterCalculate.createAnchorBasedLines`: junction-to-nearby lines,
distant corner pairs, and extremum-to-center lines, in source order. -/
noncomputable def createAnchorBasedLines (c : Character) :
    List SegmentationLine :=
  let junctionAnchors := c.GetAnchorPointsByType "junction"
  let cornerAnchors := c.GetAnchorPointsByType "corner"
  let extremumAnchors := getExtremumAnchors c
  let strat1 := junctionAnchors.flatMap fun junction =>
    (findNearbyAnchors c junction 20).filterMap fun nearby =>
      if nearby ≠ junction then
        some { StartPoint := junction.Pt, EndPoint := nearby.Pt
               Typ := "anchor_based"
               Strength := (junction.Strength + nearby.Strength) / 2 }
      else none
  let strat2 := cornerAnchors.enum.flatMap fun ic =>
    cornerAnchors.enum.filterMap fun jc =>
      if jc.1 ≤ ic.1 then none
      else if c.Config.MinAnchorDistance * 2 <
          computeDistance ic.2.Pt jc.2.Pt then
        some { StartPoint := ic.2.Pt, EndPoint := jc.2.Pt
               Typ := "anchor_based"
               Strength := (ic.2.Strength + jc.2.Strength) / 2 * 0.8 }
      else none
  let strat3 :=
    if extremumAnchors ≠ [] then
      let center := computeCharacterCenter c
      extremumAnchors.map fun extremum =>
        { StartPoint := extremum.Pt, EndPoint := center
          Typ := "anchor_based", Strength := extremum.Strength * 0.6 }
    else []
  strat1 ++ strat2 ++ strat3

open Classical in
/-- Go `characterCalculate.findMedialAxisNeighbors` (the distance-based one
of the `characterCalculate` package, distinct from the 8-neighborhood
`characterHelper` function of the same name): medial axis points within
`√2 + 0.1`, the pointer self-test modelled as value equality. -/
noncomputable def calcFindMedialAxisNeighbors (c : Character) (point : Point) :
    List Point :=
  c.MedialAxis.filter fun other =>
    decide (other ≠ point ∧ computeDistance point other ≤ Real.sqrt 2 + 0.1)

open Classical in
/-- Go `characterCalculate.findMedialAxisBranchingPoints`: medial axis points
with at least 3 adjacent medial axis points. -/
noncomputable def findMedialAxisBranchingPoints (c : Character) : List Point :=
  c.MedialAxis.filter fun point =>
    decide (3 ≤ (calcFindMedialAxisNeighbors c point).length)

/-- Go `math.Round`: round half away from zero. -/
noncomputable def goRoundAway (f : ℝ) : ℤ :=
  if f < 0 then -⌊-f + 1 / 2⌋ else ⌊f + 1 / 2⌋

/-- `uint16(math.Round(f))`.  The out-of-range `float64`-to-`uint16`
conversion is implementation-specific in Go; the model wraps mod 2^16. -/
noncomputable def roundU16 (f : ℝ) : ℕ := (goRoundAway f % 65536).toNat

/-- The ray-walking loop of `castRayToBoundary`, one fuel unit per step. -/
noncomputable def castRayToBoundaryAux (c : Character) (dx dy : ℝ) :
    ℕ → ℝ → ℝ → Option Point
  | 0, _, _ => none
  | fuel + 1, x, y =>
    let x1 := x + dx
    let y1 := y + dy
    let nx := roundU16 x1
    let ny := roundU16 y1
    if c.SizeX ≤ nx ∨ c.SizeY ≤ ny then none
    else if c.IsDrew nx ny = false then
      some ⟨roundU16 (x1 - dx), roundU16 (y1 - dy)⟩
    else castRayToBoundaryAux c dx dy fuel x1 y1

/-- Go `characterCalculate.castRayToBoundary`: walk from the start point in
the given direction for at most `max(SizeX, SizeY)` steps and report the last
foreground pixel before leaving the foreground; leaving the raster (or
running out of steps) yields nothing. -/
noncomputable def castRayToBoundary (c : Character) (start : Point)
    (angle : ℝ) : Option Point :=
  castRayToBoundaryAux c (Real.cos angle) (Real.sin angle)
    (max c.SizeX c.SizeY) (start.X : ℝ) (start.Y : ℝ)

/-- Go `characterCalculate.findNearestBoundaryPoints`: boundary hits of rays
cast in the eight compass directions. -/
noncomputable def findNearestBoundaryPoints (c : Character) (point : Point) :
    List Point :=
  ([0, Real.pi / 4, Real.pi / 2, 3 * Real.pi / 4, Real.pi, 5 * Real.pi / 4,
    3 * Real.pi / 2, 7 * Real.pi / 4] : List ℝ).filterMap fun angle =>
    castRayToBoundary c point angle

open Classical in
/-- Go `characterCalculate.findSkeletonBranchConnections`: connect close
endpoints of distinct skeleton branches (branch maps iterated in canonical
insertion order). -/
noncomputable def findSkeletonBranchConnections (c : Character) :
    List SegmentationLine :=
  let branchEndpoints := c.SkeletonBranches.filterMap fun b =>
    if b.2 ≠ [] then some (b.2.headD ⟨0, 0⟩, b.2.getLastD ⟨0, 0⟩) else none
  branchEndpoints.enum.flatMap fun ie =>
    branchEndpoints.enum.flatMap fun je =>
      if je.1 ≤ ie.1 then []
      else
        ([ie.2.1, ie.2.2] : List Point).flatMap fun ep1 =>
          ([je.2.1, je.2.2] : List Point).filterMap fun ep2 =>
            if computeDistance ep1 ep2 < c.Config.MinAnchorDistance * 1.5 then
              some { StartPoint := ep1, EndPoint := ep2
                     Typ := "medial_based", Strength := 0.8 }
            else none

/-- Go `characterCalculate.createMedialAxisBasedLines`: branching-point to
boundary lines followed by skeleton branch connections. -/
noncomputable def createMedialAxisBasedLines (c : Character) :
    List SegmentationLine :=
  ((findMedialAxisBranchingPoints c).flatMap fun branchPoint =>
    (findNearestBoundaryPoints c branchPoint).map fun boundaryPoint =>
      { StartPoint := branchPoint, EndPoint := boundaryPoint
        Typ := "medial_based", Strength := 0.7 }) ++
    findSkeletonBranchConnections c

/-- The ray-walking loop of `castRayToBackground` (at most 50 steps). -/
noncomputable def castRayToBackgroundAux (c : Character) (dx dy : ℝ) :
    ℕ → ℝ → ℝ → ℝ → ℝ
  | 0, _, _, distance => distance
  | fuel + 1, x, y, distance =>
    let x1 := x + dx
    let y1 := y + dy
    let distance1 := distance + 1
    let nx := roundU16 x1
    let ny := roundU16 y1
    if c.SizeX ≤ nx ∨ c.SizeY ≤ ny ∨ c.IsDrew nx ny = false then distance1
    else castRayToBackgroundAux c dx dy fuel x1 y1 distance1

/-- Go `characterCalculate.castRayToBackground`. -/
noncomputable def castRayToBackground (c : Character) (start : Point)
    (angle : ℝ) : ℝ :=
  castRayToBackgroundAux c (Real.cos angle) (Real.sin angle) 50
    (start.X : ℝ) (start.Y : ℝ) 0

/-- Go `characterCalculate.computeLocalStrokeWidth`: the largest two-sided
ray distance over four directions. -/
noncomputable def computeLocalStrokeWidth (c : Character) (point : Point) :
    ℝ :=
  ([0, Real.pi / 4, Real.pi / 2, 3 * Real.pi / 4] : List ℝ).foldl
    (fun maxWidth angle =>
      let totalWidth := castRayToBackground c point angle +
        castRayToBackground c point (angle + Real.pi)
      if maxWidth < totalWidth then totalWidth else maxWidth)
    0

/-- Assignment in the Go `map[string]float64` stroke-width map, keys modelled
as collapsed coordinate pairs (mirrors `goMapSet`). -/
def strokeMapSet (m : List ((ℕ × ℕ) × ℝ)) (k : ℕ × ℕ) (v : ℝ) :
    List ((ℕ × ℕ) × ℝ) :=
  if m.any (fun e => e.1 == k) then
    m.map fun e => if e.1 == k then (k, v) else e
  else m ++ [(k, v)]

/-- Lookup in the stroke-width map; missing keys yield `0`. -/
def strokeMapGet (m : List ((ℕ × ℕ) × ℝ)) (k : ℕ × ℕ) : ℝ :=
  ((m.find? fun e => e.1 == k).map Prod.snd).getD 0

/-- Go `characterCalculate.computeStrokeWidthMap`. -/
noncomputable def computeStrokeWidthMap (c : Character) :
    List ((ℕ × ℕ) × ℝ) :=
  c.MedialAxis.foldl
    (fun m point =>
      strokeMapSet m (kfPair (point.X, point.Y))
        (computeLocalStrokeWidth c point))
    []

open Classical in
/-- Go `characterCalculate.findStrokeWidthChangePoints`: medial axis points
whose stroke width differs from some adjacent medial point by more than 2. -/
noncomputable def findStrokeWidthChangePoints (c : Character)
    (strokeWidths : List ((ℕ × ℕ) × ℝ)) : List Point :=
  c.MedialAxis.filter fun point =>
    decide (∃ neighbor ∈ calcFindMedialAxisNeighbors c point,
      2 < |strokeMapGet strokeWidths (kfPair (point.X, point.Y)) -
        strokeMapGet strokeWidths (kfPair (neighbor.X, neighbor.Y))|)

/-- Go `characterCalculate.computeLocalStrokeDirection`: `atan2` of the
summed direction vectors to adjacent medial points (0 with no neighbors). -/
noncomputable def computeLocalStrokeDirection (c : Character) (point : Point) :
    ℝ :=
  let neighbors := calcFindMedialAxisNeighbors c point
  if neighbors = [] then 0
  else
    let sumDx := (neighbors.map fun nb =>
      ((int16Sub nb.X point.X : ℤ) : ℝ)).sum
    let sumDy := (neighbors.map fun nb =>
      ((int16Sub nb.Y point.Y : ℤ) : ℝ)).sum
    goAtan2 sumDy sumDx

/-- Go `characterCalculate.computePerpendicularStrokeLine`: boundary hits of
the two rays perpendicular to the local stroke direction (the stroke-width
map parameter is unused in the source, too). -/
noncomputable def computePerpendicularStrokeLine (c : Character)
    (point : Point) (_strokeWidths : List ((ℕ × ℕ) × ℝ)) :
    Option SegmentationLine :=
  let perpAngle := computeLocalStrokeDirection c point + Real.pi / 2
  match castRayToBoundary c point perpAngle,
      castRayToBoundary c point (perpAngle + Real.pi) with
  | some boundary1, some boundary2 =>
    some { StartPoint := boundary1, EndPoint := boundary2
           Typ := "stroke_boundary", Strength := 0.6 }
  | _, _ => none

/-- Go `characterCalculate.createStrokeBoundaryLines`. -/
noncomputable def createStrokeBoundaryLines (c : Character) :
    List SegmentationLine :=
  let strokeWidthMap := computeStrokeWidthMap c
  (findStrokeWidthChangePoints c strokeWidthMap).filterMap fun changePoint =>
    computePerpendicularStrokeLine c changePoint strokeWidthMap

/-- Go `characterCalculate.linesOverlap`: the better of the two endpoint
pairings is closer than the threshold. -/
noncomputable def linesOverlap (line1 line2 : SegmentationLine)
    (threshold : ℝ) : Prop :=
  min
    (computeDistance line1.StartPoint line2.StartPoint +
      computeDistance line1.EndPoint line2.EndPoint)
    (computeDistance line1.StartPoint line2.EndPoint +
      computeDistance line1.EndPoint line2.StartPoint) < threshold

open Classical in
/-- The greedy loop of `filterSegmentationLines`: keep a line unless it
overlaps a kept one, stopping as soon as `MaxRegions - 1` lines are kept
(the Go `break` checks the bound after every iteration). -/
noncomputable def filterSegmentationLinesLoop (c : Character) :
    List SegmentationLine → List SegmentationLine → List SegmentationLine
  | [], filtered => filtered
  | line :: rest, filtered =>
    let filtered1 :=
      if ∃ existing ∈ filtered, linesOverlap line existing 3 then filtered
      else filtered ++ [line]
    if c.Config.MaxRegions - 1 ≤ (filtered1.length : ℤ) then filtered1
    else filterSegmentationLinesLoop c rest filtered1

open Classical in
/-- Go `characterCalculate.filterSegmentationLines`: sort by strength
descending (unstable `sort.Slice` modelled canonically by merge sort) and
keep non-overlapping lines up to the region limit. -/
noncomputable def filterSegmentationLines (c : Character)
    (lines : List SegmentationLine) : List SegmentationLine :=
  filterSegmentationLinesLoop c
    (lines.mergeSort fun a b => decide (b.Strength ≤ a.Strength)) []

/-- Go `characterCalculate.identifySegmentationLines`. -/
noncomputable def identifySegmentationLines (c : Character) :
    List SegmentationLine :=
  filterSegmentationLines c
    (createAnchorBasedLines c ++ createMedialAxisBasedLines c ++
      (if c.Config.EnableStrokeAnalysis = true then
        createStrokeBoundaryLines c
      else []))

/-- Go `characterCalculate.createRegionFromCharacter`: a fresh region of the
character's size with every draw-log entry replayed. -/
def createRegionFromCharacter (c : Character) : Region :=
  c.Draws.foldl (fun reg point => reg.Draw point.X point.Y)
    (NewRegion c.SizeX c.SizeY)

/-- Go `characterCalculate.getPointSideOfLine`: the cross-product side test.
The source computes it in `float64` over `uint16` coordinates, which is exact
at these magnitudes, so the model uses `ℤ`. -/
def getPointSideOfLine (point : Point) (line : SegmentationLine) : ℤ :=
  ((line.EndPoint.X : ℤ) - (line.StartPoint.X : ℤ)) *
      ((point.Y : ℤ) - (line.StartPoint.Y : ℤ)) -
    ((line.EndPoint.Y : ℤ) - (line.StartPoint.Y : ℤ)) *
      ((point.X : ℤ) - (line.StartPoint.X : ℤ))

/-- Go `characterCalculate.splitRegionByLine`: replay each draw-log entry
into the side-`≥ 0` or side-`< 0` region (the single source loop feeding two
independent sinks is modelled as two filtered replays), drop empty sides, and
fall back to the original region when both sides are empty. -/
def splitRegionByLine (reg : Region) (line : SegmentationLine) :
    List Region :=
  let region1 := ((reg.Draws.filter fun point =>
      decide (0 ≤ getPointSideOfLine point line)).foldl
    (fun r point => r.Draw point.X point.Y)
    (NewRegion reg.GetSizeX reg.GetSizeY))
  let region2 := ((reg.Draws.filter fun point =>
      decide (getPointSideOfLine point line < 0)).foldl
    (fun r point => r.Draw point.X point.Y)
    (NewRegion reg.GetSizeX reg.GetSizeY))
  let result := (if region1.Draws ≠ [] then [region1] else []) ++
    (if region2.Draws ≠ [] then [region2] else [])
  if result.length = 0 then [reg] else result

/-- Go `characterCalculate.applySemgentationLine` (sic): split every region
by the line (the character parameter is unused in the source, too). -/
def applySemgentationLine (_char : Character) (regions : List Region)
    (line : SegmentationLine) : List Region :=
  regions.flatMap fun reg => splitRegionByLine reg line

/-- Go `characterCalculate.segmentCharacter`. -/
def segmentCharacter (c : Character) (segmentationLines : List SegmentationLine) :
    List Region :=
  segmentationLines.foldl (fun regions line => applySemgentationLine c regions line)
    [createRegionFromCharacter c]

/-- Go `characterCalculate.regionsAreAdjacent`: some draw-log entry of the
first region has an 8-neighbor (computed with `uint16` wrap) drawn in the
second. -/
def regionsAreAdjacent (reg1 reg2 : Region) : Prop :=
  ∃ point1 ∈ reg1.Draws, ∃ d ∈ fillNeighborOffsets,
    reg2.IsDrew (u16off point1.X d.1) (u16off point1.Y d.2) = true

instance (reg1 reg2 : Region) : Decidable (regionsAreAdjacent reg1 reg2) := by
  unfold regionsAreAdjacent
  infer_instance

/-- Go `characterCalculate.mergeRegions`: replay every source draw-log entry
into the target. -/
def mergeRegions (target source : Region) : Region :=
  source.Draws.foldl (fun t point => t.Draw point.X point.Y) target

/-- The merge loop of `refineRegions`: find the first kept region adjacent to
`reg` and merge `reg` into it, reporting failure when none is adjacent. -/
def refineMergeLoop (reg : Region) : List Region → Option (List Region)
  | [] => none
  | other :: rest =>
    if regionsAreAdjacent reg other then some (mergeRegions other reg :: rest)
    else (refineMergeLoop reg rest).map fun l => other :: l

/-- Go `characterCalculate.refineRegions`: keep regions of at least
`MinRegionSize` log entries (`uint16(len)` wraps mod 2^16); merge smaller
ones into the first adjacent kept region, or keep them when nothing is
adjacent. -/
def refineRegions (c : Character) (regions : List Region) : List Region :=
  regions.foldl
    (fun refined reg =>
      if c.Config.MinRegionSize ≤ reg.Draws.length % 65536 then
        refined ++ [reg]
      else
        match refineMergeLoop reg refined with
        | some refined1 => refined1
        | none => refined ++ [reg])
    []

/-- Go `characterCalculate.analyzeRegions` (the identity in the source). -/
def analyzeRegions (regions : List Region) : List Region := regions

/-- Go `characterCalculate.CharacterBreakdownToRegions`: empty characters
yield no regions; otherwise anchors and medial axis are computed when
missing, segmentation lines identified, the character segmented and the
regions refined (the error results of the helper calls are always `nil`). -/
noncomputable def CharacterBreakdownToRegions (c : Character) : List Region :=
  if c.IsEmpty = true then []
  else
    let c1 := if c.AnchorPoints.length = 0 then CharacterDetectAnchors c else c
    let c2 := if c1.MedialAxis.length = 0 then CharacterComputeMedialAxis c1
      else c1
    let segmentationLines := identifySegmentationLines c2
    let regions := segmentCharacter c2 segmentationLines
    let refinedRegions := refineRegions c2 regions
    analyzeRegions refinedRegions

/-- The pixel set that a draw log covers. -/
def logSet (l : List Point) : Finset (ℕ × ℕ) :=
  (l.map fun p => (p.X, p.Y)).toFinset

/-- The union of the bitmaps of a list of regions. -/
def unionBitmaps (l : List Region) : Finset (ℕ × ℕ) :=
  l.foldr (fun r acc => r.Bitmap ∪ acc) ∅

/-- Counterexample character: (1,1) drawn twice, then erased once — the
draw log keeps a stale (1,1) entry while the foreground is empty. -/
noncomputable def c1StaleCharacter : Character :=
  (((NewCharacter 5 5 none).Draw 1 1).Draw 1 1).Erase 1 1

/-- Witness region for the moment theorems: pixels (1,1) and (2,3) on a 6×6
raster. -/
def witnessMomentRegion : Region :=
  ((NewRegion 6 6).Draw 1 1).Draw 2 3

/-- Witness region for the `region.Region` frame theorems: a 5×5 raster with
pixels (2,2) and (1,1) drawn. -/
def witnessRegion : Region :=
  ((NewRegion 5 5).Draw 2 2).Draw 1 1

/-- Witness character: a 5×5 raster where (1,1) is drawn twice and (2,2)
once. -/
noncomputable def witnessCharacter : Character :=
  (((NewCharacter 5 5 none).Draw 1 1).Draw 1 1).Draw 2 2

end Glyph

/-! ## Theorems -/

namespace Glyph

theorem isDrew_applyRegionOps_bounds (w h : ℕ) (ops : List RegionOp) (r : Region)
    (hr : ∀ x y, r.IsDrew x y = true → x < w ∧ y < h)
    (hops : ∀ op ∈ ops, RegionOpInBounds w h op) :
    ∀ x y, (applyRegionOps r ops).IsDrew x y = true → x < w ∧ y < h := by
  induction ops generalizing r with
  | nil => simpa [applyRegionOps] using hr
  | cons op rest ih =>
    have hstep : ∀ x y, (applyRegionOp r op).IsDrew x y = true → x < w ∧ y < h := by
      intro a b hab
      have hop := hops op (List.mem_cons_self op rest)
      cases op with
      | draw u v =>
        simp only [applyRegionOp, Region.Draw, Region.IsDrew, decide_eq_true_eq,
          Finset.mem_insert, Prod.mk.injEq] at hab
        rcases hab with ⟨rfl, rfl⟩ | hmem
        · exact hop
        · exact hr a b (by simpa [Region.IsDrew] using hmem)
      | erase u v =>
        simp only [applyRegionOp, Region.Erase] at hab
        by_cases hu : u ∈ r.Cols
        · rw [if_pos hu] at hab
          simp only [Region.IsDrew, decide_eq_true_eq, Finset.mem_erase] at hab
          exact hr a b (by simpa [Region.IsDrew] using hab.2)
        · rw [if_neg hu] at hab
          exact hr a b hab
    have : applyRegionOps r (op :: rest) = applyRegionOps (applyRegionOp r op) rest := by
      simp [applyRegionOps]
    rw [this]
    exact ih (applyRegionOp r op) hstep
      (fun o ho => hops o (List.mem_cons_of_mem _ ho))

/-- C4 counterexample: `Region.Draw` performs no bounds check, so a single
out-of-range `Draw(20, 5)` on a 10×10 region makes `IsDrew(20, 5)` true with
20 ≥ 10, refuting the claimed invariant for arbitrary `uint16` arguments. -/
theorem c4_counterexample :
    ((NewRegion 10 10).Draw 20 5).IsDrew 20 5 = true ∧ ¬ (20 < 10) := by
  decide

/-- C4 (amended): for a region created by `NewRegion(W, H)` and any sequence
of `Draw`/`Erase` calls whose `Draw` arguments all satisfy `x < W` and
`y < H`, every coordinate with `IsDrew(x, y)` true lies inside the raster
bounds. -/
theorem c4_amended_membership_in_bounds (w h : ℕ) (ops : List RegionOp)
    (hops : ∀ op ∈ ops, RegionOpInBounds w h op) (x y : ℕ)
    (hxy : (applyRegionOps (NewRegion w h) ops).IsDrew x y = true) :
    x < w ∧ y < h :=
  isDrew_applyRegionOps_bounds w h ops (NewRegion w h)
    (by intro a b hab; simp [NewRegion, Region.IsDrew] at hab) hops x y hxy

/-- C4 witness: the amended theorem applied to the concrete op sequence
`[Draw(3,4), Erase(9,9), Draw(0,0)]` on a 10×10 region. -/
theorem c4_witness : 3 < 10 ∧ 4 < 10 :=
  c4_amended_membership_in_bounds 10 10
    [RegionOp.draw 3 4, RegionOp.erase 9 9, RegionOp.draw 0 0]
    (by decide) 3 4 (by decide)

/-- C9: `Region.Erase(x, y)` leaves `IsDrew(x, y)` false, leaves the
membership of every other pixel unchanged, and leaves the ordered draw log
exactly as it was (it flips set membership only and never removes log
entries).  The hypothesis is the data-model invariant that every true bitmap
entry lies in a present outer-map column (all reachable `Region` values
satisfy it). -/
theorem c9_erase_flips_membership_only (r : Region) (x y : ℕ)
    (hcol : ∀ p ∈ r.Bitmap, p.1 ∈ r.Cols) :
    (r.Erase x y).IsDrew x y = false ∧
    (∀ x' y', ¬(x' = x ∧ y' = y) →
      (r.Erase x y).IsDrew x' y' = r.IsDrew x' y') ∧
    (r.Erase x y).Draws = r.Draws := by
  unfold Region.Erase
  by_cases hx : x ∈ r.Cols
  · rw [if_pos hx]
    refine ⟨?_, ?_, rfl⟩
    · simp [Region.IsDrew]
    · intro x' y' hne
      simp only [Region.IsDrew, decide_eq_decide, Finset.mem_erase]
      constructor
      · exact fun hmem => hmem.2
      · intro hmem
        refine ⟨fun hc => hne ⟨congrArg Prod.fst hc, congrArg Prod.snd hc⟩, hmem⟩
  · rw [if_neg hx]
    refine ⟨?_, fun _ _ _ => rfl, rfl⟩
    simp only [Region.IsDrew, decide_eq_false_iff_not]
    intro hmem
    exact hx (hcol (x, y) hmem)

/-- C9 witness: the theorem applied to the concrete witness region at (1,1),
with the frame part instantiated at the other drawn pixel (2,2). -/
theorem c9_witness :
    (witnessRegion.Erase 1 1).IsDrew 2 2 = witnessRegion.IsDrew 2 2 :=
  (c9_erase_flips_membership_only witnessRegion 1 1 (by decide)).2.1 2 2 (by decide)

theorem goMapSet_bb_fresh (v1 v2 v3 v4 : ℕ) :
    goMapSet (goMapSet (goMapSet (goMapSet [] "minX" v1) "maxX" v2) "minY" v3)
      "maxY" v4 =
    [("minX", v1), ("maxX", v2), ("minY", v3), ("maxY", v4)] := by
  simp [goMapSet]

theorem goMapSet_bb_overwrite (a b c d v1 v2 v3 v4 : ℕ) :
    goMapSet (goMapSet (goMapSet (goMapSet
      [("minX", a), ("maxX", b), ("minY", c), ("maxY", d)] "minX" v1)
      "maxX" v2) "minY" v3) "maxY" v4 =
    [("minX", v1), ("maxX", v2), ("minY", v3), ("maxY", v4)] := by
  simp [goMapSet]

theorem bbListOf_shape (draws : List Point) :
    bbListOf draws = [] ∨
    ∃ a b c d, bbListOf draws =
      [("minX", a), ("maxX", b), ("minY", c), ("maxY", d)] := by
  cases draws with
  | nil => exact Or.inl rfl
  | cons p rest => exact Or.inr ⟨_, _, _, _, rfl⟩

theorem recalculateBoundingBox_Bitmap (c : Character) :
    (c.recalculateBoundingBox).Bitmap = c.Bitmap := by
  obtain ⟨sx, sy, cols, bm, draws, a, r, m, s, mo, bb, cf⟩ := c
  cases draws <;> rfl

theorem recalculateBoundingBox_Draws (c : Character) :
    (c.recalculateBoundingBox).Draws = c.Draws := by
  obtain ⟨sx, sy, cols, bm, draws, a, r, m, s, mo, bb, cf⟩ := c
  cases draws <;> rfl

theorem recalculateBoundingBox_canonical (c : Character)
    (h : c.BoundingBox = [] ∨
      ∃ a b c' d, c.BoundingBox =
        [("minX", a), ("maxX", b), ("minY", c'), ("maxY", d)]) :
    (c.recalculateBoundingBox).BoundingBox = bbListOf c.Draws := by
  obtain ⟨sx, sy, cols, bm, draws, ap, rg, ma, sk, mo, bb, cf⟩ := c
  simp only at h
  cases draws with
  | nil => rfl
  | cons p rest =>
    rcases h with h | ⟨a, b, c', d, h⟩ <;> subst h <;>
      simp only [Character.recalculateBoundingBox, bbListOf,
        goMapSet_bb_fresh, goMapSet_bb_overwrite]

theorem point_eraseP_eq_erase (l : List Point) (x y : ℕ) :
    l.eraseP (fun p => decide (p.X = x ∧ p.Y = y)) = l.erase ⟨x, y⟩ := by
  rw [List.erase_eq_eraseP]
  congr 1
  funext p
  cases p with
  | mk px py =>
    show decide (px = x ∧ py = y) = decide ((⟨x, y⟩ : Point) = ⟨px, py⟩)
    rw [decide_eq_decide]
    constructor
    · rintro ⟨rfl, rfl⟩; rfl
    · intro h
      injection h with h1 h2
      exact ⟨h1.symm, h2.symm⟩

/-- C10: `Character.Erase(x, y)` clears membership of `(x, y)`, removes
exactly the first draw-log entry equal to `(x, y)` (later duplicates stay),
and recomputes the bounding box from the remaining log — so a pixel drawn
twice and erased once keeps one log entry and keeps influencing the bounding
box.  Hypotheses are the data-model invariants of reachable characters: every
log entry and bitmap entry lies in a present column, and the stored bounding
box agrees with the log. -/
theorem c10_character_erase_first_log_entry (c : Character) (x y : ℕ)
    (hcolD : ∀ p ∈ c.Draws, p.X ∈ c.Cols)
    (hcolB : ∀ p ∈ c.Bitmap, p.1 ∈ c.Cols)
    (hbb : c.BoundingBox = bbListOf c.Draws) :
    (c.Erase x y).IsDrew x y = false ∧
    (c.Erase x y).Draws = c.Draws.erase ⟨x, y⟩ ∧
    (c.Erase x y).Draws.count (⟨x, y⟩ : Point) = c.Draws.count ⟨x, y⟩ - 1 ∧
    (c.Erase x y).BoundingBox = bbListOf ((c.Erase x y).Draws) := by
  unfold Character.Erase
  by_cases hx : x ∈ c.Cols
  · rw [if_pos hx]
    set c1 : Character :=
      { c with Bitmap := c.Bitmap.erase (x, y),
               Draws := c.Draws.eraseP fun p => decide (p.X = x ∧ p.Y = y) }
      with hc1
    have hcanon := recalculateBoundingBox_canonical c1
      (by rw [hc1]; show c.BoundingBox = [] ∨ _; rw [hbb]; exact bbListOf_shape c.Draws)
    have hD : (c1.recalculateBoundingBox).Draws = c.Draws.erase ⟨x, y⟩ := by
      rw [recalculateBoundingBox_Draws, hc1]
      exact point_eraseP_eq_erase c.Draws x y
    refine ⟨?_, ?_, ?_, ?_⟩
    · unfold Character.IsDrew
      rw [recalculateBoundingBox_Bitmap]
      simp [hc1]
    · exact hD
    · rw [hD]
      exact List.count_erase_self _ _
    · rw [hD, hcanon]
      show bbListOf (c.Draws.eraseP fun p => decide (p.X = x ∧ p.Y = y)) = _
      rw [point_eraseP_eq_erase]
  · rw [if_neg hx]
    have hnod : c.Draws.count (⟨x, y⟩ : Point) = 0 := by
      rw [List.count_eq_zero]
      intro hmem
      exact hx (hcolD ⟨x, y⟩ hmem)
    have hnomem : (⟨x, y⟩ : Point) ∉ c.Draws := by
      rw [← List.count_pos_iff, hnod]
      simp
    refine ⟨?_, ?_, ?_, ?_⟩
    · simp only [Character.IsDrew, decide_eq_false_iff_not]
      intro hmem
      exact hx (hcolB (x, y) hmem)
    · rw [List.erase_of_not_mem hnomem]
    · rw [hnod]
    · rw [hbb]

theorem pixSumT_00 (S : Finset (ℕ × ℕ)) (d e : ℝ) :
    pixSumT S d e 0 0 = pixSum S 0 0 :=
  Finset.sum_congr rfl fun p _ => by ring

theorem pixSumT_10 (S : Finset (ℕ × ℕ)) (d e : ℝ) :
    pixSumT S d e 1 0 = pixSum S 1 0 + d * pixSum S 0 0 := by
  unfold pixSumT pixSum
  simp only [Finset.mul_sum, ← Finset.sum_add_distrib]
  exact Finset.sum_congr rfl fun p _ => by ring

theorem pixSumT_01 (S : Finset (ℕ × ℕ)) (d e : ℝ) :
    pixSumT S d e 0 1 = pixSum S 0 1 + e * pixSum S 0 0 := by
  unfold pixSumT pixSum
  simp only [Finset.mul_sum, ← Finset.sum_add_distrib]
  exact Finset.sum_congr rfl fun p _ => by ring

theorem pixSumT_11 (S : Finset (ℕ × ℕ)) (d e : ℝ) :
    pixSumT S d e 1 1 = pixSum S 1 1 + e * pixSum S 1 0 + d * pixSum S 0 1 +
      d * e * pixSum S 0 0 := by
  unfold pixSumT pixSum
  simp only [Finset.mul_sum, ← Finset.sum_add_distrib]
  exact Finset.sum_congr rfl fun p _ => by ring

theorem pixSumT_20 (S : Finset (ℕ × ℕ)) (d e : ℝ) :
    pixSumT S d e 2 0 = pixSum S 2 0 + 2 * d * pixSum S 1 0 +
      d ^ 2 * pixSum S 0 0 := by
  unfold pixSumT pixSum
  simp only [Finset.mul_sum, ← Finset.sum_add_distrib]
  exact Finset.sum_congr rfl fun p _ => by ring

theorem pixSumT_02 (S : Finset (ℕ × ℕ)) (d e : ℝ) :
    pixSumT S d e 0 2 = pixSum S 0 2 + 2 * e * pixSum S 0 1 +
      e ^ 2 * pixSum S 0 0 := by
  unfold pixSumT pixSum
  simp only [Finset.mul_sum, ← Finset.sum_add_distrib]
  exact Finset.sum_congr rfl fun p _ => by ring

theorem pixSumT_21 (S : Finset (ℕ × ℕ)) (d e : ℝ) :
    pixSumT S d e 2 1 = pixSum S 2 1 + e * pixSum S 2 0 + 2 * d * pixSum S 1 1 +
      2 * d * e * pixSum S 1 0 + d ^ 2 * pixSum S 0 1 +
      d ^ 2 * e * pixSum S 0 0 := by
  unfold pixSumT pixSum
  simp only [Finset.mul_sum, ← Finset.sum_add_distrib]
  exact Finset.sum_congr rfl fun p _ => by ring

theorem pixSumT_12 (S : Finset (ℕ × ℕ)) (d e : ℝ) :
    pixSumT S d e 1 2 = pixSum S 1 2 + d * pixSum S 0 2 + 2 * e * pixSum S 1 1 +
      2 * d * e * pixSum S 0 1 + e ^ 2 * pixSum S 1 0 +
      e ^ 2 * d * pixSum S 0 0 := by
  unfold pixSumT pixSum
  simp only [Finset.mul_sum, ← Finset.sum_add_distrib]
  exact Finset.sum_congr rfl fun p _ => by ring

theorem pixSumT_30 (S : Finset (ℕ × ℕ)) (d e : ℝ) :
    pixSumT S d e 3 0 = pixSum S 3 0 + 3 * d * pixSum S 2 0 +
      3 * d ^ 2 * pixSum S 1 0 + d ^ 3 * pixSum S 0 0 := by
  unfold pixSumT pixSum
  simp only [Finset.mul_sum, ← Finset.sum_add_distrib]
  exact Finset.sum_congr rfl fun p _ => by ring

theorem pixSumT_03 (S : Finset (ℕ × ℕ)) (d e : ℝ) :
    pixSumT S d e 0 3 = pixSum S 0 3 + 3 * e * pixSum S 0 2 +
      3 * e ^ 2 * pixSum S 0 1 + e ^ 3 * pixSum S 0 0 := by
  unfold pixSumT pixSum
  simp only [Finset.mul_sum, ← Finset.sum_add_distrib]
  exact Finset.sum_congr rfl fun p _ => by ring

theorem momentSum_eq_pixSum (r : Region)
    (hin : ∀ p ∈ r.Bitmap, p.1 < r.SizeX ∧ p.2 < r.SizeY) (a b : ℕ) :
    momentSum r a b = pixSum r.Bitmap a b := by
  unfold momentSum pixSum
  apply Finset.sum_congr _ fun _ _ => rfl
  ext p
  simp only [Finset.mem_filter, Finset.mem_product, Finset.mem_range,
    Region.IsDrew, decide_eq_true_eq, Prod.mk.eta]
  constructor
  · rintro ⟨-, hmem⟩
    exact hmem
  · intro hmem
    exact ⟨⟨(hin p hmem).1, (hin p hmem).2⟩, hmem⟩

theorem momentSum_translate (r : Region) (dx dy : ℤ)
    (htr : ∀ p ∈ r.Bitmap, 0 ≤ (p.1 : ℤ) + dx ∧ (p.1 : ℤ) + dx < (r.SizeX : ℤ) ∧
      0 ≤ (p.2 : ℤ) + dy ∧ (p.2 : ℤ) + dy < (r.SizeY : ℤ)) (a b : ℕ) :
    momentSum (translateRegion r dx dy) a b =
      pixSumT r.Bitmap (dx : ℝ) (dy : ℝ) a b := by
  have hin' : ∀ q ∈ (translateRegion r dx dy).Bitmap,
      q.1 < (translateRegion r dx dy).SizeX ∧
      q.2 < (translateRegion r dx dy).SizeY := by
    intro q hq
    simp only [translateRegion, Finset.mem_image] at hq
    obtain ⟨p, hp, rfl⟩ := hq
    obtain ⟨h1, h2, h3, h4⟩ := htr p hp
    exact ⟨by show ((p.1 : ℤ) + dx).toNat < r.SizeX; omega,
      by show ((p.2 : ℤ) + dy).toNat < r.SizeY; omega⟩
  rw [momentSum_eq_pixSum _ hin']
  have hinj : ∀ p ∈ r.Bitmap, ∀ q ∈ r.Bitmap,
      ((((p.1 : ℤ) + dx).toNat, ((p.2 : ℤ) + dy).toNat) : ℕ × ℕ) =
        (((q.1 : ℤ) + dx).toNat, ((q.2 : ℤ) + dy).toNat) → p = q := by
    intro p hp q hq hfe
    obtain ⟨hp1, -, hp3, -⟩ := htr p hp
    obtain ⟨hq1, -, hq3, -⟩ := htr q hq
    have e1 := congrArg Prod.fst hfe
    have e2 := congrArg Prod.snd hfe
    simp only at e1 e2
    exact Prod.ext (by omega) (by omega)
  show pixSum (r.Bitmap.image _) a b = _
  unfold pixSum pixSumT
  rw [Finset.sum_image hinj]
  apply Finset.sum_congr rfl
  intro p hp
  obtain ⟨h1, -, h3, -⟩ := htr p hp
  have e1 := congrArg (fun z : ℤ => (z : ℝ)) (Int.toNat_of_nonneg h1)
  have e2 := congrArg (fun z : ℤ => (z : ℝ)) (Int.toNat_of_nonneg h3)
  push_cast at e1 e2
  rw [show ((((p.1 : ℤ) + dx).toNat, ((p.2 : ℤ) + dy).toNat) : ℕ × ℕ).1 =
      ((p.1 : ℤ) + dx).toNat from rfl,
    show ((((p.1 : ℤ) + dx).toNat, ((p.2 : ℤ) + dy).toNat) : ℕ × ℕ).2 =
      ((p.2 : ℤ) + dy).toNat from rfl, e1, e2]

theorem regionMoments_m00 (r : Region) :
    RegionComputeMoments r "m00" = momentSum r 0 0 := by
  simp [RegionComputeMoments]

theorem regionMoments_mu20 (r : Region) (h : 0 < momentSum r 0 0) :
    RegionComputeMoments r "mu20" =
      momentSum r 2 0 - momentSum r 1 0 / momentSum r 0 0 * momentSum r 1 0 := by
  simp [RegionComputeMoments, h]

theorem regionMoments_mu02 (r : Region) (h : 0 < momentSum r 0 0) :
    RegionComputeMoments r "mu02" =
      momentSum r 0 2 - momentSum r 0 1 / momentSum r 0 0 * momentSum r 0 1 := by
  simp [RegionComputeMoments, h]

theorem regionMoments_mu11 (r : Region) (h : 0 < momentSum r 0 0) :
    RegionComputeMoments r "mu11" =
      momentSum r 1 1 - momentSum r 1 0 / momentSum r 0 0 * momentSum r 0 1 := by
  simp [RegionComputeMoments, h]

theorem regionMoments_mu30 (r : Region) (h : 0 < momentSum r 0 0) :
    RegionComputeMoments r "mu30" =
      momentSum r 3 0 - 3 * (momentSum r 1 0 / momentSum r 0 0) * momentSum r 2 0 +
        2 * (momentSum r 1 0 / momentSum r 0 0) * (momentSum r 1 0 / momentSum r 0 0) *
          momentSum r 1 0 := by
  simp [RegionComputeMoments, h]

theorem regionMoments_mu21 (r : Region) (h : 0 < momentSum r 0 0) :
    RegionComputeMoments r "mu21" =
      momentSum r 2 1 - 2 * (momentSum r 1 0 / momentSum r 0 0) * momentSum r 1 1 -
        momentSum r 0 1 / momentSum r 0 0 * momentSum r 2 0 +
        2 * (momentSum r 1 0 / momentSum r 0 0) * (momentSum r 1 0 / momentSum r 0 0) *
          momentSum r 0 1 := by
  simp [RegionComputeMoments, h]

theorem regionMoments_mu12 (r : Region) (h : 0 < momentSum r 0 0) :
    RegionComputeMoments r "mu12" =
      momentSum r 1 2 - 2 * (momentSum r 0 1 / momentSum r 0 0) * momentSum r 1 1 -
        momentSum r 1 0 / momentSum r 0 0 * momentSum r 0 2 +
        2 * (momentSum r 0 1 / momentSum r 0 0) * (momentSum r 0 1 / momentSum r 0 0) *
          momentSum r 1 0 := by
  simp [RegionComputeMoments, h]

theorem regionMoments_mu03 (r : Region) (h : 0 < momentSum r 0 0) :
    RegionComputeMoments r "mu03" =
      momentSum r 0 3 - 3 * (momentSum r 0 1 / momentSum r 0 0) * momentSum r 0 2 +
        2 * (momentSum r 0 1 / momentSum r 0 0) * (momentSum r 0 1 / momentSum r 0 0) *
          momentSum r 0 1 := by
  simp [RegionComputeMoments, h]

theorem hu_reads_eight (m1 m2 : String → ℝ)
    (h00 : m1 "m00" = m2 "m00") (h20 : m1 "mu20" = m2 "mu20")
    (h02 : m1 "mu02" = m2 "mu02") (h11 : m1 "mu11" = m2 "mu11")
    (h30 : m1 "mu30" = m2 "mu30") (h21 : m1 "mu21" = m2 "mu21")
    (h12 : m1 "mu12" = m2 "mu12") (h03 : m1 "mu03" = m2 "mu03") :
    RegionComputeHuInvariants m1 = RegionComputeHuInvariants m2 := by
  simp only [RegionComputeHuInvariants, h00, h20, h02, h11, h30, h21, h12, h03]

/-- C5 counterexample: on the moments map with `m00 = 4`, `mu20 = 1` and all
other entries `0`, the code's Hu vector differs from the spec's normalization
`η_pq = μ_pq / m00^((p+q)/2 + 1)`: the code divides `mu20` by
`4^2.5 = 32` where the spec prescribes `4^2 = 16`. -/
theorem c5_counterexample :
    RegionComputeHuInvariants c5Moments ≠ huInvariantsSpecNormalized c5Moments := by
  intro h
  have e1 : c5Moments "m00" = 4 := by simp [c5Moments]
  have e2 : c5Moments "mu20" = 1 := by simp [c5Moments]
  have e3 : c5Moments "mu02" = 0 := by simp [c5Moments]
  have e4 : c5Moments "mu11" = 0 := by simp [c5Moments]
  have e5 : c5Moments "mu30" = 0 := by simp [c5Moments]
  have e6 : c5Moments "mu21" = 0 := by simp [c5Moments]
  have e7 : c5Moments "mu12" = 0 := by simp [c5Moments]
  have e8 : c5Moments "mu03" = 0 := by simp [c5Moments]
  have hne : ¬ ((4 : ℝ) = 0) := by norm_num
  simp only [RegionComputeHuInvariants, huInvariantsSpecNormalized,
    e1, e2, e3, e4, e5, e6, e7, e8, if_neg hne] at h
  rw [List.cons.injEq] at h
  obtain ⟨h0, -⟩ := h
  rw [show (4 : ℝ) ^ (2.5 : ℝ) = 32 by
      rw [show (4 : ℝ) = 2 ^ (2 : ℕ) by norm_num, ← Real.rpow_natCast 2 2,
        ← Real.rpow_mul (by norm_num)]
      rw [show (2 : ℕ) * (2.5 : ℝ) = ((5 : ℕ) : ℝ) by norm_num]
      rw [Real.rpow_natCast]
      norm_num,
    show (4 : ℝ) ^ ((2 : ℝ) / 2 + 1) = 16 by
      rw [show ((2 : ℝ) / 2 + 1) = ((2 : ℕ) : ℝ) by norm_num, Real.rpow_natCast]
      norm_num] at h0
  norm_num at h0

/-- C5 (amended): for every moments map with `m00 > 0`,
`RegionComputeHuInvariants` computes the seven Hu combinations from the
normalized central moments `η_pq = μ_pq / m00^((p+q) + 1/2)`: the
second-order central moments are divided by `m00^2.5` and the third-order
ones by `m00^3.5`. -/
theorem c5_amended_code_normalization (moments : String → ℝ)
    (h : 0 < moments "m00") :
    RegionComputeHuInvariants moments = huInvariantsAmendedNormalized moments := by
  have hne : ¬ (moments "m00" = 0) := by
    intro hh
    rw [hh] at h
    exact lt_irrefl 0 h
  simp only [RegionComputeHuInvariants, huInvariantsAmendedNormalized, if_neg hne]
  rw [show (2.5 : ℝ) = (2 : ℝ) + 1 / 2 by norm_num,
    show (3.5 : ℝ) = (3 : ℝ) + 1 / 2 by norm_num]

/-- C5 witness: the amended theorem applied to the concrete counterexample
moments map, whose `m00` is `4 > 0`. -/
theorem c5_witness :
    (0 : ℝ) < c5Moments "m00" ∧
    RegionComputeHuInvariants c5Moments = huInvariantsAmendedNormalized c5Moments :=
  ⟨by simp [c5Moments], c5_amended_code_normalization c5Moments (by simp [c5Moments])⟩

/-- C6: for every region whose foreground pixels lie on the raster grid, with
`m00 > 0`, and every constant integer offset keeping all translated pixels on
the grid, the translated region's moments yield exactly the same Hu
7-vector (translation invariance over exact real arithmetic). -/
theorem c6_hu_translation_invariant (r : Region) (dx dy : ℤ)
    (hin : ∀ p ∈ r.Bitmap, p.1 < r.SizeX ∧ p.2 < r.SizeY)
    (htr : ∀ p ∈ r.Bitmap, 0 ≤ (p.1 : ℤ) + dx ∧ (p.1 : ℤ) + dx < (r.SizeX : ℤ) ∧
      0 ≤ (p.2 : ℤ) + dy ∧ (p.2 : ℤ) + dy < (r.SizeY : ℤ))
    (hm : 0 < RegionComputeMoments r "m00") :
    RegionComputeHuInvariants (RegionComputeMoments (translateRegion r dx dy)) =
      RegionComputeHuInvariants (RegionComputeMoments r) := by
  rw [regionMoments_m00, momentSum_eq_pixSum r hin] at hm
  have hNe : pixSum r.Bitmap 0 0 ≠ 0 := ne_of_gt hm
  have hEq : ∀ a b, momentSum r a b = pixSum r.Bitmap a b := momentSum_eq_pixSum r hin
  have hEqT : ∀ a b, momentSum (translateRegion r dx dy) a b =
      pixSumT r.Bitmap (dx : ℝ) (dy : ℝ) a b := momentSum_translate r dx dy htr
  have hmr : 0 < momentSum r 0 0 := by rw [hEq 0 0]; exact hm
  have hmt : 0 < momentSum (translateRegion r dx dy) 0 0 := by
    rw [hEqT 0 0, pixSumT_00]; exact hm
  apply hu_reads_eight
  · rw [regionMoments_m00, regionMoments_m00, hEqT 0 0, hEq 0 0, pixSumT_00]
  · rw [regionMoments_mu20 _ hmt, regionMoments_mu20 _ hmr]
    simp only [hEqT, hEq, pixSumT_00, pixSumT_10, pixSumT_20]
    field_simp
    ring
  · rw [regionMoments_mu02 _ hmt, regionMoments_mu02 _ hmr]
    simp only [hEqT, hEq, pixSumT_00, pixSumT_01, pixSumT_02]
    field_simp
    ring
  · rw [regionMoments_mu11 _ hmt, regionMoments_mu11 _ hmr]
    simp only [hEqT, hEq, pixSumT_00, pixSumT_10, pixSumT_01, pixSumT_11]
    field_simp
    ring
  · rw [regionMoments_mu30 _ hmt, regionMoments_mu30 _ hmr]
    simp only [hEqT, hEq, pixSumT_00, pixSumT_10, pixSumT_20, pixSumT_30]
    field_simp
    ring
  · rw [regionMoments_mu21 _ hmt, regionMoments_mu21 _ hmr]
    simp only [hEqT, hEq, pixSumT_00, pixSumT_10, pixSumT_01, pixSumT_11,
      pixSumT_20, pixSumT_21]
    field_simp
    ring
  · rw [regionMoments_mu12 _ hmt, regionMoments_mu12 _ hmr]
    simp only [hEqT, hEq, pixSumT_00, pixSumT_10, pixSumT_01, pixSumT_11,
      pixSumT_02, pixSumT_12]
    field_simp
    ring
  · rw [regionMoments_mu03 _ hmt, regionMoments_mu03 _ hmr]
    simp only [hEqT, hEq, pixSumT_00, pixSumT_01, pixSumT_02, pixSumT_03]
    field_simp
    ring

/-- C6 witness: the theorem applied to the concrete 6×6 region with pixels
(1,1) and (2,3), translated by the offset (2, 1). -/
theorem c6_witness :
    RegionComputeHuInvariants
        (RegionComputeMoments (translateRegion witnessMomentRegion 2 1)) =
      RegionComputeHuInvariants (RegionComputeMoments witnessMomentRegion) :=
  c6_hu_translation_invariant witnessMomentRegion 2 1 (by decide) (by decide)
    (by
      rw [regionMoments_m00]
      have hcard : momentSum witnessMomentRegion 0 0 =
          (((Finset.range witnessMomentRegion.SizeX ×ˢ
              Finset.range witnessMomentRegion.SizeY).filter
            (fun p => witnessMomentRegion.IsDrew p.1 p.2)).card : ℝ) := by
        unfold momentSum
        simp
      rw [hcard]
      have : (((Finset.range witnessMomentRegion.SizeX ×ˢ
          Finset.range witnessMomentRegion.SizeY).filter
            (fun p => witnessMomentRegion.IsDrew p.1 p.2)).card) = 2 := by decide
      rw [this]
      norm_num)

theorem edgeCells_mem_some {r : Region} {x y : ℕ} {b : ℕ × ℕ}
    (h : (if r.IsDrew x y && canvasIsEdge r x y then some (x, y) else none) =
      some b) : b = (x, y) := by
  split at h
  · exact (Option.some.inj h).symm
  · cases h

theorem edgeCells_nodup (r : Region) : (edgeCells r).Nodup := by
  unfold edgeCells
  rw [List.nodup_flatMap]
  constructor
  · intro x _
    refine List.Nodup.filterMap ?_ (List.nodup_range' 1 (edgeLimit r.SizeY - 1))
    intro a a' b hb hb'
    have e1 := edgeCells_mem_some (r := r) (x := x) (y := a) hb
    have e2 := edgeCells_mem_some (r := r) (x := x) (y := a') hb'
    have e3 : ((x, a) : ℕ × ℕ) = (x, a') := by rw [← e1, ← e2]
    exact congrArg Prod.snd e3
  · refine List.Pairwise.imp ?_ (List.nodup_range' 1 (edgeLimit r.SizeX - 1))
    intro x x' hne
    rw [Function.onFun, List.disjoint_left]
    intro b hb hb'
    rw [List.mem_filterMap] at hb hb'
    obtain ⟨y, -, hy⟩ := hb
    obtain ⟨y', -, hy'⟩ := hb'
    have e1 := edgeCells_mem_some hy
    have e2 := edgeCells_mem_some hy'
    apply hne
    exact congrArg Prod.fst (e1.symm.trans e2)

theorem edgeCells_subset (r : Region) : ∀ p ∈ edgeCells r, p ∈ r.Bitmap := by
  intro p hp
  unfold edgeCells at hp
  rw [List.mem_flatMap] at hp
  obtain ⟨x, -, hx⟩ := hp
  rw [List.mem_filterMap] at hx
  obtain ⟨y, -, hy⟩ := hx
  have e := edgeCells_mem_some hy
  subst e
  by_cases hc : (r.IsDrew x y && canvasIsEdge r x y) = true
  · rw [Bool.and_eq_true] at hc
    have hd := hc.1
    rw [Region.IsDrew, decide_eq_true_eq] at hd
    exact hd
  · rw [if_neg hc] at hy
    cases hy

theorem edges_length_le_bitmap_card (r : Region) :
    (extractEdges r).length ≤ r.Bitmap.card := by
  unfold extractEdges
  rw [List.length_map]
  rw [← List.toFinset_card_of_nodup (edgeCells_nodup r)]
  apply Finset.card_le_card
  intro p hp
  rw [List.mem_toFinset] at hp
  exact edgeCells_subset r p hp

/-- C2: `Region.Arc` (the `ComputeShapeDescriptor` entry point) returns `nil`
for every region with fewer than 3 foreground pixels, and in general returns
`nil` exactly when the draw log has fewer than 3 entries or fewer than 3 edge
points are extracted; no other outcome than a descriptor or `nil` exists. -/
theorem c2_arc_insufficient_data (r : Region) :
    (r.Bitmap.card < 3 → r.Arc = none) ∧
    (r.Arc = none ↔ r.Draws.length < 3 ∨ (extractEdges r).length < 3) := by
  constructor
  · intro hcard
    unfold Region.Arc
    by_cases hd : r.Draws.length < 3
    · rw [if_pos hd]
    · rw [if_neg hd]
      have hle := edges_length_le_bitmap_card r
      simp only [if_pos (lt_of_le_of_lt hle hcard)]
  · unfold Region.Arc
    by_cases hd : r.Draws.length < 3
    · simp [hd]
    · by_cases he : (extractEdges r).length < 3
      · simp [hd, he]
      · simp [hd, he]

/-- C2 witness: the theorem applied to the two-pixel witness region. -/
theorem c2_witness : witnessRegion.Bitmap.card < 3 ∧ witnessRegion.Arc = none :=
  ⟨by decide, (c2_arc_insufficient_data witnessRegion).1 (by decide)⟩

/-- C3: `RegionClassifyShape` follows the spec's first-match-wins decision
order — Circle iff the top circle's votes exceed `drawsCount/3` and
circularity > 0.7; otherwise StraightLine iff the top line's votes exceed
`drawsCount/2` and linearity > 0.8; otherwise Triangle iff exactly 3 corners
are detected from the curvatures; otherwise Rectangle iff exactly 4 corners
and rectangularity > 0.7; otherwise CurvedLine iff the mean absolute
curvature lies strictly in (0.1, 0.8); otherwise StraightLine.  The fill
verdict is passed through unchanged. -/
theorem c3_classify_shape_decision_order (fillType : ArcFillType)
    (drawsCount : ℤ) (hu curvatures : List ℝ)
    (lines circles : List HoughAccumulator) :
    ((RegionClassifyShape fillType drawsCount hu curvatures lines circles).1 =
        ArcType.ArcTypeCircle ↔
      (0 < circles.length ∧
        Int.tdiv drawsCount 3 < (circles.headD ⟨0, 0, 0⟩).Votes ∧
        0.7 < RegionComputeCircularity hu)) ∧
    ((RegionClassifyShape fillType drawsCount hu curvatures lines circles).1 =
        ArcType.ArcTypeTriangle ↔
      (¬ (0 < circles.length ∧
          Int.tdiv drawsCount 3 < (circles.headD ⟨0, 0, 0⟩).Votes ∧
          0.7 < RegionComputeCircularity hu) ∧
       ¬ (0 < lines.length ∧
          Int.tdiv drawsCount 2 < (lines.headD ⟨0, 0, 0⟩).Votes ∧
          0.8 < RegionComputeLinearity hu) ∧
       (RegionDetectCorners curvatures []).length = 3)) ∧
    ((RegionClassifyShape fillType drawsCount hu curvatures lines circles).1 =
        ArcType.ArcTypeRectangle ↔
      (¬ (0 < circles.length ∧
          Int.tdiv drawsCount 3 < (circles.headD ⟨0, 0, 0⟩).Votes ∧
          0.7 < RegionComputeCircularity hu) ∧
       ¬ (0 < lines.length ∧
          Int.tdiv drawsCount 2 < (lines.headD ⟨0, 0, 0⟩).Votes ∧
          0.8 < RegionComputeLinearity hu) ∧
       ¬ (RegionDetectCorners curvatures []).length = 3 ∧
       ((RegionDetectCorners curvatures []).length = 4 ∧
        0.7 < RegionComputeRectangularity hu))) ∧
    ((RegionClassifyShape fillType drawsCount hu curvatures lines circles).1 =
        ArcType.ArcTypeCurveLine ↔
      (¬ (0 < circles.length ∧
          Int.tdiv drawsCount 3 < (circles.headD ⟨0, 0, 0⟩).Votes ∧
          0.7 < RegionComputeCircularity hu) ∧
       ¬ (0 < lines.length ∧
          Int.tdiv drawsCount 2 < (lines.headD ⟨0, 0, 0⟩).Votes ∧
          0.8 < RegionComputeLinearity hu) ∧
       ¬ (RegionDetectCorners curvatures []).length = 3 ∧
       ¬ ((RegionDetectCorners curvatures []).length = 4 ∧
          0.7 < RegionComputeRectangularity hu) ∧
       (0.1 < meanAbsCurvature curvatures ∧ meanAbsCurvature curvatures < 0.8))) ∧
    ((RegionClassifyShape fillType drawsCount hu curvatures lines circles).1 =
        ArcType.ArcTypeStrengthLine ↔
      ((¬ (0 < circles.length ∧
           Int.tdiv drawsCount 3 < (circles.headD ⟨0, 0, 0⟩).Votes ∧
           0.7 < RegionComputeCircularity hu) ∧
        (0 < lines.length ∧
         Int.tdiv drawsCount 2 < (lines.headD ⟨0, 0, 0⟩).Votes ∧
         0.8 < RegionComputeLinearity hu)) ∨
       (¬ (0 < circles.length ∧
           Int.tdiv drawsCount 3 < (circles.headD ⟨0, 0, 0⟩).Votes ∧
           0.7 < RegionComputeCircularity hu) ∧
        ¬ (0 < lines.length ∧
           Int.tdiv drawsCount 2 < (lines.headD ⟨0, 0, 0⟩).Votes ∧
           0.8 < RegionComputeLinearity hu) ∧
        ¬ (RegionDetectCorners curvatures []).length = 3 ∧
        ¬ ((RegionDetectCorners curvatures []).length = 4 ∧
           0.7 < RegionComputeRectangularity hu) ∧
        ¬ (0.1 < meanAbsCurvature curvatures ∧
           meanAbsCurvature curvatures < 0.8)))) ∧
    (RegionClassifyShape fillType drawsCount hu curvatures lines circles).2 =
      fillType := by
  classical
  unfold RegionClassifyShape
  simp only [List.headD_eq_head?_getD]
  by_cases h1 : (0 < circles.length ∧
      Int.tdiv drawsCount 3 < (circles.head?.getD ⟨0, 0, 0⟩).Votes ∧
      0.7 < RegionComputeCircularity hu)
  · rw [if_pos h1]
    obtain ⟨ha, hb, hc⟩ := h1
    simp [ha, hb, hc, not_le.mpr hb, not_le.mpr hc]
  · rw [if_neg h1]
    by_cases h2 : (0 < lines.length ∧
        Int.tdiv drawsCount 2 < (lines.head?.getD ⟨0, 0, 0⟩).Votes ∧
        0.8 < RegionComputeLinearity hu)
    · rw [if_pos h2]
      obtain ⟨ha, hb, hc⟩ := h2
      simp [h1, ha, hb, hc, not_le.mpr hb, not_le.mpr hc]
    · rw [if_neg h2]
      by_cases h3 : (RegionDetectCorners curvatures []).length = 3
      · rw [if_pos h3]
        simp [h1, h2, h3]
      · rw [if_neg h3]
        by_cases h4 : ((RegionDetectCorners curvatures []).length = 4 ∧
            0.7 < RegionComputeRectangularity hu)
        · rw [if_pos h4]
          obtain ⟨ha, hb⟩ := h4
          simp [h1, h2, h3, ha, hb, not_le.mpr hb]
        · rw [if_neg h4]
          by_cases h5 : (0.1 < meanAbsCurvature curvatures ∧
              meanAbsCurvature curvatures < 0.8)
          · rw [if_pos h5]
            obtain ⟨ha, hb⟩ := h5
            simp [h1, h2, h3, h4, ha, hb, not_le.mpr ha, not_le.mpr hb]
          · rw [if_neg h5]
            simp [h1, h2, h3, h4, h5]

/-- C10 witness: the theorem applied to the witness character (pixel (1,1)
drawn twice, then (2,2)); erasing (1,1) once leaves one (1,1) entry in the
log. -/
theorem c10_witness :
    (witnessCharacter.Erase 1 1).Draws.count (⟨1, 1⟩ : Point) =
      witnessCharacter.Draws.count ⟨1, 1⟩ - 1 :=
  (c10_character_erase_first_log_entry witnessCharacter 1 1 (by decide) (by decide)
    (by decide)).2.2.1


lemma goRuneKey_id {n : ℕ} (h : n < 55296) : goRuneKey n = n := by
  unfold goRuneKey
  rw [if_neg]
  omega

lemma kfPair_id {q : ℕ × ℕ} (h1 : q.1 < 55296) (h2 : q.2 < 55296) : kfPair q = q := by
  unfold kfPair
  rw [goRuneKey_id h1, goRuneKey_id h2]

lemma int16Sub_u16off (x : ℕ) (hx : x < 65536) (d : ℤ) (hd : d.natAbs ≤ 1) :
    int16Sub (u16off x d) x = d := by
  simp only [int16Sub, wrap16, toInt16, u16off] at hd ⊢
  omega

lemma u16off_zero (x : ℕ) (hx : x < 65536) : u16off x 0 = x := by
  unfold u16off
  omega

lemma u16off_int16Sub (a b : ℕ) (ha : a < 65536) (hb : b < 65536)
    (h : (int16Sub a b).natAbs ≤ 1) : u16off b (int16Sub a b) = a := by
  simp only [int16Sub, wrap16, toInt16, u16off] at h ⊢
  omega

lemma int16Sub_abs_le_one (a b : ℕ) (ha : a < 65536) (hb : b < 65536)
    (h : (int16Sub a b).natAbs ≤ 1) :
    int16Sub b a = -(int16Sub a b) := by
  simp only [int16Sub, wrap16, toInt16] at h ⊢
  omega

lemma int16Sub_self (a : ℕ) (ha : a < 65536) : int16Sub a a = 0 := by
  unfold int16Sub wrap16 toInt16
  omega

/-- The 9 offsets of the 3x3 component scan of `analyzeJunctionPattern`
(`dx` outer, `dy` inner, center included). -/

lemma ffStep_visited {c : Character} {cx cy : ℕ} {p : ℕ × ℕ}
    {rest : List (ℕ × ℕ)} {visited : Finset (ℕ × ℕ)}
    (h : kfPair p ∈ visited) :
    ffStep c cx cy p rest visited = (rest, visited) := by
  unfold ffStep
  rw [if_pos h]

lemma ffStep_out {c : Character} {cx cy : ℕ} {p : ℕ × ℕ}
    {rest : List (ℕ × ℕ)} {visited : Finset (ℕ × ℕ)}
    (h1 : kfPair p ∉ visited)
    (h2 : 1 < (int16Sub p.1 cx).natAbs ∨ 1 < (int16Sub p.2 cy).natAbs) :
    ffStep c cx cy p rest visited = (rest, insert (kfPair p) visited) := by
  unfold ffStep
  rw [if_neg h1, if_pos h2]

lemma ffStep_in {c : Character} {cx cy : ℕ} {p : ℕ × ℕ}
    {rest : List (ℕ × ℕ)} {visited : Finset (ℕ × ℕ)}
    (h1 : kfPair p ∉ visited)
    (h2 : ¬(1 < (int16Sub p.1 cx).natAbs ∨ 1 < (int16Sub p.2 cy).natAbs)) :
    ffStep c cx cy p rest visited =
      ((ffPushes c p (insert (kfPair p) visited)).reverse ++ rest,
        insert (kfPair p) visited) := by
  unfold ffStep
  rw [if_neg h1, if_neg h2]

lemma mem_ffPushes {c : Character} {p n : ℕ × ℕ} {V : Finset (ℕ × ℕ)} :
    n ∈ ffPushes c p V ↔ ∃ d ∈ fillNeighborOffsets,
      n = (u16off p.1 d.1, u16off p.2 d.2) ∧ n.1 < c.SizeX ∧ n.2 < c.SizeY ∧
      c.IsDrew n.1 n.2 = true ∧ kfPair n ∉ V := by
  simp only [ffPushes, List.mem_filterMap]
  constructor
  · rintro ⟨d, hd, h⟩
    by_cases hc : u16off p.1 d.1 < c.SizeX ∧ u16off p.2 d.2 < c.SizeY ∧
        c.IsDrew (u16off p.1 d.1) (u16off p.2 d.2) = true ∧
        kfPair (u16off p.1 d.1, u16off p.2 d.2) ∉ V
    · rw [if_pos hc] at h
      cases Option.some.inj h
      exact ⟨d, hd, rfl, hc.1, hc.2.1, hc.2.2.1, hc.2.2.2⟩
    · rw [if_neg hc] at h
      cases h
  · rintro ⟨d, hd, rfl, h1, h2, h3, h4⟩
    refine ⟨d, hd, ?_⟩
    rw [if_pos ⟨h1, h2, h3, h4⟩]

/-- Specification of the junction flood fill: the visited set only grows,
every stacked cell's key ends up visited, and every in-window cell of the run
(visited during the run, not before) has had all its in-bounds drawn
neighbors' keys visited as well. -/
lemma ff_spec (c : Character) (cx cy : ℕ)
    (hsx : c.SizeX ≤ 55296) (hsy : c.SizeY ≤ 55296) :
    ∀ (stack : List (ℕ × ℕ)) (visited : Finset (ℕ × ℕ)),
      (∀ p ∈ stack, p.1 < c.SizeX ∧ p.2 < c.SizeY ∧ c.IsDrew p.1 p.2 = true) →
      visited ⊆ floodFillNeighborhood c cx cy stack visited ∧
      (∀ p ∈ stack, kfPair p ∈ floodFillNeighborhood c cx cy stack visited) ∧
      (∀ q : ℕ × ℕ, q.1 < c.SizeX → q.2 < c.SizeY → c.IsDrew q.1 q.2 = true →
        (int16Sub q.1 cx).natAbs ≤ 1 → (int16Sub q.2 cy).natAbs ≤ 1 →
        kfPair q ∈ floodFillNeighborhood c cx cy stack visited →
        kfPair q ∉ visited →
        ∀ d ∈ fillNeighborOffsets,
          u16off q.1 d.1 < c.SizeX → u16off q.2 d.2 < c.SizeY →
          c.IsDrew (u16off q.1 d.1) (u16off q.2 d.2) = true →
          kfPair (u16off q.1 d.1, u16off q.2 d.2) ∈
            floodFillNeighborhood c cx cy stack visited) := by
  intro stack visited
  induction stack, visited using floodFillNeighborhood.induct c cx cy with
  | case1 visited =>
    intro _
    rw [floodFillNeighborhood]
    refine ⟨le_refl _, by simp, ?_⟩
    intro q _ _ _ _ _ hin hnin
    exact absurd hin hnin
  | case2 p rest visited ih =>
    intro hstk
    have hp := hstk p (List.mem_cons_self _ _)
    have hstk' : ∀ p' ∈ rest, p'.1 < c.SizeX ∧ p'.2 < c.SizeY ∧
        c.IsDrew p'.1 p'.2 = true := fun p' h => hstk p' (List.mem_cons_of_mem _ h)
    by_cases h1 : kfPair p ∈ visited
    · -- already-visited pop
      rw [ffStep_visited h1] at ih
      obtain ⟨ih1, ih2, ih3⟩ := ih hstk'
      rw [floodFillNeighborhood, ffStep_visited h1]
      refine ⟨ih1, ?_, ?_⟩
      · intro p' hp'
        rcases List.mem_cons.1 hp' with rfl | h
        · exact ih1 h1
        · exact ih2 p' h
      · intro q hq1 hq2 hq3 hq4 hq5 hin hnin
        exact ih3 q hq1 hq2 hq3 hq4 hq5 hin hnin
    · by_cases h2 : 1 < (int16Sub p.1 cx).natAbs ∨ 1 < (int16Sub p.2 cy).natAbs
      · -- out-of-window pop
        rw [ffStep_out h1 h2] at ih
        obtain ⟨ih1, ih2, ih3⟩ := ih hstk'
        rw [floodFillNeighborhood, ffStep_out h1 h2]
        have hsubR : visited ⊆ floodFillNeighborhood c cx cy rest
            (insert (kfPair p) visited) :=
          fun k hk => ih1 (Finset.mem_insert_of_mem hk)
        refine ⟨hsubR, ?_, ?_⟩
        · intro p' hp'
          rcases List.mem_cons.1 hp' with rfl | h
          · exact ih1 (Finset.mem_insert_self _ _)
          · exact ih2 p' h
        · intro q hq1 hq2 hq3 hq4 hq5 hin hnin
          by_cases hq : kfPair q ∈ insert (kfPair p) visited
          · rcases Finset.mem_insert.1 hq with he | hv
            · exfalso
              have hb1 : q.1 < 55296 := lt_of_lt_of_le hq1 hsx
              have hb2 : q.2 < 55296 := lt_of_lt_of_le hq2 hsy
              have hb3 : p.1 < 55296 := lt_of_lt_of_le hp.1 hsx
              have hb4 : p.2 < 55296 := lt_of_lt_of_le hp.2.1 hsy
              have hqp : q = p := by
                have := he
                rw [kfPair_id hb1 hb2, kfPair_id hb3 hb4] at this
                exact this
              rcases h2 with hw | hw
              · rw [hqp] at hq4
                omega
              · rw [hqp] at hq5
                omega
            · exact absurd hv hnin
          · exact ih3 q hq1 hq2 hq3 hq4 hq5 hin hq
      · -- in-window expansion
        rw [ffStep_in h1 h2] at ih
        have hstk2 : ∀ p' ∈ (ffPushes c p (insert (kfPair p) visited)).reverse ++ rest,
            p'.1 < c.SizeX ∧ p'.2 < c.SizeY ∧ c.IsDrew p'.1 p'.2 = true := by
          intro p' hp'
          rcases List.mem_append.1 hp' with h | h
          · rw [List.mem_reverse] at h
            obtain ⟨d, -, -, hb1, hb2, hb3, -⟩ := mem_ffPushes.1 h
            exact ⟨hb1, hb2, hb3⟩
          · exact hstk' p' h
        obtain ⟨ih1, ih2, ih3⟩ := ih hstk2
        rw [floodFillNeighborhood, ffStep_in h1 h2]
        have hsubR : visited ⊆ floodFillNeighborhood c cx cy
            ((ffPushes c p (insert (kfPair p) visited)).reverse ++ rest)
            (insert (kfPair p) visited) :=
          fun k hk => ih1 (Finset.mem_insert_of_mem hk)
        refine ⟨hsubR, ?_, ?_⟩
        · intro p' hp'
          rcases List.mem_cons.1 hp' with rfl | h
          · exact ih1 (Finset.mem_insert_self _ _)
          · exact ih2 p' (List.mem_append_right _ h)
        · intro q hq1 hq2 hq3 hq4 hq5 hin hnin
          by_cases hq : kfPair q ∈ insert (kfPair p) visited
          · rcases Finset.mem_insert.1 hq with he | hv
            · -- q = p: the popped, expanded cell
              have hb1 : q.1 < 55296 := lt_of_lt_of_le hq1 hsx
              have hb2 : q.2 < 55296 := lt_of_lt_of_le hq2 hsy
              have hb3 : p.1 < 55296 := lt_of_lt_of_le hp.1 hsx
              have hb4 : p.2 < 55296 := lt_of_lt_of_le hp.2.1 hsy
              have hqp : q = p := by
                have := he
                rw [kfPair_id hb1 hb2, kfPair_id hb3 hb4] at this
                exact this
              subst hqp
              intro d hd hn1 hn2 hn3
              by_cases hnv : kfPair (u16off q.1 d.1, u16off q.2 d.2) ∈
                  insert (kfPair q) visited
              · exact ih1 hnv
              · have hpush : (u16off q.1 d.1, u16off q.2 d.2) ∈
                    ffPushes c q (insert (kfPair q) visited) :=
                  mem_ffPushes.2 ⟨d, hd, rfl, hn1, hn2, hn3, hnv⟩
                exact ih2 _ (List.mem_append_left _ (List.mem_reverse.2 hpush))
            · exact absurd hv hnin
          · exact ih3 q hq1 hq2 hq3 hq4 hq5 hin hq

/-- A flood fill started (with an empty visited set) at any in-bounds drawn
cell of the 3x3 window of an in-bounds drawn center visits the key of every
in-bounds drawn cell of that window: the fill passes through the center,
which is 8-adjacent to every window cell. -/
lemma ff_covers (c : Character) (cx cy : ℕ)
    (hsx : c.SizeX ≤ 55296) (hsy : c.SizeY ≤ 55296)
    (hcx : cx < c.SizeX) (hcy : cy < c.SizeY) (hcd : c.IsDrew cx cy = true)
    (s : ℕ × ℕ) (hs1 : s.1 < c.SizeX) (hs2 : s.2 < c.SizeY)
    (hsd : c.IsDrew s.1 s.2 = true)
    (hw1 : (int16Sub s.1 cx).natAbs ≤ 1) (hw2 : (int16Sub s.2 cy).natAbs ≤ 1) :
    ∀ q : ℕ × ℕ, q.1 < c.SizeX → q.2 < c.SizeY → c.IsDrew q.1 q.2 = true →
      (int16Sub q.1 cx).natAbs ≤ 1 → (int16Sub q.2 cy).natAbs ≤ 1 →
      kfPair q ∈ floodFillNeighborhood c cx cy [s] ∅ := by
  have h64 : (65536 : ℕ) = 65536 := rfl
  have hcx6 : cx < 65536 := by omega
  have hcy6 : cy < 65536 := by omega
  have hs16 : s.1 < 65536 := by omega
  have hs26 : s.2 < 65536 := by omega
  obtain ⟨hmono, hstk, hclo⟩ := ff_spec c cx cy hsx hsy [s] ∅
    (by intro p hp; rcases List.mem_singleton.1 hp with rfl; exact ⟨hs1, hs2, hsd⟩)
  have hsR : kfPair s ∈ floodFillNeighborhood c cx cy [s] ∅ :=
    hstk s (List.mem_singleton.2 rfl)
  -- the center's key is visited
  have hcenter : kfPair (cx, cy) ∈ floodFillNeighborhood c cx cy [s] ∅ := by
    by_cases hsc : s = (cx, cy)
    · rw [← hsc]
      exact hsR
    · have hd1 : (int16Sub cx s.1).natAbs ≤ 1 := by
        rw [int16Sub_abs_le_one s.1 cx hs16 hcx6 hw1]
        omega
      have hd2 : (int16Sub cy s.2).natAbs ≤ 1 := by
        rw [int16Sub_abs_le_one s.2 cy hs26 hcy6 hw2]
        omega
      have he1 : u16off s.1 (int16Sub cx s.1) = cx :=
        u16off_int16Sub cx s.1 hcx6 hs16 hd1
      have he2 : u16off s.2 (int16Sub cy s.2) = cy :=
        u16off_int16Sub cy s.2 hcy6 hs26 hd2
      have hdmem : (int16Sub cx s.1, int16Sub cy s.2) ∈ fillNeighborOffsets := by
        have hne : ¬(int16Sub cx s.1 = 0 ∧ int16Sub cy s.2 = 0) := by
          rintro ⟨hz1, hz2⟩
          apply hsc
          have : u16off s.1 0 = s.1 := u16off_zero s.1 hs16
          rw [hz1] at he1
          rw [hz2] at he2
          rw [u16off_zero s.1 hs16] at he1
          rw [u16off_zero s.2 hs26] at he2
          exact Prod.ext he1 he2
        have h1 : int16Sub cx s.1 = -1 ∨ int16Sub cx s.1 = 0 ∨ int16Sub cx s.1 = 1 := by
          omega
        have h2 : int16Sub cy s.2 = -1 ∨ int16Sub cy s.2 = 0 ∨ int16Sub cy s.2 = 1 := by
          omega
        rcases h1 with h1 | h1 | h1 <;> rcases h2 with h2 | h2 | h2 <;>
          simp [fillNeighborOffsets, h1, h2] <;> exact absurd ⟨h1, h2⟩ hne
      have := hclo s hs1 hs2 hsd hw1 hw2 hsR (Finset.not_mem_empty _)
        (int16Sub cx s.1, int16Sub cy s.2) hdmem
      rw [he1, he2] at this
      exact this hcx hcy hcd
  -- every window cell's key is visited, via the center
  intro q hq1 hq2 hq3 hq4 hq5
  by_cases hqc : q = (cx, cy)
  · rw [hqc]
    exact hcenter
  · have hq16 : q.1 < 65536 := by omega
    have hq26 : q.2 < 65536 := by omega
    have he1 : u16off cx (int16Sub q.1 cx) = q.1 :=
      u16off_int16Sub q.1 cx hq16 hcx6 hq4
    have he2 : u16off cy (int16Sub q.2 cy) = q.2 :=
      u16off_int16Sub q.2 cy hq26 hcy6 hq5
    have hdmem : (int16Sub q.1 cx, int16Sub q.2 cy) ∈ fillNeighborOffsets := by
      have hne : ¬(int16Sub q.1 cx = 0 ∧ int16Sub q.2 cy = 0) := by
        rintro ⟨hz1, hz2⟩
        apply hqc
        rw [hz1] at he1
        rw [hz2] at he2
        rw [u16off_zero cx hcx6] at he1
        rw [u16off_zero cy hcy6] at he2
        exact Prod.ext he1.symm he2.symm
      have h1 : int16Sub q.1 cx = -1 ∨ int16Sub q.1 cx = 0 ∨ int16Sub q.1 cx = 1 := by
        omega
      have h2 : int16Sub q.2 cy = -1 ∨ int16Sub q.2 cy = 0 ∨ int16Sub q.2 cy = 1 := by
        omega
      rcases h1 with h1 | h1 | h1 <;> rcases h2 with h2 | h2 | h2 <;>
        simp [fillNeighborOffsets, h1, h2] <;> exact absurd ⟨h1, h2⟩ hne
    have hwc1 : (int16Sub cx cx).natAbs ≤ 1 := by
      rw [int16Sub_self cx hcx6]
      decide
    have hwc2 : (int16Sub cy cy).natAbs ≤ 1 := by
      rw [int16Sub_self cy hcy6]
      decide
    have := hclo (cx, cy) hcx hcy hcd hwc1 hwc2 hcenter (Finset.not_mem_empty _)
      (int16Sub q.1 cx, int16Sub q.2 cy) hdmem
    rw [he1, he2] at this
    exact this hq1 hq2 hq3

/-- Once every in-bounds drawn window cell's key is visited, the rest of the
component scan skips every offset and leaves the state unchanged. -/
lemma junctionScan_skip (c : Character) (cx cy : ℕ)
    (hsx : c.SizeX ≤ 55296) (hsy : c.SizeY ≤ 55296)
    (hcx : cx < 65536) (hcy : cy < 65536) :
    ∀ (l : List (ℤ × ℤ)), (∀ d ∈ l, d.1.natAbs ≤ 1 ∧ d.2.natAbs ≤ 1) →
    ∀ (st : ℕ × Finset (ℕ × ℕ)),
      (∀ q : ℕ × ℕ, q.1 < c.SizeX → q.2 < c.SizeY → c.IsDrew q.1 q.2 = true →
        (int16Sub q.1 cx).natAbs ≤ 1 → (int16Sub q.2 cy).natAbs ≤ 1 →
        kfPair q ∈ st.2) →
      junctionScan c cx cy l st = st := by
  intro l
  induction l with
  | nil =>
    intro _ st _
    simp [junctionScan]
  | cons d ds ih =>
    intro hb st hcov
    have hd := hb d (List.mem_cons_self _ _)
    have hskip : kfPair (u16off cx d.1, u16off cy d.2) ∈ st.2 ∨
        c.SizeX ≤ u16off cx d.1 ∨ c.SizeY ≤ u16off cy d.2 ∨
        c.IsDrew (u16off cx d.1) (u16off cy d.2) = false := by
      by_cases h1 : u16off cx d.1 < c.SizeX
      · by_cases h2 : u16off cy d.2 < c.SizeY
        · by_cases h3 : c.IsDrew (u16off cx d.1) (u16off cy d.2) = true
          · left
            apply hcov _ h1 h2 h3
            · rw [int16Sub_u16off cx hcx d.1 hd.1]
              exact hd.1
            · rw [int16Sub_u16off cy hcy d.2 hd.2]
              exact hd.2
          · right; right; right
            simpa using h3
        · right; right; left
          omega
      · right; left
        omega
    rw [junctionScan, if_pos hskip]
    exact ih (fun d' h => hb d' (List.mem_cons_of_mem _ h)) st hcov

/-- At an in-bounds drawn center the component scan finds exactly one
component: the first non-skipped offset's fill absorbs the whole window
(through the drawn center), and every later offset is skipped.  The center
offset `(0,0)` guarantees at least one non-skipped offset. -/
lemma junctionScan_run (c : Character) (cx cy : ℕ)
    (hsx : c.SizeX ≤ 55296) (hsy : c.SizeY ≤ 55296)
    (hcx : cx < c.SizeX) (hcy : cy < c.SizeY) (hcd : c.IsDrew cx cy = true) :
    ∀ (l : List (ℤ × ℤ)), (∀ d ∈ l, d.1.natAbs ≤ 1 ∧ d.2.natAbs ≤ 1) →
      (0, 0) ∈ l → (junctionScan c cx cy l (0, ∅)).1 = 1 := by
  have hcx6 : cx < 65536 := by omega
  have hcy6 : cy < 65536 := by omega
  intro l
  induction l with
  | nil =>
    intro _ h
    cases h
  | cons d ds ih =>
    intro hb hmem
    have hd := hb d (List.mem_cons_self _ _)
    by_cases hskip : kfPair (u16off cx d.1, u16off cy d.2) ∈
        (Prod.snd (α := ℕ) (0, (∅ : Finset (ℕ × ℕ)))) ∨
        c.SizeX ≤ u16off cx d.1 ∨ c.SizeY ≤ u16off cy d.2 ∨
        c.IsDrew (u16off cx d.1) (u16off cy d.2) = false
    · -- the offset is skipped; it cannot be the center offset
      have hdz : d ≠ (0, 0) := by
        rintro rfl
        rcases hskip with h | h | h | h
        · exact absurd h (Finset.not_mem_empty _)
        · rw [u16off_zero cx hcx6] at h
          omega
        · rw [u16off_zero cy hcy6] at h
          omega
        · rw [u16off_zero cx hcx6, u16off_zero cy hcy6] at h
          rw [hcd] at h
          cases h
      rw [junctionScan, if_pos hskip]
      apply ih (fun d' h => hb d' (List.mem_cons_of_mem _ h))
      rcases List.mem_cons.1 hmem with h | h
      · exact absurd h.symm hdz
      · exact h
    · -- the offset starts the one and only fill
      rw [junctionScan, if_neg hskip]
      push_neg at hskip
      obtain ⟨-, h1, h2, h3⟩ := hskip
      have h3' : c.IsDrew (u16off cx d.1) (u16off cy d.2) = true := by
        simpa using h3
      have hcov := ff_covers c cx cy hsx hsy hcx hcy hcd
        (u16off cx d.1, u16off cy d.2) (by omega) (by omega) h3'
        (by rw [int16Sub_u16off cx hcx6 d.1 hd.1]; exact hd.1)
        (by rw [int16Sub_u16off cy hcy6 d.2 hd.2]; exact hd.2)
      rw [junctionScan_skip c cx cy hsx hsy hcx6 hcy6 ds
        (fun d' h => hb d' (List.mem_cons_of_mem _ h)) _
        (fun q hq1 hq2 hq3 hq4 hq5 => hcov q hq1 hq2 hq3 hq4 hq5)]

/-- At every in-bounds foreground pixel the 3x3 component scan of
`analyzeJunctionPattern` counts exactly one component. -/
lemma junctionComponents_eq_one (c : Character) (cx cy : ℕ)
    (hsx : c.SizeX ≤ 55296) (hsy : c.SizeY ≤ 55296)
    (hcx : cx < c.SizeX) (hcy : cy < c.SizeY) (hcd : c.IsDrew cx cy = true) :
    junctionComponents c cx cy = 1 := by
  unfold junctionComponents
  exact junctionScan_run c cx cy hsx hsy hcx hcy hcd scanOffsets
    (by decide) (by decide)

/-- A `foldl` whose step fixes the accumulator on every list element is the
identity. -/
lemma foldl_fixed {α β : Type} (f : α → β → α) (a : α) (l : List β)
    (h : ∀ b ∈ l, f a b = a) : l.foldl f a = a := by
  induction l with
  | nil => rfl
  | cons b t ih =>
    rw [List.foldl_cons, h b (List.mem_cons_self _ _)]
    exact ih fun q hq => h q (List.mem_cons_of_mem _ hq)

/-- C7: junction detection is dead code at foreground pixels.  At every
in-bounds drawn pixel of a character (sizes small enough that the
surrogate-collapse of `string(rune(n))` cannot conflate visited keys) the
3×3 component scan of `analyzeJunctionPattern` finds exactly one component —
the scan includes the center offset `(0, 0)` and the flood fill passes
through the drawn center, which is 8-adjacent to every window cell — so the
junction strength is `0`, never `(components-2)/3` with `components ≥ 3`;
consequently, with any nonnegative detection threshold,
`detectJunctionAnchors` adds no anchor at all on a character whose draw log
consists of in-bounds foreground pixels, refuting the claim that some
character produces a `"junction"` anchor this way. -/
theorem c7_junction_detection_never_fires (c : Character)
    (hsx : c.SizeX ≤ 55296) (hsy : c.SizeY ≤ 55296)
    (hdraws : ∀ p ∈ c.Draws, p.X < c.SizeX ∧ p.Y < c.SizeY ∧
      c.IsDrew p.X p.Y = true)
    (hth : 0 ≤ c.Config.AnchorDetectionThreshold) :
    (∀ x y : ℕ, x < c.SizeX → y < c.SizeY → c.IsDrew x y = true →
      junctionComponents c x y = 1 ∧ analyzeJunctionPattern c x y = 0) ∧
    detectJunctionAnchors c = c := by
  have hpix : ∀ x y : ℕ, x < c.SizeX → y < c.SizeY → c.IsDrew x y = true →
      junctionComponents c x y = 1 ∧ analyzeJunctionPattern c x y = 0 := by
    intro x y hx hy hd
    have h1 := junctionComponents_eq_one c x y hsx hsy hx hy hd
    refine ⟨h1, ?_⟩
    unfold analyzeJunctionPattern
    rw [h1]
    norm_num
  refine ⟨hpix, ?_⟩
  unfold detectJunctionAnchors
  apply foldl_fixed
  intro p hp
  obtain ⟨hx, hy, hd⟩ := hdraws p hp
  dsimp only
  rw [(hpix p.X p.Y hx hy hd).2]
  rw [if_neg (not_lt.2 hth)]

/-- Witness for the junction theorem: the 3-neighbor junction shape around
(2,2) yields one component, zero strength, and an unchanged character. -/
theorem c7_witness :
    junctionComponents junctionWitnessCharacter 2 2 = 1 ∧
    analyzeJunctionPattern junctionWitnessCharacter 2 2 = 0 ∧
    detectJunctionAnchors junctionWitnessCharacter = junctionWitnessCharacter := by
  obtain ⟨h1, h2⟩ := c7_junction_detection_never_fires junctionWitnessCharacter
    (by decide) (by decide) (by decide)
    (by rw [show junctionWitnessCharacter.Config = DefaultCharacterConfig from rfl]
        norm_num [DefaultCharacterConfig])
  exact ⟨(h1 2 2 (by decide) (by decide) (by decide)).1,
    (h1 2 2 (by decide) (by decide) (by decide)).2, h2⟩


/-- The anchor distance is symmetric: the wrapping `int16` differences are
either exact negations or both `-32768`, and they are squared. -/
lemma anchorDist_comm (a b : AnchorPoint) : anchorDist a b = anchorDist b a := by
  have key : ∀ u v : ℕ, ((int16Sub u v : ℤ) : ℝ) * ((int16Sub u v : ℤ) : ℝ) =
      ((int16Sub v u : ℤ) : ℝ) * ((int16Sub v u : ℤ) : ℝ) := by
    intro u v
    have hd : int16Sub v u = -int16Sub u v ∨
        (int16Sub u v = -32768 ∧ int16Sub v u = -32768) := by
      simp only [int16Sub, wrap16, toInt16]
      omega
    rcases hd with h | ⟨h1, h2⟩
    · rw [h]
      push_cast
      ring
    · rw [h1, h2]
  unfold anchorDist
  dsimp only
  rw [key a.Pt.X b.Pt.X, key a.Pt.Y b.Pt.Y]

/-- The greedy loop of `filterAnchors` preserves and extends pairwise
spacing: anchors are only appended when no kept anchor is strictly closer
than `minDist`. -/
lemma filterFold_pairwise (minDist : ℝ) :
    ∀ (l acc : List AnchorPoint),
      List.Pairwise (fun a b => minDist ≤ anchorDist a b) acc →
      List.Pairwise (fun a b => minDist ≤ anchorDist a b)
        (l.foldl
          (fun filtered anchor =>
            if ∃ existing ∈ filtered, anchorDist anchor existing < minDist then
              filtered
            else filtered ++ [anchor])
          acc) := by
  intro l
  induction l with
  | nil => exact fun acc h => h
  | cons a t ih =>
    intro acc h
    rw [List.foldl_cons]
    by_cases hc : ∃ existing ∈ acc, anchorDist a existing < minDist
    · rw [if_pos hc]
      exact ih acc h
    · rw [if_neg hc]
      apply ih
      rw [List.pairwise_append]
      refine ⟨h, List.pairwise_singleton _ _, ?_⟩
      intro x hx b hb
      rw [List.mem_singleton] at hb
      subst hb
      push_neg at hc
      rw [anchorDist_comm]
      exact hc x hx

/-- `AddAnchorPoint` does not touch the configuration. -/
lemma addAnchorPoint_config (c : Character) (x y : ℕ) (t : String)
    (s cu an : ℝ) : (c.AddAnchorPoint x y t s cu an).Config = c.Config := rfl

/-- A fold whose steps preserve the configuration preserves it overall. -/
lemma foldl_config {β : Type} (f : Character → β → Character) (l : List β)
    (hf : ∀ acc b, (f acc b).Config = acc.Config) :
    ∀ a : Character, (l.foldl f a).Config = a.Config := by
  induction l with
  | nil => exact fun a => rfl
  | cons b t ih =>
    intro a
    rw [List.foldl_cons, ih, hf]

/-- `detectCurvatureAnchors` does not touch the configuration. -/
lemma detectCurvatureAnchors_config (c : Character) (contour : List Point)
    (curvatures : List ℝ) :
    (detectCurvatureAnchors c contour curvatures).Config = c.Config := by
  unfold detectCurvatureAnchors
  apply foldl_config
  intro acc b
  dsimp only
  split_ifs <;> rfl

/-- `detectJunctionAnchors` does not touch the configuration. -/
lemma detectJunctionAnchors_config (c : Character) :
    (detectJunctionAnchors c).Config = c.Config := by
  unfold detectJunctionAnchors
  apply foldl_config
  intro acc b
  dsimp only
  split_ifs <;> rfl

/-- `detectExtremumAnchors` does not touch the configuration. -/
lemma detectExtremumAnchors_config (c : Character) :
    (detectExtremumAnchors c).Config = c.Config := by
  unfold detectExtremumAnchors
  split
  · rfl
  · apply foldl_config
    intro acc b
    dsimp only
    split_ifs <;> rfl

/-- The anchors retained by `filterAnchors` are pairwise at least
`MinAnchorDistance` apart. -/
lemma filterAnchors_pairwise (c : Character) :
    List.Pairwise (fun a b => c.Config.MinAnchorDistance ≤ anchorDist a b)
      (filterAnchors c).AnchorPoints := by
  unfold filterAnchors
  split
  · rename_i h
    rw [h]
    exact List.Pairwise.nil
  · exact filterFold_pairwise c.Config.MinAnchorDistance _ [] List.Pairwise.nil


/-- C8: what survives anchor detection is spaced by at least — not strictly
more than — `MinAnchorDistance`.  For every non-empty character the retained
anchor list of `CharacterDetectAnchors` is pairwise at least
`MinAnchorDistance` apart (`filterAnchors` rejects on `dist < minDist`, so
pairs at exactly the threshold are kept); empty characters are returned
untouched, stale anchors included. -/
theorem c8_retained_anchor_spacing (c : Character) (h : c.IsEmpty = false) :
    List.Pairwise
      (fun a b => c.Config.MinAnchorDistance ≤ anchorDist a b)
      (CharacterDetectAnchors c).AnchorPoints := by
  unfold CharacterDetectAnchors
  rw [if_neg (by rw [h]; exact Bool.false_ne_true)]
  dsimp only
  split
  · exact List.Pairwise.nil
  · have hcfg :
        (detectExtremumAnchors
          (if (detectCurvatureAnchors c.ClearAnalysisResults
                (extractContourPoints c.ClearAnalysisResults)
                (computeCurvatures (extractContourPoints c.ClearAnalysisResults)
                  c.ClearAnalysisResults.Config.MedialAxisEpsilon)).Config.EnableJunctionDetection
              = true then
            detectJunctionAnchors
              (detectCurvatureAnchors c.ClearAnalysisResults
                (extractContourPoints c.ClearAnalysisResults)
                (computeCurvatures (extractContourPoints c.ClearAnalysisResults)
                  c.ClearAnalysisResults.Config.MedialAxisEpsilon))
          else
            detectCurvatureAnchors c.ClearAnalysisResults
              (extractContourPoints c.ClearAnalysisResults)
              (computeCurvatures (extractContourPoints c.ClearAnalysisResults)
                c.ClearAnalysisResults.Config.MedialAxisEpsilon))).Config =
        c.Config := by
      rw [detectExtremumAnchors_config]
      split
      · rw [detectJunctionAnchors_config, detectCurvatureAnchors_config]
        rfl
      · rw [detectCurvatureAnchors_config]
        rfl
    have := filterAnchors_pairwise
      (detectExtremumAnchors
        (if (detectCurvatureAnchors c.ClearAnalysisResults
              (extractContourPoints c.ClearAnalysisResults)
              (computeCurvatures (extractContourPoints c.ClearAnalysisResults)
                c.ClearAnalysisResults.Config.MedialAxisEpsilon)).Config.EnableJunctionDetection
            = true then
          detectJunctionAnchors
            (detectCurvatureAnchors c.ClearAnalysisResults
              (extractContourPoints c.ClearAnalysisResults)
              (computeCurvatures (extractContourPoints c.ClearAnalysisResults)
                c.ClearAnalysisResults.Config.MedialAxisEpsilon))
        else
          detectCurvatureAnchors c.ClearAnalysisResults
            (extractContourPoints c.ClearAnalysisResults)
            (computeCurvatures (extractContourPoints c.ClearAnalysisResults)
              c.ClearAnalysisResults.Config.MedialAxisEpsilon)))
    rw [hcfg] at this
    exact this

/-- Counterexample to C8 as stated: anchor detection on an empty character
returns it untouched, so two stale anchors one pixel apart — below the
default `MinAnchorDistance` of 3 — both survive. -/
theorem c8_counterexample :
    CharacterDetectAnchors c8Character = c8Character ∧
    ∃ a ∈ c8Character.AnchorPoints, ∃ b ∈ c8Character.AnchorPoints,
      a ≠ b ∧ ¬(c8Character.Config.MinAnchorDistance < anchorDist a b) := by
  constructor
  · unfold CharacterDetectAnchors
    rw [if_pos (by decide)]
  · refine ⟨{ Pt := ⟨1, 1⟩, Typ := "corner", Strength := 0.9, Curvature := 0
              Angle := 0 }, by simp [c8Character], ?_⟩
    refine ⟨{ Pt := ⟨1, 2⟩, Typ := "corner", Strength := 0.8, Curvature := 0
              Angle := 0 }, by simp [c8Character], ?_, ?_⟩
    · intro heq
      have := congrArg AnchorPoint.Pt heq
      simp at this
    · have hdist : anchorDist
          { Pt := ⟨1, 1⟩, Typ := "corner", Strength := 0.9, Curvature := 0
            Angle := 0 }
          { Pt := ⟨1, 2⟩, Typ := "corner", Strength := 0.8, Curvature := 0
            Angle := 0 } = 1 := by
        unfold anchorDist
        dsimp only
        rw [show int16Sub 1 1 = 0 from by decide,
          show int16Sub 1 2 = -1 from by decide]
        norm_num
      rw [hdist, show c8Character.Config = DefaultCharacterConfig from rfl]
      unfold DefaultCharacterConfig
      norm_num

/-- Witness for the amended C8 theorem at a concrete non-empty character. -/
theorem c8_witness :
    junctionWitnessCharacter.IsEmpty = false ∧
    List.Pairwise
      (fun a b => junctionWitnessCharacter.Config.MinAnchorDistance ≤
        anchorDist a b)
      (CharacterDetectAnchors junctionWitnessCharacter).AnchorPoints :=
  ⟨by decide, c8_retained_anchor_spacing junctionWitnessCharacter (by decide)⟩


/-- `logSet` distributes over append. -/
lemma logSet_append (l1 l2 : List Point) :
    logSet (l1 ++ l2) = logSet l1 ∪ logSet l2 := by
  simp [logSet]

/-- Membership in the union of the bitmaps. -/
lemma mem_unionBitmaps {x : ℕ × ℕ} {l : List Region} :
    x ∈ unionBitmaps l ↔ ∃ r ∈ l, x ∈ r.Bitmap := by
  induction l with
  | nil => simp [unionBitmaps]
  | cons r t ih =>
    show x ∈ r.Bitmap ∪ unionBitmaps t ↔ _
    simp only [Finset.mem_union, ih, List.mem_cons]
    constructor
    · rintro (h | ⟨s, hs, hx⟩)
      · exact ⟨r, Or.inl rfl, h⟩
      · exact ⟨s, Or.inr hs, hx⟩
    · rintro ⟨s, rfl | hs, hx⟩
      · exact Or.inl hx
      · exact Or.inr ⟨s, hs, hx⟩

/-- `unionBitmaps` distributes over append. -/
lemma unionBitmaps_append (l1 l2 : List Region) :
    unionBitmaps (l1 ++ l2) = unionBitmaps l1 ∪ unionBitmaps l2 := by
  ext x
  simp only [Finset.mem_union, mem_unionBitmaps, List.mem_append]
  constructor
  · rintro ⟨r, h | h, hx⟩
    · exact Or.inl ⟨r, h, hx⟩
    · exact Or.inr ⟨r, h, hx⟩
  · rintro (⟨r, h, hx⟩ | ⟨r, h, hx⟩)
    · exact ⟨r, Or.inl h, hx⟩
    · exact ⟨r, Or.inr h, hx⟩

/-- Every listed bitmap is inside the union. -/
lemma bitmap_subset_unionBitmaps {r : Region} {l : List Region} (h : r ∈ l) :
    r.Bitmap ⊆ unionBitmaps l :=
  fun x hx => mem_unionBitmaps.2 ⟨r, h, hx⟩

/-- A set disjoint from every listed bitmap is disjoint from the union. -/
lemma disjoint_unionBitmaps {B : Finset (ℕ × ℕ)} {l : List Region}
    (h : ∀ r ∈ l, Disjoint B r.Bitmap) : Disjoint B (unionBitmaps l) := by
  induction l with
  | nil => simp [unionBitmaps]
  | cons r t ih =>
    show Disjoint B (r.Bitmap ∪ unionBitmaps t)
    rw [Finset.disjoint_union_right]
    exact ⟨h r (List.mem_cons_self _ _), ih fun s hs => h s (List.mem_cons_of_mem _ hs)⟩

/-- Replaying a list of points by `Draw` appends it to the log. -/
lemma foldDraw_Draws (l : List Point) :
    ∀ r0 : Region,
      (l.foldl (fun r p => r.Draw p.X p.Y) r0).Draws = r0.Draws ++ l := by
  induction l with
  | nil => intro r0; simp
  | cons p t ih =>
    intro r0
    rw [List.foldl_cons, ih]
    simp [Region.Draw]

/-- Replaying a list of points by `Draw` adds its pixel set to the bitmap. -/
lemma foldDraw_Bitmap (l : List Point) :
    ∀ r0 : Region,
      (l.foldl (fun r p => r.Draw p.X p.Y) r0).Bitmap =
        r0.Bitmap ∪ logSet l := by
  induction l with
  | nil => intro r0; simp [logSet]
  | cons p t ih =>
    intro r0
    rw [List.foldl_cons, ih]
    show insert (p.X, p.Y) r0.Bitmap ∪ logSet t = r0.Bitmap ∪ logSet (p :: t)
    have : logSet (p :: t) = insert (p.X, p.Y) (logSet t) := by
      simp [logSet]
    rw [this, Finset.insert_union, Finset.union_insert]

/-- Replaying draws keeps the raster size. -/
lemma foldDraw_SizeX (l : List Point) :
    ∀ r0 : Region,
      (l.foldl (fun r p => r.Draw p.X p.Y) r0).SizeX = r0.SizeX := by
  induction l with
  | nil => intro r0; rfl
  | cons p t ih => intro r0; rw [List.foldl_cons, ih]; rfl

/-- Replaying draws keeps the raster size. -/
lemma foldDraw_SizeY (l : List Point) :
    ∀ r0 : Region,
      (l.foldl (fun r p => r.Draw p.X p.Y) r0).SizeY = r0.SizeY := by
  induction l with
  | nil => intro r0; rfl
  | cons p t ih => intro r0; rw [List.foldl_cons, ih]; rfl

/-- The initial region replays exactly the character's draw log. -/
lemma createRegionFromCharacter_spec (c : Character) :
    (createRegionFromCharacter c).Draws = c.Draws ∧
    (createRegionFromCharacter c).Bitmap = logSet c.Draws := by
  unfold createRegionFromCharacter
  rw [foldDraw_Draws, foldDraw_Bitmap]
  exact ⟨by simp [NewRegion], by simp [NewRegion]⟩

/-- `logSet` of a filtered log is the filtered `logSet`. -/
lemma logSet_filter (f : Point → Bool) (l : List Point) :
    logSet (l.filter f) = (logSet l).filter fun q => f ⟨q.1, q.2⟩ := by
  ext q
  simp only [logSet, List.mem_toFinset, List.mem_map, List.mem_filter,
    Finset.mem_filter]
  constructor
  · rintro ⟨p, ⟨hp, hf⟩, rfl⟩
    exact ⟨⟨p, hp, rfl⟩, hf⟩
  · rintro ⟨⟨p, hp, rfl⟩, hf⟩
    exact ⟨p, ⟨hp, hf⟩, rfl⟩


/-- The two sides of a split partition the region's log pixel set: each
output replays a filtered log, the side test depends only on the pixel, and
the two side predicates are complementary. -/
lemma splitRegionByLine_partition (reg : Region) (line : SegmentationLine)
    (hinv : reg.Bitmap = logSet reg.Draws) :
    (∀ r ∈ splitRegionByLine reg line, r.Bitmap = logSet r.Draws) ∧
    List.Pairwise (fun r s => Disjoint r.Bitmap s.Bitmap)
      (splitRegionByLine reg line) ∧
    unionBitmaps (splitRegionByLine reg line) = reg.Bitmap := by
  unfold splitRegionByLine
  dsimp only
  set l1 := reg.Draws.filter fun point =>
    decide (0 ≤ getPointSideOfLine point line) with hl1
  set l2 := reg.Draws.filter fun point =>
    decide (getPointSideOfLine point line < 0) with hl2
  set r1 := l1.foldl (fun r point => r.Draw point.X point.Y)
    (NewRegion reg.GetSizeX reg.GetSizeY) with hr1
  set r2 := l2.foldl (fun r point => r.Draw point.X point.Y)
    (NewRegion reg.GetSizeX reg.GetSizeY) with hr2
  have hb1 : r1.Bitmap = logSet l1 := by
    rw [hr1, foldDraw_Bitmap]
    simp [NewRegion]
  have hb2 : r2.Bitmap = logSet l2 := by
    rw [hr2, foldDraw_Bitmap]
    simp [NewRegion]
  have hd1 : r1.Draws = l1 := by
    rw [hr1, foldDraw_Draws]
    simp [NewRegion]
  have hd2 : r2.Draws = l2 := by
    rw [hr2, foldDraw_Draws]
    simp [NewRegion]
  have hdisj : Disjoint (logSet l1) (logSet l2) := by
    rw [Finset.disjoint_left]
    intro q h1 h2
    rw [hl1, logSet_filter] at h1
    rw [hl2, logSet_filter] at h2
    have c1 := (Finset.mem_filter.1 h1).2
    have c2 := (Finset.mem_filter.1 h2).2
    rw [decide_eq_true_eq] at c1 c2
    omega
  have hcover : logSet l1 ∪ logSet l2 = logSet reg.Draws := by
    ext q
    rw [hl1, hl2, logSet_filter, logSet_filter]
    simp only [Finset.mem_union, Finset.mem_filter, decide_eq_true_eq]
    constructor
    · rintro (⟨h, -⟩ | ⟨h, -⟩) <;> exact h
    · intro h
      rcases le_or_lt 0 (getPointSideOfLine ⟨q.1, q.2⟩ line) with hs | hs
      · exact Or.inl ⟨h, hs⟩
      · exact Or.inr ⟨h, hs⟩
  by_cases he1 : r1.Draws ≠ []
  · by_cases he2 : r2.Draws ≠ []
    · have hval : (if r1.Draws ≠ [] then [r1] else []) ++
          (if r2.Draws ≠ [] then [r2] else []) = [r1, r2] := by
        rw [if_pos he1, if_pos he2]
        rfl
      rw [hval, if_neg (by simp)]
      refine ⟨?_, ?_, ?_⟩
      · intro r hr
        rcases List.mem_cons.1 hr with rfl | hr2
        · rw [hb1, hd1]
        · rw [List.mem_singleton.1 hr2, hb2, hd2]
      · refine List.pairwise_cons.2 ⟨?_, List.pairwise_singleton _ _⟩
        intro s hs
        rw [List.mem_singleton.1 hs, hb1, hb2]
        exact hdisj
      · show r1.Bitmap ∪ (r2.Bitmap ∪ ∅) = reg.Bitmap
        rw [hb1, hb2, hinv, Finset.union_empty, hcover]
    · push_neg at he2
      have hl2e : logSet l2 = ∅ := by
        rw [← hd2, he2]
        simp [logSet]
      have hval : (if r1.Draws ≠ [] then [r1] else []) ++
          (if r2.Draws ≠ [] then [r2] else []) = [r1] := by
        rw [if_pos he1, if_neg (by simp [he2])]
        rfl
      rw [hval, if_neg (by simp)]
      refine ⟨?_, List.pairwise_singleton _ _, ?_⟩
      · intro r hr
        rw [List.mem_singleton.1 hr, hb1, hd1]
      · show r1.Bitmap ∪ ∅ = reg.Bitmap
        rw [hb1, hinv, Finset.union_empty, ← hcover, hl2e, Finset.union_empty]
  · push_neg at he1
    have hl1e : logSet l1 = ∅ := by
      rw [← hd1, he1]
      simp [logSet]
    by_cases he2 : r2.Draws ≠ []
    · have hval : (if r1.Draws ≠ [] then [r1] else []) ++
          (if r2.Draws ≠ [] then [r2] else []) = [r2] := by
        rw [if_neg (by simp [he1]), if_pos he2]
        rfl
      rw [hval, if_neg (by simp)]
      refine ⟨?_, List.pairwise_singleton _ _, ?_⟩
      · intro r hr
        rw [List.mem_singleton.1 hr, hb2, hd2]
      · show r2.Bitmap ∪ ∅ = reg.Bitmap
        rw [hb2, hinv, Finset.union_empty, ← hcover, hl1e, Finset.empty_union]
    · push_neg at he2
      have hl2e : logSet l2 = ∅ := by
        rw [← hd2, he2]
        simp [logSet]
      have hval : (if r1.Draws ≠ [] then [r1] else []) ++
          (if r2.Draws ≠ [] then [r2] else []) = [] := by
        rw [if_neg (by simp [he1]), if_neg (by simp [he2])]
        rfl
      rw [hval, if_pos (show List.length ([] : List Region) = 0 from rfl)]
      refine ⟨?_, List.pairwise_singleton _ _, ?_⟩
      · intro r hr
        rw [List.mem_singleton.1 hr, hinv]
      · show reg.Bitmap ∪ ∅ = reg.Bitmap
        exact Finset.union_empty _

/-- Splitting every region of a disjoint family by a line keeps the family
disjoint, keeps the replay invariant, and keeps the union. -/
lemma applySemgentationLine_partition (c : Character)
    (line : SegmentationLine) :
    ∀ regions : List Region,
      (∀ r ∈ regions, r.Bitmap = logSet r.Draws) →
      List.Pairwise (fun r s => Disjoint r.Bitmap s.Bitmap) regions →
      (∀ r ∈ applySemgentationLine c regions line,
        r.Bitmap = logSet r.Draws) ∧
      List.Pairwise (fun r s => Disjoint r.Bitmap s.Bitmap)
        (applySemgentationLine c regions line) ∧
      unionBitmaps (applySemgentationLine c regions line) =
        unionBitmaps regions := by
  intro regions
  induction regions with
  | nil =>
    intro _ _
    exact ⟨by simp [applySemgentationLine], by simp [applySemgentationLine],
      rfl⟩
  | cons reg rest ih =>
    intro hinv hpw
    obtain ⟨hpw1, hpw2⟩ := List.pairwise_cons.1 hpw
    obtain ⟨ih1, ih2, ih3⟩ := ih
      (fun r hr => hinv r (List.mem_cons_of_mem _ hr)) hpw2
    obtain ⟨hs1, hs2, hs3⟩ := splitRegionByLine_partition reg line
      (hinv reg (List.mem_cons_self _ _))
    have happ : applySemgentationLine c (reg :: rest) line =
        splitRegionByLine reg line ++ applySemgentationLine c rest line := by
      simp [applySemgentationLine]
    rw [happ]
    refine ⟨?_, ?_, ?_⟩
    · intro r hr
      rcases List.mem_append.1 hr with h | h
      · exact hs1 r h
      · exact ih1 r h
    · rw [List.pairwise_append]
      refine ⟨hs2, ih2, ?_⟩
      intro a ha b hb
      have hasub : a.Bitmap ⊆ reg.Bitmap := hs3 ▸ bitmap_subset_unionBitmaps ha
      have hbsub : b.Bitmap ⊆ unionBitmaps (applySemgentationLine c rest line) :=
        bitmap_subset_unionBitmaps hb
      rw [ih3] at hbsub
      have hregrest : Disjoint reg.Bitmap (unionBitmaps rest) :=
        disjoint_unionBitmaps hpw1
      exact Finset.disjoint_of_subset_left hasub
        (Finset.disjoint_of_subset_right hbsub hregrest)
    · rw [unionBitmaps_append, hs3, ih3]
      rfl

/-- `segmentCharacter` yields disjoint log-replaying regions covering the
character's draw-log pixel set. -/
lemma segmentCharacter_partition (c : Character)
    (lines : List SegmentationLine) :
    (∀ r ∈ segmentCharacter c lines, r.Bitmap = logSet r.Draws) ∧
    List.Pairwise (fun r s => Disjoint r.Bitmap s.Bitmap)
      (segmentCharacter c lines) ∧
    unionBitmaps (segmentCharacter c lines) = logSet c.Draws := by
  unfold segmentCharacter
  obtain ⟨hcd, hcb⟩ := createRegionFromCharacter_spec c
  have base :
      (∀ r ∈ [createRegionFromCharacter c], r.Bitmap = logSet r.Draws) ∧
      List.Pairwise (fun r s => Disjoint r.Bitmap s.Bitmap)
        [createRegionFromCharacter c] ∧
      unionBitmaps [createRegionFromCharacter c] = logSet c.Draws := by
    refine ⟨?_, List.pairwise_singleton _ _, ?_⟩
    · intro r hr
      rw [List.mem_singleton.1 hr, hcb, hcd]
    · show (createRegionFromCharacter c).Bitmap ∪ ∅ = logSet c.Draws
      rw [Finset.union_empty, hcb]
  clear hcd hcb
  generalize [createRegionFromCharacter c] = regs at base ⊢
  induction lines generalizing regs with
  | nil => exact base
  | cons line rest ih =>
    rw [List.foldl_cons]
    obtain ⟨h1, h2, h3⟩ := applySemgentationLine_partition c line regs
      base.1 base.2.1
    exact ih _ ⟨h1, h2, h3.trans base.2.2⟩


/-- `mergeRegions` concatenates the logs and unions the bitmaps. -/
lemma mergeRegions_spec (target source : Region) :
    (mergeRegions target source).Draws = target.Draws ++ source.Draws ∧
    (mergeRegions target source).Bitmap = target.Bitmap ∪ logSet source.Draws := by
  unfold mergeRegions
  rw [foldDraw_Draws, foldDraw_Bitmap]
  exact ⟨rfl, rfl⟩

/-- The merge loop of `refineRegions` preserves the replay invariant and
pairwise disjointness, and adds exactly the merged region's pixels. -/
lemma refineMergeLoop_spec (reg : Region) (hreg : reg.Bitmap = logSet reg.Draws) :
    ∀ (refined refined1 : List Region),
      refineMergeLoop reg refined = some refined1 →
      (∀ r ∈ refined, r.Bitmap = logSet r.Draws) →
      List.Pairwise (fun r s => Disjoint r.Bitmap s.Bitmap) refined →
      (∀ r ∈ refined, Disjoint reg.Bitmap r.Bitmap) →
      (∀ r ∈ refined1, r.Bitmap = logSet r.Draws) ∧
      List.Pairwise (fun r s => Disjoint r.Bitmap s.Bitmap) refined1 ∧
      unionBitmaps refined1 = unionBitmaps refined ∪ reg.Bitmap := by
  intro refined
  induction refined with
  | nil =>
    intro refined1 h
    cases h
  | cons other rest ih =>
    intro refined1 h hinv hpw hdis
    obtain ⟨hpw1, hpw2⟩ := List.pairwise_cons.1 hpw
    by_cases hadj : regionsAreAdjacent reg other
    · rw [refineMergeLoop, if_pos hadj] at h
      cases Option.some.inj h
      obtain ⟨hmd, hmb⟩ := mergeRegions_spec other reg
      have hother := hinv other (List.mem_cons_self _ _)
      have hmergeinv : (mergeRegions other reg).Bitmap =
          logSet (mergeRegions other reg).Draws := by
        rw [hmb, hmd, logSet_append, hother]
      refine ⟨?_, ?_, ?_⟩
      · intro r hr
        rcases List.mem_cons.1 hr with rfl | hr2
        · exact hmergeinv
        · exact hinv r (List.mem_cons_of_mem _ hr2)
      · refine List.pairwise_cons.2 ⟨?_, hpw2⟩
        intro s hs
        rw [hmb]
        rw [← hreg]
        exact Finset.disjoint_union_left.2
          ⟨hpw1 s hs, hdis s (List.mem_cons_of_mem _ hs)⟩
      · show (mergeRegions other reg).Bitmap ∪ unionBitmaps rest =
          (other.Bitmap ∪ unionBitmaps rest) ∪ reg.Bitmap
        rw [hmb, ← hreg]
        rw [Finset.union_right_comm]
    · rw [refineMergeLoop, if_neg hadj] at h
      cases hrec : refineMergeLoop reg rest with
      | none =>
        rw [hrec] at h
        cases h
      | some rest1 =>
        rw [hrec] at h
        cases Option.some.inj h
        obtain ⟨ih1, ih2, ih3⟩ := ih rest1 hrec
          (fun r hr => hinv r (List.mem_cons_of_mem _ hr)) hpw2
          (fun r hr => hdis r (List.mem_cons_of_mem _ hr))
        refine ⟨?_, ?_, ?_⟩
        · intro r hr
          rcases List.mem_cons.1 hr with rfl | hr2
          · exact hinv r (List.mem_cons_self _ _)
          · exact ih1 r hr2
        · refine List.pairwise_cons.2 ⟨?_, ih2⟩
          intro s hs
          have hssub : s.Bitmap ⊆ unionBitmaps rest ∪ reg.Bitmap :=
            ih3 ▸ bitmap_subset_unionBitmaps hs
          refine Finset.disjoint_of_subset_right hssub ?_
          rw [Finset.disjoint_union_right]
          exact ⟨disjoint_unionBitmaps hpw1,
            (hdis other (List.mem_cons_self _ _)).symm⟩
        · show other.Bitmap ∪ unionBitmaps rest1 =
            (other.Bitmap ∪ unionBitmaps rest) ∪ reg.Bitmap
          rw [ih3, Finset.union_assoc]

/-- `refineRegions` preserves the replay invariant, pairwise disjointness
and the union of the bitmaps. -/
lemma refineRegions_partition (c : Character) :
    ∀ (regions refined : List Region),
      (∀ r ∈ refined ++ regions, r.Bitmap = logSet r.Draws) →
      List.Pairwise (fun r s => Disjoint r.Bitmap s.Bitmap)
        (refined ++ regions) →
      (∀ r ∈ regions.foldl
          (fun refined reg =>
            if c.Config.MinRegionSize ≤ reg.Draws.length % 65536 then
              refined ++ [reg]
            else
              match refineMergeLoop reg refined with
              | some refined1 => refined1
              | none => refined ++ [reg])
          refined, r.Bitmap = logSet r.Draws) ∧
      List.Pairwise (fun r s => Disjoint r.Bitmap s.Bitmap)
        (regions.foldl
          (fun refined reg =>
            if c.Config.MinRegionSize ≤ reg.Draws.length % 65536 then
              refined ++ [reg]
            else
              match refineMergeLoop reg refined with
              | some refined1 => refined1
              | none => refined ++ [reg])
          refined) ∧
      unionBitmaps
        (regions.foldl
          (fun refined reg =>
            if c.Config.MinRegionSize ≤ reg.Draws.length % 65536 then
              refined ++ [reg]
            else
              match refineMergeLoop reg refined with
              | some refined1 => refined1
              | none => refined ++ [reg])
          refined) = unionBitmaps (refined ++ regions) := by
  intro regions
  induction regions with
  | nil =>
    intro refined hinv hpw
    rw [List.foldl_nil]
    exact ⟨fun r hr => hinv r (by simpa using hr), by simpa using hpw, by simp⟩
  | cons reg rest ih =>
    intro refined hinv hpw
    rw [List.foldl_cons]
    have hmove : refined ++ reg :: rest = (refined ++ [reg]) ++ rest := by
      simp
    by_cases hbig : c.Config.MinRegionSize ≤ reg.Draws.length % 65536
    · rw [if_pos hbig]
      obtain ⟨h1, h2, h3⟩ := ih (refined ++ [reg])
        (fun r hr => hinv r (hmove ▸ hr)) (hmove ▸ hpw)
      exact ⟨h1, h2, h3.trans (by rw [← hmove])⟩
    · rw [if_neg hbig]
      cases hloop : refineMergeLoop reg refined with
      | none =>
        obtain ⟨h1, h2, h3⟩ := ih (refined ++ [reg])
          (fun r hr => hinv r (hmove ▸ hr)) (hmove ▸ hpw)
        exact ⟨h1, h2, h3.trans (by rw [← hmove])⟩
      | some refined1 =>
        have hpwsplit := List.pairwise_append.1 hpw
        have hdis : ∀ r ∈ refined, Disjoint reg.Bitmap r.Bitmap := by
          intro r hr
          exact (hpwsplit.2.2 r hr reg (List.mem_cons_self _ _)).symm
        obtain ⟨hm1, hm2, hm3⟩ := refineMergeLoop_spec reg
          (hinv reg (by simp)) refined refined1 hloop
          (fun r hr => hinv r (List.mem_append_left _ hr))
          hpwsplit.1 hdis
        have hinv1 : ∀ r ∈ refined1 ++ rest, r.Bitmap = logSet r.Draws := by
          intro r hr
          rcases List.mem_append.1 hr with h | h
          · exact hm1 r h
          · exact hinv r (by simp [h])
        have hpw1 : List.Pairwise (fun r s => Disjoint r.Bitmap s.Bitmap)
            (refined1 ++ rest) := by
          rw [List.pairwise_append]
          refine ⟨hm2, (List.pairwise_cons.1 hpwsplit.2.1).2, ?_⟩
          intro a ha b hb
          have hasub : a.Bitmap ⊆ unionBitmaps refined ∪ reg.Bitmap :=
            hm3 ▸ bitmap_subset_unionBitmaps ha
          refine Finset.disjoint_of_subset_left hasub ?_
          rw [Finset.disjoint_union_left]
          constructor
          · refine (disjoint_unionBitmaps ?_).symm
            intro s hs
            exact (hpwsplit.2.2 s hs b (List.mem_cons_of_mem _ hb)).symm
          · exact (List.pairwise_cons.1 hpwsplit.2.1).1 b hb
        obtain ⟨h1, h2, h3⟩ := ih refined1 hinv1 hpw1
        refine ⟨h1, h2, h3.trans ?_⟩
        rw [unionBitmaps_append, hm3, unionBitmaps_append]
        show (unionBitmaps refined ∪ reg.Bitmap) ∪ unionBitmaps rest =
          unionBitmaps refined ∪ (reg.Bitmap ∪ unionBitmaps rest)
        rw [Finset.union_assoc]


/-- A fold whose steps preserve the draw log preserves it overall. -/
lemma foldl_draws {β : Type} (f : Character → β → Character) (l : List β)
    (hf : ∀ acc b, (f acc b).Draws = acc.Draws) :
    ∀ a : Character, (l.foldl f a).Draws = a.Draws := by
  induction l with
  | nil => exact fun a => rfl
  | cons b t ih =>
    intro a
    rw [List.foldl_cons, ih, hf]

/-- `detectCurvatureAnchors` does not touch the draw log. -/
lemma detectCurvatureAnchors_draws (c : Character) (contour : List Point)
    (curvatures : List ℝ) :
    (detectCurvatureAnchors c contour curvatures).Draws = c.Draws := by
  unfold detectCurvatureAnchors
  apply foldl_draws
  intro acc b
  dsimp only
  split_ifs <;> rfl

/-- `detectJunctionAnchors` does not touch the draw log. -/
lemma detectJunctionAnchors_draws (c : Character) :
    (detectJunctionAnchors c).Draws = c.Draws := by
  unfold detectJunctionAnchors
  apply foldl_draws
  intro acc b
  dsimp only
  split_ifs <;> rfl

/-- `detectExtremumAnchors` does not touch the draw log. -/
lemma detectExtremumAnchors_draws (c : Character) :
    (detectExtremumAnchors c).Draws = c.Draws := by
  unfold detectExtremumAnchors
  split
  · rfl
  · apply foldl_draws
    intro acc b
    dsimp only
    split_ifs <;> rfl

/-- `filterAnchors` does not touch the draw log. -/
lemma filterAnchors_draws (c : Character) :
    (filterAnchors c).Draws = c.Draws := by
  unfold filterAnchors
  split <;> rfl

/-- `CharacterDetectAnchors` does not touch the draw log. -/
lemma characterDetectAnchors_draws (c : Character) :
    (CharacterDetectAnchors c).Draws = c.Draws := by
  unfold CharacterDetectAnchors
  split
  · rfl
  · dsimp only
    split
    · rfl
    · rw [filterAnchors_draws, detectExtremumAnchors_draws]
      split
      · rw [detectJunctionAnchors_draws, detectCurvatureAnchors_draws]
        rfl
      · rw [detectCurvatureAnchors_draws]
        rfl

/-- `extractSkeletonBranches` does not touch the draw log. -/
lemma extractSkeletonBranches_draws (c : Character)
    (distField : ℕ × ℕ → WithTop ℝ) :
    (extractSkeletonBranches c distField).Draws = c.Draws := by
  unfold extractSkeletonBranches
  split <;> rfl

/-- `pruneShortBranches` does not touch the draw log. -/
lemma pruneShortBranches_draws (c : Character) :
    (pruneShortBranches c).Draws = c.Draws := rfl

/-- `CharacterComputeMedialAxis` does not touch the draw log. -/
lemma characterComputeMedialAxis_draws (c : Character) :
    (CharacterComputeMedialAxis c).Draws = c.Draws := by
  unfold CharacterComputeMedialAxis
  split
  · rfl
  · dsimp only
    rw [pruneShortBranches_draws, extractSkeletonBranches_draws]

/-- The decomposition returns log-replaying regions with pairwise disjoint
bitmaps whose union is the pixel set covered by the character's draw log. -/
lemma breakdown_partition (c : Character) (h : c.IsEmpty = false) :
    (∀ r ∈ CharacterBreakdownToRegions c, r.Bitmap = logSet r.Draws) ∧
    List.Pairwise (fun r s => Disjoint r.Bitmap s.Bitmap)
      (CharacterBreakdownToRegions c) ∧
    unionBitmaps (CharacterBreakdownToRegions c) = logSet c.Draws := by
  unfold CharacterBreakdownToRegions
  rw [if_neg (by rw [h]; exact Bool.false_ne_true)]
  dsimp only
  set c2 := if (if c.AnchorPoints.length = 0 then CharacterDetectAnchors c
        else c).MedialAxis.length = 0 then
      CharacterComputeMedialAxis
        (if c.AnchorPoints.length = 0 then CharacterDetectAnchors c else c)
    else if c.AnchorPoints.length = 0 then CharacterDetectAnchors c else c
    with hc2
  have hdr : c2.Draws = c.Draws := by
    rw [hc2]
    split <;> (try split) <;>
      simp only [characterComputeMedialAxis_draws, characterDetectAnchors_draws]
  obtain ⟨hs1, hs2, hs3⟩ := segmentCharacter_partition c2
    (identifySegmentationLines c2)
  have hrefine := refineRegions_partition c2
    (segmentCharacter c2 (identifySegmentationLines c2)) []
    (by simpa using hs1) (by simpa using hs2)
  obtain ⟨h1, h2, h3⟩ := hrefine
  unfold analyzeRegions
  unfold refineRegions
  refine ⟨h1, h2, h3.trans ?_⟩
  rw [List.nil_append, hs3, hdr]

/-- C1 (amended): for every non-empty character the decomposition's region
bitmaps are pairwise disjoint and their union is the pixel set covered by
the character's draw log — which contains the foreground set but can exceed
it when the log holds stale entries for erased pixels. -/
theorem c1_breakdown_partitions_draw_log (c : Character)
    (h : c.IsEmpty = false) :
    List.Pairwise (fun r s => Disjoint r.Bitmap s.Bitmap)
      (CharacterBreakdownToRegions c) ∧
    unionBitmaps (CharacterBreakdownToRegions c) = logSet c.Draws :=
  ⟨(breakdown_partition c h).2.1, (breakdown_partition c h).2.2⟩

/-- Counterexample to C1 as stated: a pixel drawn twice and erased once
leaves a stale log entry; the decomposition then returns a region in which
the pixel is drawn although the character's foreground no longer contains
it, so the union of the region foregrounds is not the character's foreground
set. -/
theorem c1_counterexample :
    c1StaleCharacter.IsEmpty = false ∧
    c1StaleCharacter.IsDrew 1 1 = false ∧
    ∃ r ∈ CharacterBreakdownToRegions c1StaleCharacter,
      r.IsDrew 1 1 = true := by
  refine ⟨by decide, by decide, ?_⟩
  have h := (breakdown_partition c1StaleCharacter (by decide)).2.2
  have hmem : ((1, 1) : ℕ × ℕ) ∈ logSet c1StaleCharacter.Draws := by decide
  rw [← h] at hmem
  obtain ⟨r, hr, hrb⟩ := mem_unionBitmaps.1 hmem
  exact ⟨r, hr, by rw [Region.IsDrew]; exact decide_eq_true hrb⟩

/-- Witness for the amended C1 theorem at the concrete stale character. -/
theorem c1_witness :
    List.Pairwise (fun r s => Disjoint r.Bitmap s.Bitmap)
      (CharacterBreakdownToRegions c1StaleCharacter) ∧
    unionBitmaps (CharacterBreakdownToRegions c1StaleCharacter) =
      logSet c1StaleCharacter.Draws :=
  c1_breakdown_partitions_draw_log c1StaleCharacter (by decide)

end Glyph
